import Mathlib

/-!
# Offset and cohort bookkeeping of the script-to-C++ compiler's globals

A shallow embedding of `src/script_opt/CPP/Globals.h`, `GlobalInfo.cc`
(compile side: descriptors, pools, cohort buckets, emitted initializers) and
`RuntimeInits.h` (run-time side: the offset-addressed storage arrays, the
cross-reference accessors and the cohort-ordered initialization loops).

Conventions of the embedding:

* a C++ `int` is an `Int`; the counters involved (pool sizes, cohorts,
  offsets) are container sizes, far below the range of `int`;
* a `std::vector` is a `List`; `v[i]` with an `int` index is `vecAt v i`,
  which is `none` when the index is negative or past the end (the access
  the C++ standard leaves undefined);
* a smart pointer that may be null is an `Option` (`none` is `nullptr`);
* a function whose C++ body can perform an undefined access returns an
  `Option`: `none` stands for that access, `some r` for a normal return;
* calls to virtual methods whose bodies live in subclasses (`PreInit`,
  `Generate`) and calls to the code emitter (`Emit`, `NL`, ...) are
  recorded, in order, in the list the embedded function returns;
* an `ASSERT` whose condition fails makes the embedded function return
  `none`, like an undefined access;
* a virtual method a base-class loop dispatches to (`InitElem`) is an
  argument of the embedded loop.
-/

namespace Zeek

/-! ## Vectors -/

/-- Element access `v[i]` of a `std::vector` with an `int` index. -/
def vecAt {α : Type} (v : List α) (i : Int) : Option α :=
  if 0 ≤ i then v[i.toNat]? else none

/-- The effect of `std::vector::resize(n)`: keep the first `n` elements and pad
with value-initialized elements `d` up to length `n`. -/
def vresize {α : Type} (v : List α) (n : Nat) (d : α) : List α :=
  v.take n ++ List.replicate (n - v.length) d

/-- A counted loop `for ( i = 0; i < n; ++i ) body(i)`: the bodies run in
increasing order of `i`, each result is appended; the loop has no result
once a body has none. -/
def forUpTo {α : Type} (f : Nat → Option α) : Nat → Option (List α)
  | 0 => some []
  | n + 1 =>
    match forUpTo f n with
    | none => none
    | some xs =>
      match f n with
      | none => none
      | some x => some (xs ++ [x])

/-! ## Compile side: descriptors (`CPP_GlobalInfo` and its subclasses) -/

/-- Modelled from the spec: the integer formatter `Fmt`, declared outside the
given sources; it renders an `int` as its decimal numeral. -/
def Fmt (i : Int) : String := toString i

/-- The flavors of a function type (`FUNC_FLAVOR_*`). The last constructor
stands for any other value of the enumeration. -/
inductive FunctionFlavor where
  | FUNC_FLAVOR_FUNCTION
  | FUNC_FLAVOR_EVENT
  | FUNC_FLAVOR_HOOK
  | other
  deriving DecidableEq, Repr

/-- The data members the subclasses of `CPP_GlobalInfo` add, one constructor
per subclass defined in `GlobalInfo.cc`. Text that the constructors obtain
from helpers outside the sources (`CPPEscape`, `AttrName`, `TypeTagName`,
the name of a type) is stored as the resulting string. -/
inductive InfoData where
  | StringConstantInfo (rep : String) (len : Int)
  | PatternConstantInfo (pattern : String) (is_case_insensitive : Int)
  | DescConstantInfo (init : String)
  | AttrInfo (tag : String) (expr_param : String)
  | AttrsInfo (attrs : List Int)
  | BaseTypeInfo (tag_name : String)
  | EnumTypeInfo (name : String) (names : List (String × Int))
  | OpaqueTypeInfo (name : String)
  | TypeTypeInfo (tt_offset : Int)
  | VectorTypeInfo (yt_offset : Int)
  | ListTypeInfo (type_offsets : List Int)
  | TableTypeInfo (indices : Int) (yield : Int)
  | FuncTypeInfo (flavor : FunctionFlavor) (params : Int) (yield : Int)
  deriving DecidableEq, Repr

/-- The class `CPP_GlobalInfo`: one descriptor. `gls` is the pointer to the
owning pool, represented by the pool's tag (the only data of the pool a
descriptor reads, fixed when the pool is constructed); `none` is `nullptr`. -/
structure CPP_GlobalInfo where
  name : String
  type : String
  init_cohort : Int
  gls : Option String
  offset : Int
  data : InfoData
  deriving DecidableEq, Repr

namespace CPP_GlobalInfo

/-- The constructor `CPP_GlobalInfo(_name, _type, _init_cohort)` used for
stand-alone globals; `gls` and `offset` keep their member initializers. -/
def standAlone (_name _type : String) (_init_cohort : Int) (d : InfoData) : CPP_GlobalInfo :=
  { name := _name, type := _type, init_cohort := _init_cohort, gls := none, offset := -1,
    data := d }

/-- The constructor `CPP_GlobalInfo(_init_cohort)` used for a global that will
be part of a pool. -/
def pooled (_init_cohort : Int) (d : InfoData) : CPP_GlobalInfo :=
  { name := "", type := "", init_cohort := _init_cohort, gls := none, offset := -1, data := d }

/-- The method `SetOffset(_gls, _offset)`. -/
def SetOffset (g : CPP_GlobalInfo) (_gls : String) (_offset : Int) : CPP_GlobalInfo :=
  { g with gls := some _gls, offset := _offset }

/-- The accessor `InitCohort()`. -/
def InitCohort (g : CPP_GlobalInfo) : Int := g.init_cohort

/-- The accessor `Offset()` (declared outside the given sources, used by the
constructors of `GlobalInfo.cc`): the offset set by `SetOffset`. -/
def Offset (g : CPP_GlobalInfo) : Int := g.offset

end CPP_GlobalInfo

/-! ### Constructors of the type and attribute-list descriptors

`c->RegisterType(..)` and `c->processed_attr[..]` belong to the compiler
object, outside the given sources; what the constructors use of them is the
descriptor `gi` they return, already registered in its pool, which is taken
as an argument here. `c0` is the value of `init_cohort` that the base-class
part of the constructor (`CPP_GlobalInfo()`, `AbstractTypeInfo(_t)`, declared
outside the given sources) leaves behind. -/

/-- The constructor `AttrsInfo::AttrsInfo`: `gis` are the registered
descriptors of the attributes of the list, in order. -/
def AttrsInfo (c0 : Int) (gis : List CPP_GlobalInfo) : CPP_GlobalInfo :=
  let st := gis.foldl
    (fun (st : Int × List Int) gi => (max st.1 (gi.InitCohort + 1), st.2 ++ [gi.Offset]))
    (c0, [])
  CPP_GlobalInfo.pooled st.1 (InfoData.AttrsInfo st.2)

/-- The constructor `TypeTypeInfo::TypeTypeInfo`: `gi` is the registered
descriptor of the type the type-of-type stands for. -/
def TypeTypeInfo (c0 : Int) (gi : CPP_GlobalInfo) : CPP_GlobalInfo :=
  let self := CPP_GlobalInfo.pooled c0 (InfoData.TypeTypeInfo gi.Offset)
  { self with init_cohort := gi.InitCohort }

/-- The constructor `VectorTypeInfo::VectorTypeInfo`: `gi` is the registered
descriptor of the yield type. -/
def VectorTypeInfo (c0 : Int) (gi : CPP_GlobalInfo) : CPP_GlobalInfo :=
  let self := CPP_GlobalInfo.pooled c0 (InfoData.VectorTypeInfo gi.Offset)
  { self with init_cohort := gi.InitCohort }

/-- The constructor `ListTypeInfo::ListTypeInfo`: `gis` are the registered
descriptors of the types of the list, in order. -/
def ListTypeInfo (c0 : Int) (gis : List CPP_GlobalInfo) : CPP_GlobalInfo :=
  let st := gis.foldl
    (fun (st : Int × List Int) gi => (max st.1 gi.InitCohort, st.2 ++ [gi.Offset]))
    (c0, [])
  CPP_GlobalInfo.pooled st.1 (InfoData.ListTypeInfo st.2)

/-- The constructor `TableTypeInfo::TableTypeInfo`: `gi` is the registered
descriptor of the index type list, `gy` that of the yield type when the table
has one; `yield0` is the value the member `yield` starts with. -/
def TableTypeInfo (c0 : Int) (yield0 : Int) (gi : CPP_GlobalInfo) (gy : Option CPP_GlobalInfo) :
    CPP_GlobalInfo :=
  let indices := gi.Offset
  let init_cohort := gi.InitCohort
  match gy with
  | some gi2 =>
    { CPP_GlobalInfo.pooled c0 (InfoData.TableTypeInfo indices gi2.Offset) with
      init_cohort := max init_cohort gi2.InitCohort }
  | none =>
    { CPP_GlobalInfo.pooled c0 (InfoData.TableTypeInfo indices yield0) with
      init_cohort := init_cohort }

/-- The constructor `FuncTypeInfo::FuncTypeInfo`: `gi` is the registered
descriptor of the parameter record type, `gy` that of the yield type when the
function has one; `yield0` is the value the member `yield` starts with. -/
def FuncTypeInfo (c0 : Int) (yield0 : Int) (flavor : FunctionFlavor) (gi : CPP_GlobalInfo)
    (gy : Option CPP_GlobalInfo) : CPP_GlobalInfo :=
  let params := gi.Offset
  let init_cohort := gi.InitCohort
  match gy with
  | some gi2 =>
    { CPP_GlobalInfo.pooled c0 (InfoData.FuncTypeInfo flavor params gi2.Offset) with
      init_cohort := max init_cohort gi2.InitCohort }
  | none =>
    { CPP_GlobalInfo.pooled c0 (InfoData.FuncTypeInfo flavor params yield0) with
      init_cohort := init_cohort }

/-! ### The virtual method `Initializer()` -/

/-- The loops of the form `for ( auto a : xs ) acc += Fmt(a) + ", ";`. -/
def fmtList (xs : List Int) : String :=
  xs.foldl (fun acc a => acc ++ (Fmt a ++ ", ")) ""

/-- The virtual method `Initializer()`, by subclass. `DescConstantInfo` reads
the tag of its pool through `gls`, which must have been set. -/
def CPP_GlobalInfo.Initializer (g : CPP_GlobalInfo) : Option String :=
  match g.data with
  | .StringConstantInfo rep len => some ("CPP_StringConst(" ++ Fmt len ++ ", " ++ rep ++ ")")
  | .PatternConstantInfo pattern is_case_insensitive =>
    some ("CPP_PatternConst(" ++ pattern ++ ", " ++ Fmt is_case_insensitive ++ ")")
  | .DescConstantInfo init =>
    match g.gls with
    | none => none
    | some tag => some ("CPP_" ++ tag ++ "Const(\"" ++ init ++ "\")")
  | .AttrInfo tag expr_param => some ("CPP_Attr(" ++ tag ++ ", " ++ expr_param ++ ")")
  | .AttrsInfo attrs => some ("CPP_Attrs(\x7b " ++ fmtList attrs ++ "\x7d)")
  | .BaseTypeInfo tag_name => some ("CPP_BaseType(" ++ tag_name ++ ")")
  | .EnumTypeInfo name names =>
    let elem_list := names.foldl (fun acc np => acc ++ ("\"" ++ np.1 ++ "\", ")) ""
    let val_list := names.foldl (fun acc np => acc ++ (Fmt np.2 ++ ", ")) ""
    some ("CPP_EnumType(\"" ++ name ++ "\", \x7b " ++ elem_list ++ "\x7d, \x7b " ++ val_list
      ++ "\x7d)")
  | .OpaqueTypeInfo name => some ("CPP_OpaqueType(\"" ++ name ++ "\")")
  | .TypeTypeInfo tt_offset => some ("CPP_TypeType(" ++ Fmt tt_offset ++ ")")
  | .VectorTypeInfo yt_offset => some ("CPP_VectorType(" ++ Fmt yt_offset ++ ")")
  | .ListTypeInfo type_offsets => some ("CPP_TypeList(\x7b " ++ fmtList type_offsets ++ "\x7d)")
  | .TableTypeInfo indices yield =>
    some ("CPP_TableType(" ++ Fmt indices ++ ", " ++ Fmt yield ++ ")")
  | .FuncTypeInfo flavor params yield =>
    let fl_name :=
      match flavor with
      | .FUNC_FLAVOR_FUNCTION => "FUNC_FLAVOR_FUNCTION"
      | .FUNC_FLAVOR_EVENT => "FUNC_FLAVOR_EVENT"
      | .FUNC_FLAVOR_HOOK => "FUNC_FLAVOR_HOOK"
      | .other => ""
    some ("CPP_FuncType(" ++ Fmt params ++ ", " ++ Fmt yield ++ ", " ++ fl_name ++ ")")

/-! ## Compile side: pools (`CPP_GlobalsInfo`) -/

/-- The class `CPP_GlobalsInfo`: a pool of descriptors of one kind. -/
structure CPP_GlobalsInfo where
  size : Int
  instances : List (List CPP_GlobalInfo)
  tag : String
  type : String
  base_name : String
  deriving DecidableEq, Repr

namespace CPP_GlobalsInfo

/-- The constructor `CPP_GlobalsInfo(_tag, _type)`: a fresh pool. -/
def new (_tag _type : String) : CPP_GlobalsInfo :=
  { size := 0, instances := [], tag := _tag, type := _type,
    base_name := "CPP__" ++ _tag ++ "const__" }

/-- The method `Name(index)`. -/
def Name (p : CPP_GlobalsInfo) (index : Int) : String :=
  p.base_name ++ "[" ++ Fmt index ++ "]"

/-- The method `Size()`. -/
def Size (p : CPP_GlobalsInfo) : Int := p.size

/-- The method `NextName()`. -/
def NextName (p : CPP_GlobalsInfo) : String := p.Name p.Size

/-- The method `MaxCohort()`. -/
def MaxCohort (p : CPP_GlobalsInfo) : Int := (p.instances.length : Int) - 1

/-- The method `CPPType()`. -/
def CPPType (p : CPP_GlobalsInfo) : String := p.type ++ "ValPtr"

/-- The method `AddInstance(g)`. Returns the updated pool and the descriptor as
`SetOffset` leaves it (the descriptor is shared between the caller and the
bucket). The bucket access `instances[init_cohort]` is the one access that
can be out of range (for a negative cohort). -/
def AddInstance (p : CPP_GlobalsInfo) (g : CPP_GlobalInfo) :
    Option (CPP_GlobalsInfo × CPP_GlobalInfo) :=
  let init_cohort := g.InitCohort
  let instances :=
    if (p.instances.length : Int) ≤ init_cohort then
      vresize p.instances (init_cohort + 1).toNat []
    else p.instances
  let g' := g.SetOffset p.tag p.size
  let size := p.size + 1
  match vecAt instances init_cohort with
  | none => none
  | some bucket =>
    some ({ p with size := size,
                   instances := instances.set init_cohort.toNat (bucket ++ [g']) }, g')

/-- Registering the descriptors of a list one after the other with
`AddInstance`; returns the final pool and the descriptors as registered. -/
def AddInstances (p : CPP_GlobalsInfo) :
    List CPP_GlobalInfo → Option (CPP_GlobalsInfo × List CPP_GlobalInfo)
  | [] => some (p, [])
  | g :: gs =>
    match p.AddInstance g with
    | none => none
    | some (p', g') =>
      match AddInstances p' gs with
      | none => none
      | some (p'', gs') => some (p'', g' :: gs')

end CPP_GlobalsInfo

/-! ### Emission -/

/-- A call made on the code emitter (`CPPCompile`, outside the given sources).
`Emit s` carries the text after the format arguments are substituted. -/
inductive EmitCall where
  | NL
  | Emit (s : String)
  | IndentUp
  | IndentDown
  deriving DecidableEq, Repr

/-- A range-based loop `for ( auto& x : xs ) body(x)`: like `forUpTo`, over the
elements of a vector. -/
def forEach {α β : Type} (f : α → Option β) : List α → Option (List β)
  | [] => some []
  | x :: xs =>
    match f x with
    | none => none
    | some y =>
      match forEach f xs with
      | none => none
      | some ys => some (y :: ys)

/-- The inner loop of `GenerateInitializers` over one cohort bucket. -/
def emitCohort (cohort : List CPP_GlobalInfo) : Option (List EmitCall) :=
  forEach (fun co => co.Initializer.map (fun s => EmitCall.Emit (s ++ ","))) cohort

/-- The method `GenerateInitializers(c)`: the calls made on the emitter `c`, in
order. `initializers_name` is the result of `InitializersName()`, which is
declared outside the given sources. -/
def CPP_GlobalsInfo.GenerateInitializers (p : CPP_GlobalsInfo) (initializers_name : String) :
    Option (List EmitCall) :=
  match forEach
      (fun cohort => (emitCohort cohort).map
        (fun body => [EmitCall.Emit "\x7b"] ++ body ++ [EmitCall.Emit "\x7d,"]))
      p.instances with
  | none => none
  | some groups =>
    some ([EmitCall.NL,
           EmitCall.Emit ("CPP_Globals<" ++ p.CPPType ++ "> " ++ initializers_name
             ++ " = CPP_Globals<" ++ p.CPPType ++ ">(" ++ p.base_name ++ ", "),
           EmitCall.IndentUp,
           EmitCall.Emit "\x7b"]
          ++ groups.flatten
          ++ [EmitCall.Emit "\x7d", EmitCall.IndentDown, EmitCall.Emit ");"])

/-! ## Run-time side (`RuntimeInits.h`) -/

/-- Modelled from the spec: the kind tag `TypeTag`, an enumeration declared
outside the given sources; only equality of tags matters. -/
abbrev TypeTag := Nat

/-- The struct `CPP_ValElem`: a cross-reference, a kind tag and an offset. -/
structure CPP_ValElem where
  tag : TypeTag
  offset : Int
  deriving DecidableEq, Repr

/-- The classes `CPP_AbstractInitAccessor` (first constructor) and
`CPP_InitAccessor<T>` (second constructor, with the storage array it refers
to, in its current state). A slot of a storage array is a pointer, `none`
while it is null. -/
inductive CPP_AbstractInitAccessor (V : Type) where
  | abstract
  | CPP_InitAccessor (inits_vec : List (Option V))

/-- The virtual method `Get(index)`: the base class returns `nullptr`, the
subclass returns `inits_vec[index]`. -/
def CPP_AbstractInitAccessor.Get {V : Type} :
    CPP_AbstractInitAccessor V → Int → Option (Option V)
  | .abstract, _ => some none
  | .CPP_InitAccessor inits_vec, index => vecAt inits_vec index

/-- The class `InitsManager`, with the side tables the embedded methods read.
`consts` is the map from kind tags to accessors; `none` is a tag with no
accessor (absent from the map, or mapped to a null pointer). -/
structure InitsManager (V : Type) where
  const_vals : List CPP_ValElem
  consts : TypeTag → Option (CPP_AbstractInitAccessor V)
  indices : List (List Int)
  strings : List String

namespace InitsManager

variable {V : Type}

/-- The method `Consts(tag, index)`. -/
def Consts (im : InitsManager V) (tag : TypeTag) (index : Int) : Option (Option V) :=
  match im.consts tag with
  | none => none
  | some acc => acc.Get index

/-- The method `ConstVals(offset)`. -/
def ConstVals (im : InitsManager V) (offset : Int) : Option (Option V) :=
  match vecAt im.const_vals offset with
  | none => none
  | some cv => im.Consts cv.tag cv.offset

/-- The method `Indices(offset)`. -/
def Indices (im : InitsManager V) (offset : Int) : Option (List Int) :=
  vecAt im.indices offset

/-- The method `Strings(offset)`. -/
def Strings (im : InitsManager V) (offset : Int) : Option String :=
  vecAt im.strings offset

end InitsManager

/-- A call of one of the two virtual methods of `CPP_Init<T>` made by a
`CPP_CustomInits<T>`: the initializer object it is made on and the `offset`
argument (the other two arguments are always the manager and the storage
array of the pool). -/
inductive InitCall (I : Type) where
  | PreInit (init : I) (offset : Int)
  | Generate (init : I) (offset : Int)
  deriving DecidableEq, Repr

/-- The class `CPP_CustomInits<T>`: `V` is the pointee type of the storage
array, `I` the type of the initializer objects. -/
structure CPP_CustomInits (V I : Type) where
  inits_vec : List (Option V)
  offsets_set : Int
  inits : List (List I)

namespace CPP_CustomInits

variable {V I : Type}

/-- The constructor of `CPP_CustomInits<T>`. -/
def new (_inits_vec : List (Option V)) (_offsets_set : Int) (_inits : List (List I)) :
    CPP_CustomInits V I :=
  let num_inits := _inits.foldl (fun (n : Int) cohort => n + (cohort.length : Int)) 0
  { inits_vec := vresize _inits_vec num_inits.toNat none,
    offsets_set := _offsets_set,
    inits := _inits }

/-- The loop `for ( i = 0U; i < co.size(); ++i ) co[i]->m(im, inits_vec,
cohort_offsets[i])` shared by `InitializeCohort` and `DoPreInits`, with `m`
one of the two virtual methods. -/
def callLoop (m : I → Int → InitCall I) (co : List I) (cohort_offsets : List Int) :
    Option (List (InitCall I)) :=
  forUpTo
    (fun i =>
      match co[i]? with
      | none => none
      | some init =>
        match vecAt cohort_offsets (i : Int) with
        | none => none
        | some offset => some (m init offset))
    co.length

/-- The method `DoPreInits(im)`: the calls of `PreInit` it makes, in order. -/
def DoPreInits (c : CPP_CustomInits V I) (im : InitsManager V) : Option (List (InitCall I)) :=
  match im.Indices c.offsets_set with
  | none => none
  | some offsets_vec =>
    (forUpTo
      (fun cohort =>
        match c.inits[cohort]? with
        | none => none
        | some co =>
          match vecAt offsets_vec (cohort : Int) with
          | none => none
          | some o =>
            match im.Indices o with
            | none => none
            | some cohort_offsets => callLoop InitCall.PreInit co cohort_offsets)
      c.inits.length).map List.flatten

/-- The method `InitializeCohort(im, cohort)`: the calls of `PreInit` and
`Generate` it makes, in order. -/
def InitializeCohort (c : CPP_CustomInits V I) (im : InitsManager V) (cohort : Int) :
    Option (List (InitCall I)) :=
  match (if cohort = 0 then c.DoPreInits im else some []) with
  | none => none
  | some pre =>
    match im.Indices c.offsets_set with
    | none => none
    | some offsets_vec =>
      match vecAt c.inits cohort with
      | none => none
      | some co =>
        match vecAt offsets_vec cohort with
        | none => none
        | some o =>
          match im.Indices o with
          | none => none
          | some cohort_offsets =>
            match callLoop InitCall.Generate co cohort_offsets with
            | none => none
            | some gen => some (pre ++ gen)

/-- Running `InitializeCohort` for the cohorts `0, 1, .., n - 1` in increasing
order, once each: the calls made, in order. -/
def InitializeCohorts (c : CPP_CustomInits V I) (im : InitsManager V) (n : Nat) :
    Option (List (InitCall I)) :=
  (forUpTo (fun cohort => c.InitializeCohort im (cohort : Int)) n).map List.flatten

end CPP_CustomInits

/-- Running `InitializeCohort(im, cohort)` on each pool of a list, in the order
of the list: the calls made, in order. -/
def InitializePools {V I : Type} (pools : List (CPP_CustomInits V I)) (im : InitsManager V)
    (cohort : Int) : Option (List (InitCall I)) :=
  (forEach (fun c => c.InitializeCohort im cohort) pools).map List.flatten

/-! ## Reference notions used to state the properties -/

/-- The descriptors of a list as registration into a pool of tag `tag` leaves
them, when the first one is registered at offset `s`: the `i`-th one has had
`SetOffset(pool, s + i)` applied. -/
def registered (tag : String) : Int → List CPP_GlobalInfo → List CPP_GlobalInfo
  | _, [] => []
  | s, g :: gs => g.SetOffset tag s :: registered tag (s + 1) gs

/-- The descriptors of a list whose cohort is `k`, in the order of the list. -/
def ofCohort (k : Nat) (gs : List CPP_GlobalInfo) : List CPP_GlobalInfo :=
  gs.filter (fun g => g.init_cohort = (k : Int))

/-- One more than the largest cohort of a list of descriptors, `0` for the
empty list. -/
def cohortCount : List CPP_GlobalInfo → Nat
  | [] => 0
  | g :: gs => max (g.init_cohort + 1).toNat (cohortCount gs)

/-- The offset arguments of the `Generate` calls of a list of calls. -/
def generateOffsets {I : Type} (calls : List (InitCall I)) : List Int :=
  calls.filterMap (fun c => match c with
    | .Generate _ offset => some offset
    | .PreInit _ _ => none)

/-- Whether a call is a call of `PreInit`. -/
def InitCall.isPreInit {I : Type} : InitCall I → Bool
  | .PreInit _ _ => true
  | .Generate _ _ => false

/-- The calls `m co[0] offs[0], m co[1] offs[1], ..` for each cohort `co` of
`inits` with the offset list `offs` at the same position in `table`, cohort
after cohort. -/
def callsOf {I : Type} (m : I → Int → InitCall I) (inits : List (List I))
    (table : List (List Int)) : List (InitCall I) :=
  (List.zipWith (fun co offs => List.zipWith m co offs) inits table).flatten

/-- The offset list the offset table of `im` gives cohort `k` of the pool whose
table is number `offsets_set`: `Indices(Indices(offsets_set)[k])`. -/
def cohortOffsets {V : Type} (im : InitsManager V) (offsets_set : Int) (k : Nat) :
    Option (List Int) :=
  match im.Indices offsets_set with
  | none => none
  | some offsets_vec =>
    match vecAt offsets_vec (k : Int) with
    | none => none
    | some o => im.Indices o

/-- The initializer object a call is made on. -/
def InitCall.init {I : Type} : InitCall I → I
  | .PreInit init _ => init
  | .Generate init _ => init

/-- The offset table of `im` for a pool with `n` cohorts whose table is number
`offsets_set`, read as one offset list per cohort. -/
def tableOf {V : Type} (im : InitsManager V) (offsets_set : Int) (n : Nat) : List (List Int) :=
  (List.range n).map (fun k => (cohortOffsets im offsets_set k).getD [])

/-- No call of `PreInit` comes after a call of `Generate` in a list of calls. -/
def PreInitsFirst {I : Type} (calls : List (InitCall I)) : Prop :=
  ∀ i j : Nat, i < j → (calls[i]?).map InitCall.isPreInit = some false →
    (calls[j]?).map InitCall.isPreInit ≠ some true

/-! ## Further constructors of `GlobalInfo.cc` -/

/-- Modelled from the spec: the cohort a descriptor has when the base-class part
of its constructor is done and no dependency has been folded in yet. The
default constructor `CPP_GlobalInfo()` and the class `AbstractTypeInfo`, which
the constructors of `GlobalInfo.cc` start from, are declared outside the
given sources; the spec fixes the value: "a descriptor with no dependencies
is always cohort 0". -/
def defaultInitCohort : Int := 0

/-- The constructor `StringConstantInfo::StringConstantInfo`: `b` is the text of
the string value `v`, `len` its length in bytes; `CPPEscape` is the escaping
helper, declared outside the given sources. -/
def StringConstantInfo (c0 : Int) (CPPEscape : String → Int → String) (b : String) :
    CPP_GlobalInfo :=
  let len : Int := (b.utf8ByteSize : Int)
  let rep := CPPEscape b len
  CPP_GlobalInfo.pooled c0 (InfoData.StringConstantInfo rep len)

/-- The constructor `PatternConstantInfo::PatternConstantInfo`: `orig_text` and
`case_insensitive` are `re->OrigText()` and `re->IsCaseInsensitive()` of the
pattern value; `CPPEscape` is the escaping helper, declared outside the given
sources. -/
def PatternConstantInfo (c0 : Int) (CPPEscape : String → String) (orig_text : String)
    (case_insensitive : Bool) : CPP_GlobalInfo :=
  let pattern := CPPEscape orig_text
  let is_case_insensitive : Int := if case_insensitive then 1 else 0
  CPP_GlobalInfo.pooled c0 (InfoData.PatternConstantInfo pattern is_case_insensitive)

/-- The constructor `DescConstantInfo::DescConstantInfo`: `description` is the
text `v->Describe` produces. -/
def DescConstantInfo (c0 : Int) (description : String) : CPP_GlobalInfo :=
  CPP_GlobalInfo.pooled c0 (InfoData.DescConstantInfo description)

/-- The method `CPP_GlobalInfo::Name()`: `gls ? gls->Name(offset) : name`, where
the pool behind `gls` has the base name `"CPP__" + tag + "const__"` its
constructor gave it. -/
def CPP_GlobalInfo.Name (g : CPP_GlobalInfo) : String :=
  match g.gls with
  | some tag => ("CPP__" ++ tag ++ "const__") ++ "[" ++ Fmt g.offset ++ "]"
  | none => g.name

/-- The expression tags the constructor of `AttrInfo` tells apart. The last
constructor stands for any other tag. -/
inductive ExprTag where
  | EXPR_CONST
  | EXPR_NAME
  | EXPR_RECORD_COERCE
  | other
  deriving DecidableEq, Repr

/-- What the constructor of `AttrInfo` reads of the expression `a_e` of an
attribute, through the compiler object (outside the given sources): the
registered descriptor of its type (`c->RegisterType(a_e->GetType())`),
`CPPCompile::IsSimpleInitExpr(a_e)`, `a_e->Tag()`, `c->InitExprName(a_e)`,
`c->GenExpr(a_e, GEN_VAL_PTR)` and `c->GlobalName(a_e)`. -/
structure AttrExpr where
  gi : CPP_GlobalInfo
  is_simple_init : Bool
  tag : ExprTag
  init_expr_name : String
  gen_expr : String
  global_name : String
  deriving DecidableEq, Repr

/-- The constructor `AttrInfo::AttrInfo`: `tag` is `c->AttrName(attr->Tag())`,
`a_e` the expression of the attribute (`none` when it has none). An `ASSERT`
that fails makes the result `none`. -/
def AttrInfo (c0 : Int) (tag : String) (a_e : Option AttrExpr) : Option CPP_GlobalInfo :=
  match a_e with
  | some e =>
    let init_cohort := max c0 (e.gi.InitCohort + 1)
    let expr_type := e.gi.Name
    if e.is_simple_init = false then
      some { CPP_GlobalInfo.pooled c0 (InfoData.AttrInfo tag e.init_expr_name) with
             init_cohort := init_cohort }
    else
      match e.tag with
      | .EXPR_CONST =>
        some { CPP_GlobalInfo.pooled c0
                 (InfoData.AttrInfo tag ("make_intrusive<ConstExpr>(" ++ e.gen_expr ++ ")")) with
               init_cohort := init_cohort }
      | .EXPR_NAME =>
        some { CPP_GlobalInfo.pooled c0
                 (InfoData.AttrInfo tag ("make_intrusive<NameExpr>(" ++ e.global_name ++ ")")) with
               init_cohort := init_cohort }
      | .EXPR_RECORD_COERCE =>
        some { CPP_GlobalInfo.pooled c0
                 (InfoData.AttrInfo tag
                   ("make_intrusive<RecordCoerceExpr>(make_intrusive<RecordConstructorExpr>("
                     ++ "make_intrusive<ListExpr>()), cast_intrusive<RecordType>("
                     ++ (expr_type ++ "))"))) with
               init_cohort := init_cohort }
      | .other => none
  | none => some (CPP_GlobalInfo.pooled c0 (InfoData.AttrInfo tag "nullptr"))

/-! ## Run-time side: effects on the storage array -/

/-- Element assignment `v[i] = x` of a `std::vector` with an `int` index. -/
def vecSet {α : Type} (v : List α) (i : Int) (x : α) : Option (List α) :=
  if 0 ≤ i ∧ i.toNat < v.length then some (v.set i.toNat x) else none

/-- A counted loop `for ( i = 0; i < n; ++i ) body(i)` whose bodies update a
state. -/
def forUpToState {σ : Type} (f : Nat → σ → Option σ) : Nat → σ → Option σ
  | 0, s => some s
  | n + 1, s =>
    match forUpToState f n s with
    | none => none
    | some s' => f n s'

/-- The offset argument of a call. -/
def InitCall.offset {I : Type} : InitCall I → Int
  | .PreInit _ offset => offset
  | .Generate _ offset => offset

/-- The classes of initializer objects of `RuntimeInits.h` whose methods are
given there in full and act on the storage array: the base class `CPP_Init<T>`
itself (`base`, both methods empty) and `CPP_CallExprInit<T>` (`e` is the call
expression its `Generate` builds). Left out: `CPP_BasicConst`, whose `Generate` names a
member `this->inits_vec` the class does not have, and the two classes over
the `void*` array, `CPP_GlobalInit` (its `Generate` is defined outside the
given sources) and `CPP_LambdaRegistration` (its `Generate` does not mention
the array). -/
inductive CPP_Init (V : Type) where
  | base
  | CPP_CallExprInit (e : V)
  deriving DecidableEq, Repr

/-- The virtual method `PreInit(im, inits_vec, offset)`: empty in the base
class and not overridden; returns the array as the call leaves it. -/
def CPP_Init.PreInit {V : Type} (_self : CPP_Init V) (inits_vec : List (Option V))
    (_offset : Int) : Option (List (Option V)) :=
  some inits_vec

/-- The virtual method `Generate(im, inits_vec, offset)`: empty in the base
class, `inits_vec[offset] = e_var` in `CPP_CallExprInit`; returns the array
as the call leaves it. -/
def CPP_Init.Generate {V : Type} : CPP_Init V → List (Option V) → Int →
    Option (List (Option V))
  | .base, inits_vec, _ => some inits_vec
  | .CPP_CallExprInit e, inits_vec, offset => vecSet inits_vec offset (some e)

/-- The effect of one recorded call on the storage array. -/
def InitCall.run {V : Type} : InitCall (CPP_Init V) → List (Option V) →
    Option (List (Option V))
  | .PreInit init offset, inits_vec => init.PreInit inits_vec offset
  | .Generate init offset, inits_vec => init.Generate inits_vec offset

/-- The effect of a list of calls, made in order, on the storage array. -/
def runCalls {V : Type} : List (InitCall (CPP_Init V)) → List (Option V) →
    Option (List (Option V))
  | [], inits_vec => some inits_vec
  | c :: cs, inits_vec =>
    match c.run inits_vec with
    | none => none
    | some v => runCalls cs v

/-- The storage array as `CPP_CustomInits::InitializeCohort(im, cohort)` leaves
it: the calls it makes, applied in order to `inits_vec`. -/
def CPP_CustomInits.InitializeCohortArray {V : Type} (c : CPP_CustomInits V (CPP_Init V))
    (im : InitsManager V) (cohort : Int) : Option (List (Option V)) :=
  match c.InitializeCohort im cohort with
  | none => none
  | some calls => runCalls calls c.inits_vec

/-- The storage array after `InitializeCohort` has run for the cohorts
`0, 1, .., n - 1` in increasing order, once each: the calls made, applied in
order to `inits_vec`. -/
def CPP_CustomInits.InitializeCohortsArray {V : Type} (c : CPP_CustomInits V (CPP_Init V))
    (im : InitsManager V) (n : Nat) : Option (List (Option V)) :=
  match c.InitializeCohorts im n with
  | none => none
  | some calls => runCalls calls c.inits_vec

/-- The class `CPP_AbstractBasicConsts<T1, T2>`: `V` is the pointee type of the
storage array, `T2` the type of the initial values. -/
structure CPP_AbstractBasicConsts (V T2 : Type) where
  inits_vec : List (Option V)
  offsets_set : Int
  inits : List T2

namespace CPP_AbstractBasicConsts

variable {V T2 : Type}

/-- The constructor of `CPP_AbstractBasicConsts<T1, T2>`. -/
def new (_inits_vec : List (Option V)) (_offsets_set : Int) (_inits : List T2) :
    CPP_AbstractBasicConsts V T2 :=
  { inits_vec := vresize _inits_vec _inits.length none,
    offsets_set := _offsets_set,
    inits := _inits }

/-- The virtual method `InitElem(im, offset, index)` of the base class:
`ASSERT(0)`. The arguments are the initial values, the manager, the array,
`offset` and `index`; the result is the array as the call leaves it. -/
def InitElem (_inits : List T2) (_im : InitsManager V) (_inits_vec : List (Option V))
    (_offset _index : Int) : Option (List (Option V)) :=
  none

/-- The method `InitializeCohort(im, cohort)`, with the override of the virtual
method `InitElem` that the object dispatches to as first argument; returns the
array as the call leaves it. An `ASSERT` that fails makes the result `none`. -/
def InitializeCohort
    (initElem : List T2 → InitsManager V → List (Option V) → Int → Int →
      Option (List (Option V)))
    (c : CPP_AbstractBasicConsts V T2) (im : InitsManager V) (cohort : Int) :
    Option (List (Option V)) :=
  if cohort = 0 then
    match im.Indices c.offsets_set with
    | none => none
    | some offsets_vec =>
      match vecAt offsets_vec cohort with
      | none => none
      | some o =>
        match im.Indices o with
        | none => none
        | some cohort_offsets =>
          forUpToState
            (fun i inits_vec =>
              match vecAt cohort_offsets (i : Int) with
              | none => none
              | some offset => initElem c.inits im inits_vec offset (i : Int))
            c.inits.length c.inits_vec
  else none

end CPP_AbstractBasicConsts

/-- The override `CPP_BasicConsts<T1, T2, T3>::InitElem`: `make` is
`make_intrusive<T3>`. -/
def CPP_BasicConsts.InitElem {V T2 : Type} (make : T2 → V) (inits : List T2)
    (_im : InitsManager V) (inits_vec : List (Option V)) (offset index : Int) :
    Option (List (Option V)) :=
  match vecAt inits index with
  | none => none
  | some x => vecSet inits_vec offset (some (make x))

/-- The override `CPP_AddrConsts::InitElem`: `make` is `make_intrusive<AddrVal>`. -/
def CPP_AddrConsts.InitElem {V : Type} (make : String → V) (inits : List Int)
    (im : InitsManager V) (inits_vec : List (Option V)) (offset index : Int) :
    Option (List (Option V)) :=
  match vecAt inits index with
  | none => none
  | some k =>
    match im.Strings k with
    | none => none
    | some s => vecSet inits_vec offset (some (make s))

/-- The override `CPP_SubNetConsts::InitElem`: `make` is
`make_intrusive<SubNetVal>`. -/
def CPP_SubNetConsts.InitElem {V : Type} (make : String → V) (inits : List Int)
    (im : InitsManager V) (inits_vec : List (Option V)) (offset index : Int) :
    Option (List (Option V)) :=
  match vecAt inits index with
  | none => none
  | some k =>
    match im.Strings k with
    | none => none
    | some s => vecSet inits_vec offset (some (make s))

/-! ## Example inputs -/

/-- A base-type descriptor of the given cohort, not yet registered. -/
def exBaseType (cohort : Int) : CPP_GlobalInfo :=
  CPP_GlobalInfo.pooled cohort (InfoData.BaseTypeInfo "TYPE_COUNT")

/-- A fresh pool of type descriptors. -/
def exTypePool : CPP_GlobalsInfo := CPP_GlobalsInfo.new "Type" "Type"

/-- The base-type descriptor of cohort 0 as registered first in `exTypePool`. -/
def exT1 : CPP_GlobalInfo := (exBaseType 0).SetOffset "Type" 0

/-- The pool `exTypePool` after `exBaseType 0` is registered. -/
def exTypePool1 : CPP_GlobalsInfo :=
  { exTypePool with size := 1, instances := [[exT1]] }

/-- The vector type over `exT1`, not yet registered. -/
def exVec : CPP_GlobalInfo := VectorTypeInfo 0 exT1

/-- The pool `exTypePool` after descriptors of cohorts 0, 1, 0 are registered. -/
def exTypePool3 : CPP_GlobalsInfo :=
  { exTypePool with
    size := 3,
    instances := [[(exBaseType 0).SetOffset "Type" 0, (exBaseType 0).SetOffset "Type" 2],
                  [(exBaseType 1).SetOffset "Type" 1]] }

/-- The storage array a `CPP_CustomInits` constructor leaves for three
initializers: no slot populated yet. -/
def exFreshArray : List (Option String) :=
  (CPP_CustomInits.new ([] : List (Option String)) 0 [["a", "c"], ["b"]]).inits_vec

/-- A manager whose offset tables serve a pool with table number 0 (cohort
offsets `[0, 2]` and `[1]`) and a pool with table number 3 (cohort offsets
`[0]`), and whose kind tag 7 is served by a two-slot array with the second
slot not populated, kind tag 8 by a freshly constructed array. -/
def exIm : InitsManager String :=
  { const_vals := [⟨7, 0⟩, ⟨7, 1⟩],
    consts := fun tag =>
      if tag = 7 then some (CPP_AbstractInitAccessor.CPP_InitAccessor [some "x", none])
      else if tag = 8 then some (CPP_AbstractInitAccessor.CPP_InitAccessor exFreshArray)
      else none,
    indices := [[1, 2], [0, 2], [1], [4], [0]],
    strings := [] }

/-- A pool of run-time initializers with two cohorts, table number 0. -/
def exPoolA : CPP_CustomInits String String :=
  CPP_CustomInits.new [] 0 [["a", "c"], ["b"]]

/-- A pool of run-time initializers with one cohort, table number 3. -/
def exPoolB : CPP_CustomInits String String :=
  CPP_CustomInits.new [] 3 [["d"]]

/-- An escaping helper for the examples: the text between double quotes. -/
def exEscape (b : String) (_len : Int) : String := "\"" ++ b ++ "\""

/-- A fresh pool of string constants. -/
def exStringPool : CPP_GlobalsInfo := CPP_GlobalsInfo.new "String" "String"

/-- The descriptors of the string constants `"a"` and `"ab"`, not yet
registered. -/
def exStrings : List CPP_GlobalInfo :=
  [StringConstantInfo defaultInitCohort exEscape "a",
   StringConstantInfo defaultInitCohort exEscape "ab"]

/-- Two attribute descriptors of cohorts 0 and 2 as registered at offsets 0 and
1 of an attribute pool. -/
def exAttrs : List CPP_GlobalInfo :=
  [(CPP_GlobalInfo.pooled 0 (InfoData.AttrInfo "ATTR_OPTIONAL" "nullptr")).SetOffset "Attr" 0,
   (CPP_GlobalInfo.pooled 2 (InfoData.AttrInfo "ATTR_DEFAULT" "e")).SetOffset "Attr" 1]

/-- The attribute descriptors of `exAttrs` with their cohorts changed to 7. -/
def exAttrs7 : List CPP_GlobalInfo :=
  exAttrs.map (fun g => { g with init_cohort := 7 })

/-- An attribute expression of record-coercion kind whose type is `exT1`. -/
def exAttrExpr : AttrExpr :=
  { gi := exT1, is_simple_init := true, tag := ExprTag.EXPR_RECORD_COERCE,
    init_expr_name := "", gen_expr := "", global_name := "" }

/-- A pool of call-expression initializers with two cohorts, table number 0. -/
def exCallPool : CPP_CustomInits String (CPP_Init String) :=
  CPP_CustomInits.new [] 0
    [[CPP_Init.CPP_CallExprInit "f", CPP_Init.base], [CPP_Init.CPP_CallExprInit "g"]]

/-- A pool of three primitive constants over a manager table number 5. -/
def exConsts : CPP_AbstractBasicConsts String Nat :=
  CPP_AbstractBasicConsts.new [] 5 [10, 20, 30]

/-- A manager whose table number 5 gives cohort 0 the offsets `[2, 0, 1]` and
whose table number 7 gives cohort 0 the offsets `[0]`. -/
def exImConsts : InitsManager String :=
  { const_vals := [],
    consts := fun _ => none,
    indices := [[], [], [], [], [], [6], [2, 0, 1], [8], [0]],
    strings := ["1.2.3.4"] }

/-- A pool of one address constant over table number 7 of `exImConsts`. -/
def exAddrs : CPP_AbstractBasicConsts String Int :=
  CPP_AbstractBasicConsts.new [] 7 [0]

end Zeek

/-! ## Auxiliary lemmas -/

namespace Zeek
open CPP_GlobalsInfo

theorem vecAt_natCast {α : Type} (v : List α) (k : Nat) : vecAt v (k : Int) = v[k]? := by
  simp [vecAt]

theorem vecAt_of_nonneg {α : Type} (v : List α) (i : Int) (h : 0 ≤ i) :
    vecAt v i = v[i.toNat]? := by
  simp [vecAt, h]

theorem length_vresize {α : Type} (v : List α) (n : Nat) (d : α) :
    (vresize v n d).length = n := by
  simp [vresize]; omega

theorem getD_vresize {α : Type} (v : List α) (n : Nat) (d : α) (h : v.length ≤ n) (k : Nat) :
    ((vresize v n d)[k]?).getD d = (v[k]?).getD d := by
  unfold vresize
  rw [List.take_of_length_le h]
  by_cases hk : k < v.length
  · rw [List.getElem?_append_left hk]
  · have hk' : v.length ≤ k := Nat.le_of_not_lt hk
    rw [List.getElem?_append_right hk', List.getElem?_eq_none hk']
    by_cases hk2 : k - v.length < n - v.length
    · simp [List.getElem?_replicate, hk2]
    · simp [List.getElem?_replicate, hk2]

theorem forUpTo_eq_some {α : Type} (f : Nat → Option α) (g : Nat → α) :
    ∀ n, (∀ i, i < n → f i = some (g i)) → forUpTo f n = some ((List.range n).map g)
  | 0, _ => by simp [forUpTo]
  | n + 1, h => by
    have ih := forUpTo_eq_some f g n (fun i hi => h i (Nat.lt_succ_of_lt hi))
    simp [forUpTo, ih, h n (Nat.lt_succ_self n), List.range_succ]

theorem forEach_eq_some {α β : Type} (f : α → Option β) (g : α → β) :
    ∀ xs : List α, (∀ x ∈ xs, f x = some (g x)) → forEach f xs = some (xs.map g)
  | [], _ => by simp [forEach]
  | x :: xs, h => by
    have ih := forEach_eq_some f g xs (fun y hy => h y (List.mem_cons_of_mem _ hy))
    simp [forEach, ih, h x (List.mem_cons_self _ _)]

/-- The bucket vector after the optional `resize` of `AddInstance`. -/
theorem resized_facts (inst : List (List CPP_GlobalInfo)) (c : Int) (hc : 0 ≤ c) :
    let insts := if (inst.length : Int) ≤ c then vresize inst (c + 1).toNat [] else inst
    insts.length = max inst.length (c + 1).toNat ∧
      ∀ k : Nat, (insts[k]?).getD [] = (inst[k]?).getD [] := by
  intro insts
  by_cases h : (inst.length : Int) ≤ c
  · have e : insts = vresize inst (c + 1).toNat [] := by simp [insts, h]
    have hle : inst.length ≤ (c + 1).toNat := by omega
    rw [e]
    refine ⟨?_, fun k => getD_vresize inst _ [] hle k⟩
    rw [length_vresize]; omega
  · have e : insts = inst := by simp [insts, h]
    rw [e]
    refine ⟨?_, fun k => rfl⟩
    omega

theorem AddInstance_spec (p : CPP_GlobalsInfo) (g : CPP_GlobalInfo) (hc : 0 ≤ g.init_cohort) :
    ∃ p', p.AddInstance g = some (p', g.SetOffset p.tag p.size) ∧
      p'.size = p.size + 1 ∧ p'.tag = p.tag ∧ p'.type = p.type ∧ p'.base_name = p.base_name ∧
      p'.instances.length = max p.instances.length (g.init_cohort + 1).toNat ∧
      ∀ k : Nat, (p'.instances[k]?).getD [] =
        (p.instances[k]?).getD [] ++
          (if g.init_cohort = (k : Int) then [g.SetOffset p.tag p.size] else []) := by
  obtain ⟨hlen, hget⟩ := resized_facts p.instances g.init_cohort hc
  generalize hI : (if (p.instances.length : Int) ≤ g.init_cohort then
      vresize p.instances (g.init_cohort + 1).toNat [] else p.instances) = insts at hlen hget
  have hlt : g.init_cohort.toNat < insts.length := by
    rw [hlen]; omega
  have hv : vecAt insts g.init_cohort = some insts[g.init_cohort.toNat] := by
    rw [vecAt_of_nonneg _ _ hc, List.getElem?_eq_getElem hlt]
  refine ⟨{ p with size := p.size + 1,
                   instances := insts.set g.init_cohort.toNat
                     (insts[g.init_cohort.toNat] ++ [g.SetOffset p.tag p.size]) }, ?_, rfl, rfl,
    rfl, rfl, ?_, ?_⟩
  · simp only [AddInstance, CPP_GlobalInfo.InitCohort, hI, hv]
  · simpa using hlen
  · intro k
    by_cases hk : g.init_cohort = (k : Int)
    · have hk' : g.init_cohort.toNat = k := by omega
      subst hk'
      rw [if_pos hk, List.getElem?_set_self hlt, ← hget, List.getElem?_eq_getElem hlt]
      rfl
    · have hk' : g.init_cohort.toNat ≠ k := by omega
      rw [if_neg hk, List.append_nil, List.getElem?_set_ne hk', hget]

theorem tag_SetOffset (g : CPP_GlobalInfo) (t : String) (s : Int) :
    (g.SetOffset t s).init_cohort = g.init_cohort := rfl

theorem AddInstances_spec : ∀ (gs : List CPP_GlobalInfo) (p : CPP_GlobalsInfo),
    (∀ g ∈ gs, 0 ≤ g.init_cohort) →
    ∃ p', p.AddInstances gs = some (p', registered p.tag p.size gs) ∧
      p'.size = p.size + gs.length ∧ p'.tag = p.tag ∧ p'.type = p.type ∧
      p'.base_name = p.base_name ∧
      p'.instances.length = max p.instances.length (cohortCount gs) ∧
      ∀ k : Nat, (p'.instances[k]?).getD [] =
        (p.instances[k]?).getD [] ++ ofCohort k (registered p.tag p.size gs)
  | [], p, _ => ⟨p, by simp [AddInstances, registered, cohortCount, ofCohort]⟩
  | g :: gs, p, h => by
    obtain ⟨p1, h1, hs1, ht1, hty1, hb1, hl1, hg1⟩ :=
      AddInstance_spec p g (h g (List.mem_cons_self _ _))
    obtain ⟨p2, h2, hs2, ht2, hty2, hb2, hl2, hg2⟩ :=
      AddInstances_spec gs p1 (fun x hx => h x (List.mem_cons_of_mem _ hx))
    rw [ht1, hs1] at h2
    refine ⟨p2, ?_, ?_, ?_, ?_, ?_, ?_, ?_⟩
    · simp only [AddInstances, h1, h2, registered]
    · rw [hs2, hs1, List.length_cons]; push_cast; ring
    · rw [ht2, ht1]
    · rw [hty2, hty1]
    · rw [hb2, hb1]
    · rw [hl2, hl1]; simp only [cohortCount]; omega
    · intro k
      rw [hg2 k, hg1 k, ht1, hs1]
      simp only [registered, ofCohort, List.filter_cons, tag_SetOffset, List.append_assoc]
      by_cases hk : g.init_cohort = (k : Int)
      · simp [hk]
      · simp [hk]

theorem forUpTo_take {α : Type} (f : Nat → Option α) (ys : List α) :
    ∀ n, n ≤ ys.length → (∀ i, i < n → f i = ys[i]?) → forUpTo f n = some (ys.take n)
  | 0, _, _ => by simp [forUpTo]
  | n + 1, hn, h => by
    have ih := forUpTo_take f ys n (Nat.le_of_succ_le hn) (fun i hi => h i (Nat.lt_succ_of_lt hi))
    have hlt : n < ys.length := hn
    have hn' := h n (Nat.lt_succ_self n)
    rw [List.getElem?_eq_getElem hlt] at hn'
    rw [forUpTo, ih, List.take_succ, List.getElem?_eq_getElem hlt]
    simp only [hn', Option.toList]

variable {V I : Type}

theorem callLoop_eq (m : I → Int → InitCall I) (co : List I) (offs : List Int)
    (h : co.length ≤ offs.length) :
    CPP_CustomInits.callLoop m co offs = some (List.zipWith m co offs) := by
  have hl : (List.zipWith m co offs).length = co.length := by
    simp [List.length_zipWith]; omega
  have := forUpTo_take
    (fun i =>
      match co[i]? with
      | none => none
      | some init =>
        match vecAt offs (i : Int) with
        | none => none
        | some offset => some (m init offset))
    (List.zipWith m co offs) co.length (by omega)
    (by
      intro i hi
      have hi2 : i < offs.length := by omega
      simp [vecAt_natCast, List.getElem?_zipWith, List.getElem?_eq_getElem hi,
        List.getElem?_eq_getElem hi2])
  rw [← hl, List.take_length] at this
  rw [← this, hl]
  rfl

theorem zipWith_eq_map_range {α β γ : Type} (F : α → β → γ) (a0 : α) (b0 : β)
    (xs : List α) (ys : List β) (h : xs.length ≤ ys.length) :
    List.zipWith F xs ys =
      (List.range xs.length).map (fun k => F ((xs[k]?).getD a0) ((ys[k]?).getD b0)) := by
  apply List.ext_getElem?
  intro i
  by_cases hi : i < xs.length
  · have hi2 : i < ys.length := by omega
    simp [List.getElem?_zipWith, List.getElem?_eq_getElem hi, List.getElem?_eq_getElem hi2,
      List.getElem?_range hi]
  · have hi' : xs.length ≤ i := Nat.le_of_not_lt hi
    rw [List.getElem?_eq_none (by simp [List.length_zipWith]; omega),
      List.getElem?_eq_none (by simp; omega)]

theorem indices_of_table (im : InitsManager V) (os : Int) (k : Nat) (t : List Int)
    (h : cohortOffsets im os k = some t) :
    ∃ offsets_vec o, im.Indices os = some offsets_vec ∧ vecAt offsets_vec (k : Int) = some o ∧
      im.Indices o = some t := by
  unfold cohortOffsets at h
  cases h1 : im.Indices os with
  | none => simp [h1] at h
  | some ov =>
    simp only [h1] at h
    cases h2 : vecAt ov (k : Int) with
    | none => simp [h2] at h
    | some o =>
      simp only [h2] at h
      exact ⟨ov, o, rfl, h2, h⟩

theorem DoPreInits_eq (c : CPP_CustomInits V I) (im : InitsManager V) (table : List (List Int))
    (hne : c.inits ≠ [])
    (hlen : c.inits.length ≤ table.length)
    (htab : ∀ k, k < c.inits.length → cohortOffsets im c.offsets_set k = table[k]?)
    (hsz : ∀ k, k < c.inits.length →
      ((c.inits[k]?).getD []).length ≤ ((table[k]?).getD []).length) :
    c.DoPreInits im = some (callsOf InitCall.PreInit c.inits table) := by
  have hpos : 0 < c.inits.length := List.length_pos.mpr hne
  have h0 := htab 0 hpos
  rw [List.getElem?_eq_getElem (by omega)] at h0
  obtain ⟨ov, _, hov, _, _⟩ := indices_of_table im _ 0 _ h0
  unfold CPP_CustomInits.DoPreInits
  simp only [hov]
  rw [forUpTo_eq_some _
    (fun k => List.zipWith InitCall.PreInit ((c.inits[k]?).getD []) ((table[k]?).getD []))]
  · simp only [Option.map_some', callsOf]
    rw [zipWith_eq_map_range _ [] [] _ _ hlen]
  · intro k hk
    have hk2 : k < table.length := by omega
    have hk' := htab k hk
    rw [List.getElem?_eq_getElem hk2] at hk'
    obtain ⟨ov', o, hov', ho, hio⟩ := indices_of_table im _ k _ hk'
    rw [hov] at hov'
    cases hov'
    have hs := hsz k hk
    simp only [List.getElem?_eq_getElem hk, List.getElem?_eq_getElem hk2, Option.getD_some] at hs ⊢
    simp only [ho, hio]
    exact callLoop_eq _ _ _ hs

theorem InitializeCohort_eq (c : CPP_CustomInits V I) (im : InitsManager V)
    (table : List (List Int))
    (hlen : c.inits.length ≤ table.length)
    (htab : ∀ k, k < c.inits.length → cohortOffsets im c.offsets_set k = table[k]?)
    (hsz : ∀ k, k < c.inits.length →
      ((c.inits[k]?).getD []).length ≤ ((table[k]?).getD []).length)
    (k : Nat) (hk : k < c.inits.length) :
    c.InitializeCohort im (k : Int) =
      some ((if k = 0 then callsOf InitCall.PreInit c.inits table else []) ++
        List.zipWith InitCall.Generate ((c.inits[k]?).getD []) ((table[k]?).getD [])) := by
  have hne : c.inits ≠ [] := by
    intro h; rw [h] at hk; simp at hk
  have hpre := DoPreInits_eq c im table hne hlen htab hsz
  have hk2 : k < table.length := by omega
  have hk' := htab k hk
  rw [List.getElem?_eq_getElem hk2] at hk'
  obtain ⟨ov, o, hov, ho, hio⟩ := indices_of_table im _ k _ hk'
  have hs := hsz k hk
  simp only [List.getElem?_eq_getElem hk, List.getElem?_eq_getElem hk2, Option.getD_some] at hs ⊢
  unfold CPP_CustomInits.InitializeCohort
  have hif : (if (k : Int) = 0 then c.DoPreInits im else some []) =
      some (if k = 0 then callsOf InitCall.PreInit c.inits table else []) := by
    by_cases hz : k = 0
    · have hz' : (k : Int) = 0 := by omega
      rw [if_pos hz, if_pos hz', hpre]
    · have hz' : ¬ ((k : Int) = 0) := by omega
      rw [if_neg hz, if_neg hz']
  simp only [hif, hov, vecAt_natCast, List.getElem?_eq_getElem hk, ho, hio,
    callLoop_eq _ _ _ hs]

theorem flatten_prefix_range {α : Type} (pre : List α) (gen : Nat → List α) :
    ∀ n, 0 < n →
      ((List.range n).map (fun k => (if k = 0 then pre else []) ++ gen k)).flatten =
        pre ++ ((List.range n).map gen).flatten
  | 0, h => absurd h (Nat.lt_irrefl 0)
  | 1, _ => by simp [List.range_succ]
  | n + 2, _ => by
    have ih := flatten_prefix_range pre gen (n + 1) (Nat.succ_pos n)
    rw [List.range_succ, List.map_append, List.flatten_append, ih, List.map_append,
      List.flatten_append]
    simp

theorem InitializeCohorts_eq (c : CPP_CustomInits V I) (im : InitsManager V)
    (table : List (List Int))
    (hlen : c.inits.length ≤ table.length)
    (htab : ∀ k, k < c.inits.length → cohortOffsets im c.offsets_set k = table[k]?)
    (hsz : ∀ k, k < c.inits.length →
      ((c.inits[k]?).getD []).length ≤ ((table[k]?).getD []).length) :
    c.InitializeCohorts im c.inits.length =
      some (callsOf InitCall.PreInit c.inits table ++ callsOf InitCall.Generate c.inits table) := by
  unfold CPP_CustomInits.InitializeCohorts
  rw [forUpTo_eq_some _ (fun k =>
    (if k = 0 then callsOf InitCall.PreInit c.inits table else []) ++
      List.zipWith InitCall.Generate ((c.inits[k]?).getD []) ((table[k]?).getD []))
    _ (fun k hk => InitializeCohort_eq c im table hlen htab hsz k hk)]
  simp only [Option.map_some']
  by_cases hne : c.inits = []
  · simp [hne, callsOf]
  · have hpos : 0 < c.inits.length := List.length_pos.mpr hne
    rw [flatten_prefix_range _ _ _ hpos]
    simp only [callsOf]
    rw [zipWith_eq_map_range (fun co offs => List.zipWith InitCall.Generate co offs) [] [] _ _ hlen]

theorem generateOffsets_append (xs ys : List (InitCall I)) :
    generateOffsets (xs ++ ys) = generateOffsets xs ++ generateOffsets ys := by
  simp [generateOffsets]

theorem generateOffsets_zipWith_PreInit : ∀ (co : List I) (offs : List Int),
    generateOffsets (List.zipWith InitCall.PreInit co offs) = []
  | [], _ => by simp [generateOffsets]
  | _ :: _, [] => by simp [generateOffsets]
  | x :: co, o :: offs => by
    have ih := generateOffsets_zipWith_PreInit co offs
    simp only [generateOffsets] at ih ⊢
    simp [List.zipWith, List.filterMap_cons, ih]

theorem generateOffsets_zipWith_Generate : ∀ (co : List I) (offs : List Int),
    co.length = offs.length →
    generateOffsets (List.zipWith InitCall.Generate co offs) = offs
  | [], [], _ => by simp [generateOffsets]
  | [], _ :: _, h => by simp at h
  | _ :: _, [], h => by simp at h
  | x :: co, o :: offs, h => by
    have ih := generateOffsets_zipWith_Generate co offs (by simpa using h)
    simp only [generateOffsets] at ih ⊢
    simp [List.zipWith, List.filterMap_cons, ih]

theorem generateOffsets_callsOf_PreInit : ∀ (inits : List (List I)) (table : List (List Int)),
    generateOffsets (callsOf InitCall.PreInit inits table) = []
  | [], _ => by simp [callsOf, generateOffsets]
  | _ :: _, [] => by simp [callsOf, generateOffsets]
  | co :: inits, offs :: table => by
    have ih := generateOffsets_callsOf_PreInit inits table
    simp only [callsOf] at ih ⊢
    rw [List.zipWith_cons_cons, List.flatten_cons, generateOffsets_append, ih,
      generateOffsets_zipWith_PreInit]
    rfl

theorem generateOffsets_callsOf_Generate : ∀ (inits : List (List I)) (table : List (List Int)),
    inits.map List.length = table.map List.length →
    generateOffsets (callsOf InitCall.Generate inits table) = table.flatten
  | [], [], _ => by simp [callsOf, generateOffsets]
  | [], _ :: _, h => by simp at h
  | _ :: _, [], h => by simp at h
  | co :: inits, offs :: table, h => by
    simp only [List.map_cons, List.cons.injEq] at h
    have ih := generateOffsets_callsOf_Generate inits table h.2
    simp only [callsOf] at ih ⊢
    rw [List.zipWith_cons_cons, List.flatten_cons, generateOffsets_append, ih,
      generateOffsets_zipWith_Generate _ _ h.1, List.flatten_cons]

theorem length_registered (tag : String) : ∀ (gs : List CPP_GlobalInfo) (s : Int),
    (registered tag s gs).length = gs.length
  | [], _ => rfl
  | _ :: gs, s => by simp [registered, length_registered tag gs (s + 1)]

theorem getElem?_registered (tag : String) : ∀ (gs : List CPP_GlobalInfo) (s : Int) (i : Nat),
    (registered tag s gs)[i]? = (gs[i]?).map (fun g => g.SetOffset tag (s + i))
  | [], _, _ => by simp [registered]
  | g :: gs, s, 0 => by simp [registered]
  | g :: gs, s, i + 1 => by
    simp only [registered, List.getElem?_cons_succ, getElem?_registered tag gs (s + 1) i]
    congr 1
    funext x
    congr 1
    push_cast
    ring

theorem offsets_registered (tag : String) : ∀ (gs : List CPP_GlobalInfo) (s : Int),
    (registered tag s gs).map CPP_GlobalInfo.Offset =
      (List.range gs.length).map (fun (i : Nat) => s + (i : Int))
  | [], _ => rfl
  | g :: gs, s => by
    rw [List.length_cons, List.range_succ_eq_map, registered, List.map_cons, List.map_cons,
      offsets_registered tag gs (s + 1), List.map_map]
    congr 1
    · simp [CPP_GlobalInfo.Offset, CPP_GlobalInfo.SetOffset]
    · apply List.map_congr_left
      intro i _
      simp only [Function.comp, Nat.succ_eq_add_one]
      push_cast
      ring

theorem cohorts_registered (tag : String) : ∀ (gs : List CPP_GlobalInfo) (s : Int),
    (registered tag s gs).map CPP_GlobalInfo.InitCohort = gs.map CPP_GlobalInfo.InitCohort
  | [], _ => rfl
  | g :: gs, s => by
    simp [registered, cohorts_registered tag gs (s + 1), CPP_GlobalInfo.InitCohort,
      CPP_GlobalInfo.SetOffset]

theorem cohortCount_registered (tag : String) : ∀ (gs : List CPP_GlobalInfo) (s : Int),
    cohortCount (registered tag s gs) = cohortCount gs
  | [], _ => rfl
  | g :: gs, s => by
    simp [registered, cohortCount, cohortCount_registered tag gs (s + 1),
      CPP_GlobalInfo.SetOffset]

theorem nodup_offsets_registered (tag : String) (gs : List CPP_GlobalInfo) (s : Int) :
    ((registered tag s gs).map CPP_GlobalInfo.Offset).Nodup := by
  rw [offsets_registered]
  refine List.Nodup.map ?_ (List.nodup_range _)
  intro a b h
  simpa using h

theorem nodup_registered (tag : String) (gs : List CPP_GlobalInfo) (s : Int) :
    (registered tag s gs).Nodup :=
  List.Nodup.of_map _ (nodup_offsets_registered tag gs s)

theorem lt_cohortCount : ∀ (gs : List CPP_GlobalInfo) (g : CPP_GlobalInfo), g ∈ gs →
    g.init_cohort < (cohortCount gs : Int)
  | [], _, h => by simp at h
  | x :: gs, g, h => by
    rcases List.mem_cons.mp h with h | h
    · subst h
      simp only [cohortCount]
      omega
    · have := lt_cohortCount gs g h
      simp only [cohortCount]
      omega

theorem exists_cohortCount : ∀ (gs : List CPP_GlobalInfo), gs ≠ [] →
    (∀ g ∈ gs, 0 ≤ g.init_cohort) →
    ∃ g ∈ gs, g.init_cohort = (cohortCount gs : Int) - 1
  | [], h, _ => absurd rfl h
  | [x], _, h0 => by
    have := h0 x (List.mem_cons_self _ _)
    refine ⟨x, List.mem_cons_self _ _, ?_⟩
    simp only [cohortCount]
    omega
  | x :: y :: gs, _, h0 => by
    obtain ⟨g, hg, hgc⟩ := exists_cohortCount (y :: gs) (by simp)
      (fun g hg => h0 g (List.mem_cons_of_mem _ hg))
    have hx := h0 x (List.mem_cons_self _ _)
    by_cases hle : (x.init_cohort + 1).toNat ≤ cohortCount (y :: gs)
    · refine ⟨g, List.mem_cons_of_mem _ hg, ?_⟩
      rw [hgc]
      show _ = ((max (x.init_cohort + 1).toNat (cohortCount (y :: gs)) : Nat) : Int) - 1
      rw [Nat.max_eq_right hle]
    · refine ⟨x, List.mem_cons_self _ _, ?_⟩
      show _ = ((max (x.init_cohort + 1).toNat (cohortCount (y :: gs)) : Nat) : Int) - 1
      rw [Nat.max_eq_left (by omega)]
      omega

/-- The state of a fresh pool after registering `gs`. -/
theorem fresh_AddInstances (tag ty : String) (gs : List CPP_GlobalInfo)
    (h : ∀ g ∈ gs, 0 ≤ g.init_cohort) :
    ∃ p, (CPP_GlobalsInfo.new tag ty).AddInstances gs = some (p, registered tag 0 gs) ∧
      p.size = gs.length ∧ p.tag = tag ∧
      p.instances = (List.range (cohortCount gs)).map (fun k => ofCohort k (registered tag 0 gs)) := by
  obtain ⟨p, h1, hs, ht, _, _, hl, hg⟩ := AddInstances_spec gs (CPP_GlobalsInfo.new tag ty) h
  refine ⟨p, h1, ?_, ht, ?_⟩
  · simpa [CPP_GlobalsInfo.new] using hs
  · have hl' : p.instances.length = cohortCount gs := by
      simpa [CPP_GlobalsInfo.new] using hl
    apply List.ext_getElem?
    intro k
    by_cases hk : k < cohortCount gs
    · have hk' : k < p.instances.length := by omega
      have := hg k
      rw [List.getElem?_eq_getElem hk'] at this ⊢
      simp only [CPP_GlobalsInfo.new, List.getElem?_nil, Option.getD_none, Option.getD_some,
        List.nil_append] at this
      simp [this, List.getElem?_range hk]
    · rw [List.getElem?_eq_none (by omega), List.getElem?_eq_none (by simp; omega)]

theorem sum_indicator (c : Int) : ∀ L : Nat,
    ((List.range L).map (fun (k : Nat) => if c = (k : Int) then 1 else 0)).sum =
      if 0 ≤ c ∧ c < (L : Int) then 1 else 0
  | 0 => by
    have : ¬ (0 ≤ c ∧ c < ((0 : Nat) : Int)) := by omega
    rw [if_neg this]
    rfl
  | L + 1 => by
    rw [List.range_succ, List.map_append, List.sum_append, sum_indicator c L]
    simp only [List.map_cons, List.map_nil, List.sum_cons, List.sum_nil, Nat.add_zero]
    by_cases h1 : 0 ≤ c ∧ c < (L : Int)
    · have h2 : ¬ (c = (L : Int)) := by omega
      have h3 : 0 ≤ c ∧ c < ((L + 1 : Nat) : Int) := by omega
      rw [if_pos h1, if_neg h2, if_pos h3]
    · by_cases h2 : c = (L : Int)
      · have h3 : 0 ≤ c ∧ c < ((L + 1 : Nat) : Int) := by omega
        rw [if_neg h1, if_pos h2, if_pos h3]
      · have h3 : ¬ (0 ≤ c ∧ c < ((L + 1 : Nat) : Int)) := by omega
        rw [if_neg h1, if_neg h2, if_neg h3]

theorem sum_length_ofCohort (L : Nat) : ∀ xs : List CPP_GlobalInfo,
    (∀ g ∈ xs, 0 ≤ g.init_cohort ∧ g.init_cohort < (L : Int)) →
    ((List.range L).map (fun k => (ofCohort k xs).length)).sum = xs.length
  | [], _ => by simp [ofCohort]
  | g :: xs, h => by
    have ih := sum_length_ofCohort L xs (fun x hx => h x (List.mem_cons_of_mem _ hx))
    have hg := h g (List.mem_cons_self _ _)
    have e : (fun k => (ofCohort k (g :: xs)).length) =
        (fun (k : Nat) => (if g.init_cohort = (k : Int) then 1 else 0) + (ofCohort k xs).length) := by
      funext k
      by_cases hk : g.init_cohort = (k : Int)
      · simp [ofCohort, List.filter_cons, hk]; omega
      · simp [ofCohort, List.filter_cons, hk]
    rw [e, List.sum_map_add, sum_indicator, if_pos hg, ih, List.length_cons]
    omega

theorem mem_ofCohort_range (gs : List CPP_GlobalInfo) (L : Nat)
    (b : List CPP_GlobalInfo) (hb : b ∈ (List.range L).map (fun k => ofCohort k gs))
    (g : CPP_GlobalInfo) (hg : g ∈ b) : g ∈ gs := by
  obtain ⟨k, _, rfl⟩ := List.mem_map.mp hb
  exact (List.mem_filter.mp hg).1

theorem count_ofCohort (gs : List CPP_GlobalInfo) (hnd : gs.Nodup) (g : CPP_GlobalInfo)
    (hg : g ∈ gs) (k : Nat) :
    (ofCohort k gs).count g = if g.init_cohort = (k : Int) then 1 else 0 := by
  by_cases hk : g.init_cohort = (k : Int)
  · rw [if_pos hk, ofCohort, List.count_filter (by simpa using hk)]
    exact List.count_eq_one_of_mem hnd hg
  · rw [if_neg hk]
    apply List.count_eq_zero_of_not_mem
    intro hmem
    exact hk (by simpa using (List.mem_filter.mp hmem).2)

theorem cohort_bounds_registered (tag : String) (gs : List CPP_GlobalInfo)
    (h : ∀ g ∈ gs, 0 ≤ g.init_cohort) (g : CPP_GlobalInfo) (hg : g ∈ registered tag 0 gs) :
    0 ≤ g.init_cohort ∧ g.init_cohort < (cohortCount gs : Int) := by
  have hc : g.init_cohort ∈ gs.map CPP_GlobalInfo.InitCohort := by
    rw [← cohorts_registered tag gs 0]
    exact List.mem_map_of_mem CPP_GlobalInfo.InitCohort hg
  obtain ⟨x, hx, hxc⟩ := List.mem_map.mp hc
  have h1 := h x hx
  have h2 := lt_cohortCount gs x hx
  simp only [CPP_GlobalInfo.InitCohort] at hxc
  omega

theorem AddInstance_neg (p : CPP_GlobalsInfo) (g : CPP_GlobalInfo) (h : g.init_cohort < 0) :
    p.AddInstance g = none := by
  have h1 : ¬ ((p.instances.length : Int) ≤ g.init_cohort) := by omega
  have h2 : ¬ (0 ≤ g.init_cohort) := by omega
  simp [AddInstance, CPP_GlobalInfo.InitCohort, h1, vecAt, h2]

theorem AddInstances_nonneg : ∀ (gs : List CPP_GlobalInfo) (p : CPP_GlobalsInfo)
    (r : CPP_GlobalsInfo × List CPP_GlobalInfo), p.AddInstances gs = some r →
    ∀ g ∈ gs, 0 ≤ g.init_cohort
  | [], _, _, _ => by simp
  | x :: gs, p, r, h => by
    intro g hg
    by_cases hx : 0 ≤ x.init_cohort
    · rcases List.mem_cons.mp hg with e | hmem
      · rw [e]; exact hx
      · obtain ⟨p1, h1, _⟩ := AddInstance_spec p x hx
        simp only [AddInstances, h1] at h
        cases h2 : AddInstances p1 gs with
        | none => simp [h2] at h
        | some r2 => exact AddInstances_nonneg gs p1 r2 h2 g hmem
    · have := AddInstance_neg p x (by omega)
      simp [AddInstances, this] at h

theorem foldl_num_inits (inits : List (List I)) : ∀ (n : Int),
    inits.foldl (fun (n : Int) cohort => n + (cohort.length : Int)) n =
      n + ((inits.map List.length).sum : Nat) := by
  induction inits with
  | nil => intro n; simp
  | cons co inits ih =>
    intro n
    rw [List.foldl_cons, ih]
    simp only [List.map_cons, List.sum_cons]
    push_cast
    ring

theorem length_new_inits_vec (vec0 : List (Option V)) (os : Int) (inits : List (List I)) :
    (CPP_CustomInits.new vec0 os inits).inits_vec.length = (inits.map List.length).sum := by
  simp only [CPP_CustomInits.new, length_vresize, foldl_num_inits]
  omega

theorem perm_flatten_ofCohort (gs : List CPP_GlobalInfo) : ∀ L : Nat,
    List.Perm ((List.range L).map (fun k => ofCohort k gs)).flatten
      (gs.filter (fun g => decide (0 ≤ g.init_cohort ∧ g.init_cohort < (L : Int))))
  | 0 => by
    have : (gs.filter (fun g => decide (0 ≤ g.init_cohort ∧ g.init_cohort < ((0 : Nat) : Int))))
        = [] := by
      rw [List.filter_eq_nil_iff]
      intro g _
      simp only [decide_eq_true_eq]
      omega
    rw [this]
    simp
  | L + 1 => by
    have ih := perm_flatten_ofCohort gs L
    rw [List.range_succ, List.map_append, List.flatten_append]
    simp only [List.map_cons, List.map_nil, List.flatten_cons, List.flatten_nil, List.append_nil]
    have hsplit := List.filter_append_perm
      (fun g : CPP_GlobalInfo => decide (0 ≤ g.init_cohort ∧ g.init_cohort < (L : Int)))
      (gs.filter (fun g => decide (0 ≤ g.init_cohort ∧ g.init_cohort < ((L + 1 : Nat) : Int))))
    rw [List.filter_filter, List.filter_filter] at hsplit
    have e1 : (gs.filter (fun g =>
        (decide (0 ≤ g.init_cohort ∧ g.init_cohort < (L : Int)) &&
          decide (0 ≤ g.init_cohort ∧ g.init_cohort < ((L + 1 : Nat) : Int))))) =
        gs.filter (fun g => decide (0 ≤ g.init_cohort ∧ g.init_cohort < (L : Int))) := by
      apply List.filter_congr
      intro g _
      by_cases h : 0 ≤ g.init_cohort ∧ g.init_cohort < (L : Int)
      · have h' : 0 ≤ g.init_cohort ∧ g.init_cohort < ((L + 1 : Nat) : Int) := by omega
        rw [decide_eq_true h, decide_eq_true h']
        rfl
      · rw [decide_eq_false h]
        rfl
    have e2 : (gs.filter (fun g =>
        ((!decide (0 ≤ g.init_cohort ∧ g.init_cohort < (L : Int))) &&
          decide (0 ≤ g.init_cohort ∧ g.init_cohort < ((L + 1 : Nat) : Int))))) =
        ofCohort L gs := by
      unfold ofCohort
      apply List.filter_congr
      intro g _
      by_cases h : g.init_cohort = (L : Int)
      · have h1 : ¬ (0 ≤ g.init_cohort ∧ g.init_cohort < (L : Int)) := by omega
        have h2 : 0 ≤ g.init_cohort ∧ g.init_cohort < ((L + 1 : Nat) : Int) := by omega
        rw [decide_eq_false h1, decide_eq_true h2, decide_eq_true h]
        rfl
      · by_cases h1 : 0 ≤ g.init_cohort ∧ g.init_cohort < (L : Int)
        · rw [decide_eq_true h1, decide_eq_false h]
          rfl
        · have h2 : ¬ (0 ≤ g.init_cohort ∧ g.init_cohort < ((L + 1 : Nat) : Int)) := by omega
          rw [decide_eq_false h1, decide_eq_false h2, decide_eq_false h]
          rfl
    rw [e1, e2] at hsplit
    exact (List.Perm.append_right _ ih).trans hsplit

theorem perm_buckets (gs : List CPP_GlobalInfo) (L : Nat)
    (h : ∀ g ∈ gs, 0 ≤ g.init_cohort ∧ g.init_cohort < (L : Int)) :
    List.Perm ((List.range L).map (fun k => ofCohort k gs)).flatten gs := by
  have := perm_flatten_ofCohort gs L
  rwa [List.filter_eq_self.mpr (by
    intro g hg
    simpa using h g hg)] at this

theorem forUpTo_all {α : Type} (f : Nat → Option α) (P : α → Prop)
    (hf : ∀ i x, f i = some x → P x) :
    ∀ (n : Nat) (xs : List α), forUpTo f n = some xs → ∀ x ∈ xs, P x
  | 0, xs, h => by
    simp only [forUpTo, Option.some.injEq] at h
    subst h
    simp
  | n + 1, xs, h => by
    simp only [forUpTo] at h
    cases h1 : forUpTo f n with
    | none => simp [h1] at h
    | some ys =>
      cases h2 : f n with
      | none => simp [h1, h2] at h
      | some y =>
        simp only [h1, h2, Option.some.injEq] at h
        subst h
        intro x hx
        rcases List.mem_append.mp hx with hx | hx
        · exact forUpTo_all f P hf n ys h1 x hx
        · simp only [List.mem_singleton] at hx
          subst hx
          exact hf n x h2

theorem forEach_all {α β : Type} (f : α → Option β) (P : β → Prop)
    (hf : ∀ a y, f a = some y → P y) :
    ∀ (l : List α) (ys : List β), forEach f l = some ys → ∀ y ∈ ys, P y
  | [], ys, h => by
    simp only [forEach, Option.some.injEq] at h
    subst h
    simp
  | a :: l, ys, h => by
    simp only [forEach] at h
    cases h1 : f a with
    | none => simp [h1] at h
    | some y =>
      cases h2 : forEach f l with
      | none => simp [h1, h2] at h
      | some zs =>
        simp only [h1, h2, Option.some.injEq] at h
        subst h
        intro x hx
        rcases List.mem_cons.mp hx with hx | hx
        · subst hx
          exact hf a x h1
        · exact forEach_all f P hf l zs h2 x hx

theorem callLoop_Generate_all (co : List I) (offs : List Int) (calls : List (InitCall I))
    (h : CPP_CustomInits.callLoop InitCall.Generate co offs = some calls) :
    ∀ x ∈ calls, x.isPreInit = false := by
  refine forUpTo_all _ (fun x => x.isPreInit = false) ?_ _ _ h
  intro i x hx
  cases h1 : co[i]? with
  | none => simp [h1] at hx
  | some a =>
    cases h2 : vecAt offs (i : Int) with
    | none => simp [h1, h2] at hx
    | some o =>
      simp only [h1, h2, Option.some.injEq] at hx
      subst hx
      rfl

theorem InitializeCohort_no_PreInit (c : CPP_CustomInits V I) (im : InitsManager V)
    (cohort : Int) (hc : cohort ≠ 0) (calls : List (InitCall I))
    (h : c.InitializeCohort im cohort = some calls) :
    ∀ x ∈ calls, x.isPreInit = false := by
  unfold CPP_CustomInits.InitializeCohort at h
  rw [if_neg hc] at h
  simp only at h
  cases h1 : im.Indices c.offsets_set with
  | none => simp [h1] at h
  | some ov =>
    cases h2 : vecAt c.inits cohort with
    | none => simp [h1, h2] at h
    | some co =>
      cases h3 : vecAt ov cohort with
      | none => simp [h1, h2, h3] at h
      | some o =>
        cases h4 : im.Indices o with
        | none => simp [h1, h2, h3, h4] at h
        | some offs =>
          cases h5 : CPP_CustomInits.callLoop InitCall.Generate co offs with
          | none => simp [h1, h2, h3, h4, h5] at h
          | some gen =>
            simp only [h1, h2, h3, h4, h5, List.nil_append, Option.some.injEq] at h
            subst h
            exact callLoop_Generate_all co offs gen h5

theorem map_init_zipWith (m : I → Int → InitCall I) (hm : ∀ a o, (m a o).init = a) :
    ∀ (co : List I) (offs : List Int), co.length ≤ offs.length →
      (List.zipWith m co offs).map InitCall.init = co
  | [], _, _ => by simp
  | _ :: _, [], h => by simp at h
  | a :: co, o :: offs, h => by
    have ih := map_init_zipWith m hm co offs (by simpa using h)
    simp [List.zipWith, hm, ih]

theorem map_init_callsOf (m : I → Int → InitCall I) (hm : ∀ a o, (m a o).init = a)
    (inits : List (List I)) (table : List (List Int)) (hlen : inits.length ≤ table.length)
    (hsz : ∀ k, k < inits.length →
      ((inits[k]?).getD []).length ≤ ((table[k]?).getD []).length) :
    (callsOf m inits table).map InitCall.init = inits.flatten := by
  unfold callsOf
  rw [zipWith_eq_map_range (fun co offs => List.zipWith m co offs) [] [] _ _ hlen,
    List.map_flatten, List.map_map]
  congr 1
  apply List.ext_getElem?
  intro k
  by_cases hk : k < inits.length
  · simp only [List.getElem?_map, List.getElem?_range hk, Option.map_some', Function.comp]
    rw [map_init_zipWith m hm _ _ (hsz k hk), List.getElem?_eq_getElem hk]
    rfl
  · rw [List.getElem?_eq_none (by simp; omega), List.getElem?_eq_none (by omega)]

theorem tableOf_facts (im : InitsManager V) (c : CPP_CustomInits V I)
    (hwf : ∀ k : Nat, k < c.inits.length →
      (cohortOffsets im c.offsets_set k).isSome = true ∧
      ((c.inits[k]?).getD []).length ≤ ((cohortOffsets im c.offsets_set k).getD []).length) :
    c.inits.length ≤ (tableOf im c.offsets_set c.inits.length).length ∧
    (∀ k, k < c.inits.length →
      cohortOffsets im c.offsets_set k = (tableOf im c.offsets_set c.inits.length)[k]?) ∧
    (∀ k, k < c.inits.length → ((c.inits[k]?).getD []).length ≤
      (((tableOf im c.offsets_set c.inits.length)[k]?).getD []).length) := by
  refine ⟨by simp [tableOf], ?_, ?_⟩
  · intro k hk
    obtain ⟨h1, _⟩ := hwf k hk
    obtain ⟨t, ht⟩ := Option.isSome_iff_exists.mp h1
    simp [tableOf, List.getElem?_range hk, ht]
  · intro k hk
    obtain ⟨_, h2⟩ := hwf k hk
    simpa [tableOf, List.getElem?_range hk] using h2

theorem zipWith_all (m : I → Int → InitCall I) (P : InitCall I → Prop) (hm : ∀ a o, P (m a o)) :
    ∀ (co : List I) (offs : List Int), ∀ x ∈ List.zipWith m co offs, P x
  | [], _ => by simp
  | _ :: _, [] => by simp
  | a :: co, o :: offs => by
    intro x hx
    simp only [List.zipWith_cons_cons, List.mem_cons] at hx
    rcases hx with hx | hx
    · rw [hx]; exact hm a o
    · exact zipWith_all m P hm co offs x hx

theorem callsOf_all (m : I → Int → InitCall I) (P : InitCall I → Prop) (hm : ∀ a o, P (m a o)) :
    ∀ (inits : List (List I)) (table : List (List Int)), ∀ x ∈ callsOf m inits table, P x
  | [], _ => by simp [callsOf]
  | _ :: _, [] => by simp [callsOf]
  | co :: inits, offs :: table => by
    intro x hx
    simp only [callsOf, List.zipWith_cons_cons, List.flatten_cons, List.mem_append] at hx
    rcases hx with hx | hx
    · exact zipWith_all m P hm co offs x hx
    · exact callsOf_all m P hm inits table x hx

theorem foldl_max_cohort (f : CPP_GlobalInfo → Int) (gis : List CPP_GlobalInfo) :
    ∀ (c0 : Int) (offs : List Int),
      (gis.foldl (fun (st : Int × List Int) gi => (max st.1 (f gi), st.2 ++ [gi.Offset]))
        (c0, offs)).1 = gis.foldl (fun m gi => max m (f gi)) c0 := by
  induction gis with
  | nil => intro c0 offs; rfl
  | cons g gis ih => intro c0 offs; simp only [List.foldl_cons]; exact ih _ _

theorem foldl_max_bounds (f : CPP_GlobalInfo → Int) (gis : List CPP_GlobalInfo) :
    ∀ (c0 : Int),
      c0 ≤ gis.foldl (fun m gi => max m (f gi)) c0 ∧
      (∀ gi ∈ gis, f gi ≤ gis.foldl (fun m gi => max m (f gi)) c0) ∧
      (gis.foldl (fun m gi => max m (f gi)) c0 = c0 ∨
        ∃ gi ∈ gis, gis.foldl (fun m gi => max m (f gi)) c0 = f gi) := by
  induction gis with
  | nil => intro c0; simp
  | cons g gis ih =>
    intro c0
    obtain ⟨h1, h2, h3⟩ := ih (max c0 (f g))
    simp only [List.foldl_cons]
    refine ⟨le_trans (le_max_left _ _) h1, ?_, ?_⟩
    · intro gi hgi
      rcases List.mem_cons.mp hgi with e | hmem
      · rw [e]; exact le_trans (le_max_right _ _) h1
      · exact h2 gi hmem
    · rcases h3 with h3 | ⟨gi, hgi, h3⟩
      · rcases le_total c0 (f g) with hle | hle
        · right
          exact ⟨g, List.mem_cons_self _ _, by rw [h3, max_eq_right hle]⟩
        · left
          rw [h3, max_eq_left hle]
      · right
        exact ⟨gi, List.mem_cons_of_mem _ hgi, h3⟩

theorem Initializer_SetOffset (g : CPP_GlobalInfo) (tag : String) (s : Int) :
    ∃ str, (g.SetOffset tag s).Initializer = some str := by
  unfold CPP_GlobalInfo.Initializer CPP_GlobalInfo.SetOffset
  cases g.data <;> exact ⟨_, rfl⟩

theorem mem_registered (tag : String) (gs : List CPP_GlobalInfo) (s : Int) (g : CPP_GlobalInfo)
    (hg : g ∈ registered tag s gs) : ∃ (g0 : CPP_GlobalInfo) (t : Int), g = g0.SetOffset tag t := by
  obtain ⟨i, hi⟩ := List.mem_iff_getElem?.mp hg
  rw [getElem?_registered] at hi
  cases h : gs[i]? with
  | none => simp [h] at hi
  | some g0 =>
    simp only [h, Option.map_some', Option.some.injEq] at hi
    exact ⟨g0, _, hi.symm⟩

theorem emitCohort_eq (b : List CPP_GlobalInfo)
    (h : ∀ g ∈ b, ∃ str, g.Initializer = some str) :
    emitCohort b = some (b.map (fun co => EmitCall.Emit ((co.Initializer.getD "") ++ ","))) := by
  unfold emitCohort
  apply forEach_eq_some
  intro g hg
  obtain ⟨str, hstr⟩ := h g hg
  simp [hstr]

theorem GenerateInitializers_eq (p : CPP_GlobalsInfo) (initializers_name : String)
    (h : ∀ b ∈ p.instances, ∀ g ∈ b, ∃ str, g.Initializer = some str) :
    p.GenerateInitializers initializers_name =
      some ([EmitCall.NL,
             EmitCall.Emit ("CPP_Globals<" ++ p.CPPType ++ "> " ++ initializers_name
               ++ " = CPP_Globals<" ++ p.CPPType ++ ">(" ++ p.base_name ++ ", "),
             EmitCall.IndentUp,
             EmitCall.Emit "\x7b"]
            ++ (p.instances.map (fun b =>
                [EmitCall.Emit "\x7b"]
                ++ b.map (fun co => EmitCall.Emit ((co.Initializer.getD "") ++ ","))
                ++ [EmitCall.Emit "\x7d,"])).flatten
            ++ [EmitCall.Emit "\x7d", EmitCall.IndentDown, EmitCall.Emit ");"]) := by
  unfold CPP_GlobalsInfo.GenerateInitializers
  rw [forEach_eq_some _ (fun b =>
    [EmitCall.Emit "\x7b"]
      ++ b.map (fun co => EmitCall.Emit ((co.Initializer.getD "") ++ ","))
      ++ [EmitCall.Emit "\x7d,"])]
  intro b hb
  rw [emitCohort_eq b (h b hb)]
  rfl

variable {T2 : Type}

theorem AttrsInfo_cohort (c0 : Int) (gis : List CPP_GlobalInfo) :
    (AttrsInfo c0 gis).InitCohort = gis.foldl (fun m g => max m (g.InitCohort + 1)) c0 := by
  simp only [AttrsInfo, CPP_GlobalInfo.InitCohort, CPP_GlobalInfo.pooled]
  exact foldl_max_cohort (fun g => g.init_cohort + 1) gis c0 []

theorem foldl_offsets (f : Int → CPP_GlobalInfo → Int) (gis : List CPP_GlobalInfo) :
    ∀ (c0 : Int) (offs : List Int),
      (gis.foldl (fun (st : Int × List Int) gi => (f st.1 gi, st.2 ++ [gi.Offset]))
        (c0, offs)).2 = offs ++ gis.map CPP_GlobalInfo.Offset := by
  induction gis with
  | nil => intro c0 offs; simp
  | cons g gis ih =>
    intro c0 offs
    simp only [List.foldl_cons, List.map_cons]
    rw [ih]
    simp

theorem AttrInfo_some (c0 : Int) (tag : String) (e : AttrExpr)
    (h : ¬ (e.is_simple_init = true ∧ e.tag = ExprTag.other)) :
    ∃ g, AttrInfo c0 tag (some e) = some g ∧
      g.InitCohort = max c0 (e.gi.InitCohort + 1) := by
  obtain ⟨gi, simple, t, n1, n2, n3⟩ := e
  cases simple <;> cases t <;>
    first
    | exact ⟨_, rfl, rfl⟩
    | exact absurd ⟨rfl, rfl⟩ h

theorem AttrInfo_cohort_of_some (c0 : Int) (tag : String) (e : AttrExpr) (g : CPP_GlobalInfo)
    (h : AttrInfo c0 tag (some e) = some g) :
    g.InitCohort = max c0 (e.gi.InitCohort + 1) := by
  by_cases ha : e.is_simple_init = true ∧ e.tag = ExprTag.other
  · simp [AttrInfo, ha.1, ha.2] at h
  · obtain ⟨g', hg', hc⟩ := AttrInfo_some c0 tag e ha
    rw [h] at hg'
    cases hg'
    exact hc

theorem fmtList_eq_join (xs : List Int) :
    fmtList xs = String.join (xs.map (fun a => Fmt a ++ ", ")) := by
  unfold fmtList String.join
  rw [List.foldl_map]

theorem pairwise_offsets_registered (tag : String) (gs : List CPP_GlobalInfo) (s : Int) :
    ((registered tag s gs).map CPP_GlobalInfo.Offset).Pairwise (fun a b => a < b) := by
  rw [offsets_registered]
  rw [List.pairwise_map]
  refine List.Pairwise.imp ?_ (List.pairwise_lt_range gs.length)
  intro a b hab
  omega

theorem pairwise_offsets_ofCohort (tag : String) (gs : List CPP_GlobalInfo) (s : Int) (k : Nat) :
    ((ofCohort k (registered tag s gs)).map CPP_GlobalInfo.Offset).Pairwise
      (fun a b => a < b) := by
  have hsub : List.Sublist ((ofCohort k (registered tag s gs)).map CPP_GlobalInfo.Offset)
      ((registered tag s gs).map CPP_GlobalInfo.Offset) :=
    List.Sublist.map _ (List.filter_sublist _)
  exact List.Pairwise.sublist hsub (pairwise_offsets_registered tag gs s)

theorem zipWith_offset_mem (m : I → Int → InitCall I) (hm : ∀ a o, (m a o).offset = o) :
    ∀ (co : List I) (offs : List Int), ∀ x ∈ List.zipWith m co offs, x.offset ∈ offs
  | [], _ => by simp
  | _ :: _, [] => by simp
  | a :: co, o :: offs => by
    intro x hx
    simp only [List.zipWith_cons_cons, List.mem_cons] at hx
    rcases hx with hx | hx
    · rw [hx, hm]; exact List.mem_cons_self _ _
    · exact List.mem_cons_of_mem _ (zipWith_offset_mem m hm co offs x hx)

theorem callsOf_offset_mem (m : I → Int → InitCall I) (hm : ∀ a o, (m a o).offset = o) :
    ∀ (inits : List (List I)) (table : List (List Int)),
      ∀ x ∈ callsOf m inits table, x.offset ∈ table.flatten
  | [], _ => by simp [callsOf]
  | _ :: _, [] => by simp [callsOf]
  | co :: inits, offs :: table => by
    intro x hx
    simp only [callsOf, List.zipWith_cons_cons, List.flatten_cons, List.mem_append] at hx
    rw [List.flatten_cons, List.mem_append]
    rcases hx with hx | hx
    · exact Or.inl (zipWith_offset_mem m hm co offs x hx)
    · exact Or.inr (callsOf_offset_mem m hm inits table x hx)

theorem offset_bounds_registered (tag : String) (gs : List CPP_GlobalInfo)
    (g : CPP_GlobalInfo) (hg : g ∈ registered tag 0 gs) :
    0 ≤ g.Offset ∧ g.Offset < (gs.length : Int) := by
  have hm : g.Offset ∈ (registered tag 0 gs).map CPP_GlobalInfo.Offset :=
    List.mem_map_of_mem _ hg
  rw [offsets_registered] at hm
  obtain ⟨i, hi, e⟩ := List.mem_map.mp hm
  have := List.mem_range.mp hi
  omega

/-- The hypotheses of `InitializeCohort_eq` for a `CPP_CustomInits` constructed
with the cohort shape of a pool over the offset table of that pool. -/
theorem compile_table_facts (p : CPP_GlobalsInfo)
    (vec0 : List (Option V)) (os : Int) (inits : List (List I)) (im : InitsManager V)
    (hshape : inits.map List.length = p.instances.map List.length)
    (htable : ∀ k : Nat, k < p.instances.length →
      cohortOffsets im os k = some (((p.instances[k]?).getD []).map CPP_GlobalInfo.Offset)) :
    (CPP_CustomInits.new vec0 os inits).inits.length ≤
      (p.instances.map (fun b => b.map CPP_GlobalInfo.Offset)).length ∧
    (∀ k, k < (CPP_CustomInits.new vec0 os inits).inits.length →
      cohortOffsets im (CPP_CustomInits.new vec0 os inits).offsets_set k =
        (p.instances.map (fun b => b.map CPP_GlobalInfo.Offset))[k]?) ∧
    (∀ k, k < (CPP_CustomInits.new vec0 os inits).inits.length →
      (((CPP_CustomInits.new vec0 os inits).inits[k]?).getD []).length ≤
        (((p.instances.map (fun b => b.map CPP_GlobalInfo.Offset))[k]?).getD []).length) := by
  have hlenI : inits.length = p.instances.length := by
    have := congrArg List.length hshape
    simpa using this
  refine ⟨by simp [CPP_CustomInits.new, hlenI], ?_, ?_⟩
  · intro k hk
    have hk' : k < p.instances.length := by
      simpa [CPP_CustomInits.new, hlenI] using hk
    have := htable k hk'
    rw [List.getElem?_eq_getElem hk'] at this
    simp only [CPP_CustomInits.new, List.getElem?_map, List.getElem?_eq_getElem hk',
      Option.map_some']
    simpa using this
  · intro k hk
    have hk' : k < p.instances.length := by
      simpa [CPP_CustomInits.new, hlenI] using hk
    have hkI : k < inits.length := by omega
    have := congrArg (fun l => l[k]?) hshape
    simp only [List.getElem?_map, List.getElem?_eq_getElem hk', List.getElem?_eq_getElem hkI,
      Option.map_some', Option.some.injEq] at this
    simp [CPP_CustomInits.new, List.getElem?_eq_getElem hk', List.getElem?_eq_getElem hkI,
      this]

theorem vecSet_length {α : Type} (v v' : List α) (i : Int) (x : α)
    (h : vecSet v i x = some v') : v'.length = v.length := by
  unfold vecSet at h
  split at h
  · cases h
    simp
  · cases h

theorem vecAt_vecSet_eq {α : Type} (v v' : List α) (i : Int) (x : α)
    (h : vecSet v i x = some v') : vecAt v' i = some x := by
  unfold vecSet at h
  split at h
  · rename_i hi
    cases h
    rw [vecAt_of_nonneg _ _ hi.1]
    simp [hi.2]
  · cases h

theorem vecAt_vecSet_ne {α : Type} (v v' : List α) (i j : Int) (x : α)
    (h : vecSet v i x = some v') (hij : j ≠ i) : vecAt v' j = vecAt v j := by
  unfold vecSet at h
  split at h
  · rename_i hi
    cases h
    by_cases hj : 0 ≤ j
    · rw [vecAt_of_nonneg _ _ hj, vecAt_of_nonneg _ _ hj]
      have hne : i.toNat ≠ j.toNat := by omega
      rw [List.getElem?_set_ne hne]
    · simp [vecAt, hj]
  · cases h

theorem vecSet_some {α : Type} (v : List α) (i : Int) (x : α)
    (h0 : 0 ≤ i) (h1 : i < (v.length : Int)) : vecSet v i x = some (v.set i.toNat x) := by
  unfold vecSet
  rw [if_pos ⟨h0, by omega⟩]

theorem forUpToState_inv {σ : Type} (f : Nat → σ → Option σ) (P : σ → Prop)
    (hf : ∀ i s s', f i s = some s' → P s → P s') :
    ∀ (n : Nat) (s s' : σ), forUpToState f n s = some s' → P s → P s'
  | 0, s, s', h, hP => by
    simp only [forUpToState, Option.some.injEq] at h
    rw [← h]; exact hP
  | n + 1, s, s', h, hP => by
    simp only [forUpToState] at h
    cases h1 : forUpToState f n s with
    | none => simp [h1] at h
    | some s1 =>
      simp only [h1] at h
      exact hf n s1 s' h (forUpToState_inv f P hf n s s1 h1 hP)

theorem runCalls_length : ∀ (calls : List (InitCall (CPP_Init V))) (v v' : List (Option V)),
    runCalls calls v = some v' → v'.length = v.length
  | [], v, v', h => by
    simp only [runCalls, Option.some.injEq] at h
    rw [h]
  | c :: cs, v, v', h => by
    simp only [runCalls] at h
    cases h1 : c.run v with
    | none => simp [h1] at h
    | some v1 =>
      simp only [h1] at h
      have ih := runCalls_length cs v1 v' h
      rw [ih]
      cases c with
      | PreInit init offset =>
        simp only [InitCall.run, CPP_Init.PreInit, Option.some.injEq] at h1
        rw [h1]
      | Generate init offset =>
        cases init with
        | base =>
          simp only [InitCall.run, CPP_Init.Generate, Option.some.injEq] at h1
          rw [h1]
        | CPP_CallExprInit e =>
          simp only [InitCall.run, CPP_Init.Generate] at h1
          exact vecSet_length _ _ _ _ h1

theorem BasicConsts_InitializeCohort_length
    (initElem : List T2 → InitsManager V → List (Option V) → Int → Int →
      Option (List (Option V)))
    (hel : ∀ inits im v offset index v', initElem inits im v offset index = some v' →
      v'.length = v.length)
    (c : CPP_AbstractBasicConsts V T2) (im : InitsManager V) (cohort : Int)
    (v' : List (Option V))
    (h : CPP_AbstractBasicConsts.InitializeCohort initElem c im cohort = some v') :
    v'.length = c.inits_vec.length := by
  unfold CPP_AbstractBasicConsts.InitializeCohort at h
  split at h
  · split at h
    · cases h
    · split at h
      · cases h
      · split at h
        · cases h
        · rename_i cohort_offsets _
          refine forUpToState_inv _ (fun v => v.length = c.inits_vec.length) ?_ _ _ _ h rfl
          intro i s s' hs hP
          cases ho : vecAt cohort_offsets (i : Int) with
          | none => simp [ho] at hs
          | some offset =>
            simp only [ho] at hs
            rw [hel _ _ _ _ _ _ hs, hP]
  · cases h

theorem BasicConsts_InitElem_length (make : T2 → V) (inits : List T2) (im : InitsManager V)
    (v : List (Option V)) (offset index : Int) (v' : List (Option V))
    (h : CPP_BasicConsts.InitElem make inits im v offset index = some v') :
    v'.length = v.length := by
  unfold CPP_BasicConsts.InitElem at h
  cases hx : vecAt inits index with
  | none => simp [hx] at h
  | some x =>
    simp only [hx] at h
    exact vecSet_length _ _ _ _ h

theorem AddrConsts_InitElem_length (make : String → V) (inits : List Int) (im : InitsManager V)
    (v : List (Option V)) (offset index : Int) (v' : List (Option V))
    (h : CPP_AddrConsts.InitElem make inits im v offset index = some v') :
    v'.length = v.length := by
  unfold CPP_AddrConsts.InitElem at h
  cases hx : vecAt inits index with
  | none => simp [hx] at h
  | some k =>
    cases hs : im.Strings k with
    | none => simp [hx, hs] at h
    | some s =>
      simp only [hx, hs] at h
      exact vecSet_length _ _ _ _ h

theorem SubNetConsts_InitElem_length (make : String → V) (inits : List Int)
    (im : InitsManager V) (v : List (Option V)) (offset index : Int) (v' : List (Option V))
    (h : CPP_SubNetConsts.InitElem make inits im v offset index = some v') :
    v'.length = v.length := by
  unfold CPP_SubNetConsts.InitElem at h
  cases hx : vecAt inits index with
  | none => simp [hx] at h
  | some k =>
    cases hs : im.Strings k with
    | none => simp [hx, hs] at h
    | some s =>
      simp only [hx, hs] at h
      exact vecSet_length _ _ _ _ h

/-- The state of the loop of `CPP_AbstractBasicConsts::InitializeCohort`, with
the override of `CPP_BasicConsts`, after `m` rounds. -/
theorem basicConsts_loop (make : T2 → V) (inits : List T2) (im : InitsManager V)
    (offs : List Int) (vec0 : List (Option V))
    (hlen : inits.length ≤ offs.length)
    (hnd : (offs.take inits.length).Nodup)
    (hin : ∀ o ∈ offs.take inits.length, 0 ≤ o ∧ o < (vec0.length : Int)) :
    ∀ m : Nat, m ≤ inits.length →
      ∃ v, forUpToState
          (fun i inits_vec =>
            match vecAt offs (i : Int) with
            | none => none
            | some offset => CPP_BasicConsts.InitElem make inits im inits_vec offset (i : Int))
          m vec0 = some v ∧
        v.length = vec0.length ∧
        (∀ i : Nat, i < m → ∃ o x, offs[i]? = some o ∧ inits[i]? = some x ∧
          vecAt v o = some (some (make x))) ∧
        (∀ j : Int, j ∉ offs.take m → vecAt v j = vecAt vec0 j)
  | 0, _ => ⟨vec0, rfl, rfl, fun i hi => absurd hi (Nat.not_lt_zero i), fun _ _ => rfl⟩
  | m + 1, hm => by
    obtain ⟨v, hv, hl, hset, hkeep⟩ := basicConsts_loop make inits im offs vec0 hlen hnd hin m
      (Nat.le_of_succ_le hm)
    have hmi : m < inits.length := hm
    have hmo : m < offs.length := by omega
    have htake : offs.take (m + 1) = offs.take m ++ [offs[m]] := by
      rw [List.take_succ, List.getElem?_eq_getElem hmo]
      rfl
    have hmem : offs[m] ∈ offs.take inits.length := by
      rw [List.mem_take_iff_getElem]
      exact ⟨m, by omega, rfl⟩
    have hnd' : (offs.take (m + 1)).Nodup := by
      have hsub : List.Sublist (offs.take (m + 1)) (offs.take inits.length) := by
        have : offs.take (m + 1) = (offs.take inits.length).take (m + 1) := by
          rw [List.take_take, Nat.min_eq_left hm]
        rw [this]
        exact List.take_sublist _ _
      exact List.Nodup.sublist hsub hnd
    rw [htake] at hnd'
    have hnotin : offs[m] ∉ offs.take m := by
      intro hcon
      exact (List.nodup_append.mp hnd').2.2 hcon (List.mem_singleton_self _) 
    obtain ⟨hb0, hb1⟩ := hin _ hmem
    have hstep : CPP_BasicConsts.InitElem make inits im v offs[m] (m : Int) =
        some (v.set offs[m].toNat (some (make inits[m]))) := by
      unfold CPP_BasicConsts.InitElem
      rw [vecAt_natCast, List.getElem?_eq_getElem hmi]
      exact vecSet_some _ _ _ hb0 (by rw [hl]; exact hb1)
    have hvs : vecSet v offs[m] (some (make inits[m])) =
        some (v.set offs[m].toNat (some (make inits[m]))) :=
      vecSet_some _ _ _ hb0 (by rw [hl]; exact hb1)
    refine ⟨v.set offs[m].toNat (some (make inits[m])), ?_, ?_, ?_, ?_⟩
    · simp only [forUpToState, hv]
      simp only [vecAt_natCast, List.getElem?_eq_getElem hmo, hstep]
    · simp [hl]
    · intro i hi
      by_cases him : i = m
      · subst him
        exact ⟨offs[i], inits[i], List.getElem?_eq_getElem hmo, List.getElem?_eq_getElem hmi,
          vecAt_vecSet_eq _ _ _ _ hvs⟩
      · have hi' : i < m := by omega
        obtain ⟨o, x, ho, hx, hval⟩ := hset i hi'
        refine ⟨o, x, ho, hx, ?_⟩
        have hne : o ≠ offs[m] := by
          intro e
          apply hnotin
          rw [← e, List.mem_take_iff_getElem]
          have hio : i < offs.length := by omega
          rw [List.getElem?_eq_getElem hio] at ho
          exact ⟨i, by omega, Option.some.inj ho⟩
        rw [vecAt_vecSet_ne _ _ _ _ _ hvs hne]
        exact hval
    · intro j hj
      rw [htake, List.mem_append, List.mem_singleton] at hj
      have hne : j ≠ offs[m] := fun e => hj (Or.inr e)
      rw [vecAt_vecSet_ne _ _ _ _ _ hvs hne]
      exact hkeep j (fun hcon => hj (Or.inl hcon))

/-- Under the compile-side offset table, the run over the cohorts
`0 .. MaxCohort()` returns, the offsets it hands to `Generate` are exactly
`0 .. Size() - 1`, each once, and the storage array has `Size()` slots. -/
theorem InitializeCohorts_generate_offsets (tag ty : String) (gs gs' : List CPP_GlobalInfo)
    (p : CPP_GlobalsInfo)
    (hreg : (CPP_GlobalsInfo.new tag ty).AddInstances gs = some (p, gs'))
    (vec0 : List (Option V)) (os : Int) (inits : List (List I)) (im : InitsManager V)
    (hshape : inits.map List.length = p.instances.map List.length)
    (htable : ∀ k : Nat, k < p.instances.length →
      cohortOffsets im os k = some (((p.instances[k]?).getD []).map CPP_GlobalInfo.Offset)) :
    ∃ calls, (CPP_CustomInits.new vec0 os inits).InitializeCohorts im (p.MaxCohort + 1).toNat
        = some calls ∧
      (generateOffsets calls).Perm ((List.range p.Size.toNat).map (fun (i : Nat) => (i : Int))) ∧
      (generateOffsets calls).Nodup ∧
      (CPP_CustomInits.new vec0 os inits).inits_vec.length = p.Size.toNat := by
  have h := AddInstances_nonneg gs _ _ hreg
  obtain ⟨p0, h0, hs, _, hi⟩ := fresh_AddInstances tag ty gs h
  rw [hreg] at h0
  cases h0
  have hlenI : inits.length = p.instances.length := by
    have := congrArg List.length hshape
    simpa using this
  have hsize : p.Size.toNat = gs.length := by
    rw [CPP_GlobalsInfo.Size, hs]; omega
  have hmc : (p.MaxCohort + 1).toNat = inits.length := by
    rw [CPP_GlobalsInfo.MaxCohort, hlenI]; omega
  have hshape' : inits.map List.length =
      (p.instances.map (fun b => b.map CPP_GlobalInfo.Offset)).map List.length := by
    rw [hshape, List.map_map]
    apply List.map_congr_left
    intro b _
    simp
  have hrun := InitializeCohorts_eq (CPP_CustomInits.new vec0 os inits) im
    (p.instances.map (fun b => b.map CPP_GlobalInfo.Offset))
    (by simp [CPP_CustomInits.new, hlenI])
    (by
      intro k hk
      have hk' : k < p.instances.length := by
        simpa [CPP_CustomInits.new, hlenI] using hk
      have := htable k hk'
      rw [List.getElem?_eq_getElem hk'] at this
      simp only [CPP_CustomInits.new, List.getElem?_map, List.getElem?_eq_getElem hk',
        Option.map_some']
      simpa using this)
    (by
      intro k hk
      have hk' : k < p.instances.length := by
        simpa [CPP_CustomInits.new, hlenI] using hk
      have hkI : k < inits.length := by omega
      have := congrArg (fun l => l[k]?) hshape
      simp only [List.getElem?_map, List.getElem?_eq_getElem hk', List.getElem?_eq_getElem hkI,
        Option.map_some', Option.some.injEq] at this
      simp [CPP_CustomInits.new, List.getElem?_eq_getElem hk', List.getElem?_eq_getElem hkI,
        this])
  have hperm : (generateOffsets
      (callsOf InitCall.PreInit inits (p.instances.map (fun b => b.map CPP_GlobalInfo.Offset)) ++
        callsOf InitCall.Generate inits
          (p.instances.map (fun b => b.map CPP_GlobalInfo.Offset)))).Perm
      ((List.range p.Size.toNat).map (fun (i : Nat) => (i : Int))) := by
    rw [generateOffsets_append, generateOffsets_callsOf_PreInit,
      generateOffsets_callsOf_Generate _ _ hshape', List.nil_append, ← List.map_flatten, hsize]
    have hb := perm_buckets (registered tag 0 gs) (cohortCount gs)
      (cohort_bounds_registered tag gs h)
    rw [← hi] at hb
    have := hb.map CPP_GlobalInfo.Offset
    rw [offsets_registered] at this
    simpa using this
  refine ⟨_, ?_, hperm, ?_, ?_⟩
  · rw [hmc]
    exact hrun
  · refine (List.Perm.nodup_iff hperm).mpr ?_
    refine List.Nodup.map ?_ (List.nodup_range _)
    intro a b hab
    simpa using hab
  · rw [length_new_inits_vec, hshape, hsize, hi, List.map_map]
    have := sum_length_ofCohort (cohortCount gs) (registered tag 0 gs)
      (cohort_bounds_registered tag gs h)
    simp only [Function.comp_def]
    rw [this, length_registered]

theorem runCalls_append : ∀ (a b : List (InitCall (CPP_Init V))) (v : List (Option V)),
    runCalls (a ++ b) v = (runCalls a v).bind (runCalls b)
  | [], b, v => rfl
  | c :: a, b, v => by
    simp only [List.cons_append, runCalls]
    cases h : c.run v with
    | none => rfl
    | some v1 => exact runCalls_append a b v1

theorem runCalls_PreInits : ∀ (a : List (InitCall (CPP_Init V))) (v : List (Option V)),
    (∀ x ∈ a, x.isPreInit = true) → runCalls a v = some v
  | [], v, _ => rfl
  | c :: a, v, h => by
    have hc := h c (List.mem_cons_self _ _)
    cases c with
    | Generate init o => simp [InitCall.isPreInit] at hc
    | PreInit init o =>
      simp only [runCalls, InitCall.run, CPP_Init.PreInit]
      exact runCalls_PreInits a v (fun x hx => h x (List.mem_cons_of_mem _ hx))

theorem map_offset_of_generates : ∀ (l : List (InitCall I)),
    (∀ x ∈ l, x.isPreInit = false) → l.map InitCall.offset = generateOffsets l
  | [], _ => rfl
  | c :: l, h => by
    have hc := h c (List.mem_cons_self _ _)
    have ih := map_offset_of_generates l (fun x hx => h x (List.mem_cons_of_mem _ hx))
    cases c with
    | PreInit init o => simp [InitCall.isPreInit] at hc
    | Generate init o =>
      simp only [generateOffsets] at ih ⊢
      simp [List.filterMap_cons, InitCall.offset, ih]

/-- The array after a list of `Generate` calls with pairwise distinct in-range
offsets: a call on a `CPP_CallExprInit` has stored its expression at its
offset, a call on the base class has left the slot at its offset as it was,
and so has every slot no call is made for. -/
theorem runCalls_generates : ∀ (calls : List (InitCall (CPP_Init V))) (v0 : List (Option V)),
    (calls.map InitCall.offset).Nodup →
    (∀ x ∈ calls, 0 ≤ x.offset ∧ x.offset < (v0.length : Int)) →
    (∀ x ∈ calls, x.isPreInit = false) →
    ∃ v, runCalls calls v0 = some v ∧ v.length = v0.length ∧
      (∀ e o, InitCall.Generate (CPP_Init.CPP_CallExprInit e) o ∈ calls →
        vecAt v o = some (some e)) ∧
      (∀ o, InitCall.Generate CPP_Init.base o ∈ calls → vecAt v o = vecAt v0 o) ∧
      (∀ j : Int, j ∉ calls.map InitCall.offset → vecAt v j = vecAt v0 j)
  | [], v0, _, _, _ => ⟨v0, rfl, rfl, by simp, by simp, fun _ _ => rfl⟩
  | c :: calls, v0, hnd, hin, hgen => by
    rw [List.map_cons, List.nodup_cons] at hnd
    obtain ⟨hnotin, hnd'⟩ := hnd
    have hc := hgen c (List.mem_cons_self _ _)
    obtain ⟨hc0, hc1⟩ := hin c (List.mem_cons_self _ _)
    cases c with
    | PreInit init o => simp [InitCall.isPreInit] at hc
    | Generate init o =>
      simp only [InitCall.offset] at hnotin hc0 hc1
      cases init with
      | base =>
        obtain ⟨v, hv, hl, hce, hb, hk⟩ := runCalls_generates calls v0 hnd'
          (fun x hx => hin x (List.mem_cons_of_mem _ hx))
          (fun x hx => hgen x (List.mem_cons_of_mem _ hx))
        refine ⟨v, ?_, hl, ?_, ?_, ?_⟩
        · simp only [runCalls, InitCall.run, CPP_Init.Generate]
          exact hv
        · intro e o' hmem
          rcases List.mem_cons.mp hmem with h1 | h1
          · cases h1
          · exact hce e o' h1
        · intro o' hmem
          rcases List.mem_cons.mp hmem with h1 | h1
          · cases h1
            exact hk o hnotin
          · exact hb o' h1
        · intro j hj
          rw [List.map_cons, List.mem_cons] at hj
          exact hk j (fun hcon => hj (Or.inr hcon))
      | CPP_CallExprInit e =>
        have hvs : vecSet v0 o (some e) = some (v0.set o.toNat (some e)) :=
          vecSet_some v0 o (some e) hc0 hc1
        have hl1 : (v0.set o.toNat (some e)).length = v0.length := by simp
        obtain ⟨v, hv, hl, hce, hb, hk⟩ := runCalls_generates calls
          (v0.set o.toNat (some e)) hnd'
          (fun x hx => by rw [hl1]; exact hin x (List.mem_cons_of_mem _ hx))
          (fun x hx => hgen x (List.mem_cons_of_mem _ hx))
        refine ⟨v, ?_, by rw [hl, hl1], ?_, ?_, ?_⟩
        · simp only [runCalls, InitCall.run, CPP_Init.Generate, hvs]
          exact hv
        · intro e' o' hmem
          rcases List.mem_cons.mp hmem with h1 | h1
          · cases h1
            rw [hk o hnotin]
            exact vecAt_vecSet_eq _ _ _ _ hvs
          · exact hce e' o' h1
        · intro o' hmem
          rcases List.mem_cons.mp hmem with h1 | h1
          · cases h1
          · have hne : o' ≠ o := by
              intro e1
              apply hnotin
              rw [← e1]
              exact List.mem_map_of_mem InitCall.offset h1
            rw [hb o' h1]
            exact vecAt_vecSet_ne _ _ _ _ _ hvs hne
        · intro j hj
          rw [List.map_cons, List.mem_cons] at hj
          have hne : j ≠ o := fun e1 => hj (Or.inl e1)
          rw [hk j (fun hcon => hj (Or.inr hcon))]
          exact vecAt_vecSet_ne _ _ _ _ _ hvs hne

/-! ## The claims -/

/-- C1: registering descriptors with non-negative cohorts into a fresh pool
succeeds, the descriptor registered at rank `i` is the `i`-th given one with
`SetOffset(pool, i)` applied, so the offsets are `0, 1, .., n - 1` in
registration order and pairwise distinct, and `Size()` is `n`. -/
theorem C1_offsets_are_registration_ranks (tag ty : String) (gs : List CPP_GlobalInfo)
    (h : ∀ g ∈ gs, 0 ≤ g.InitCohort) :
    ∃ p gs', (CPP_GlobalsInfo.new tag ty).AddInstances gs = some (p, gs') ∧
      gs'.length = gs.length ∧
      (∀ i : Nat, gs'[i]? = (gs[i]?).map (fun g => g.SetOffset tag (i : Int))) ∧
      (∀ i : Nat, i < gs.length → (gs'[i]?).map CPP_GlobalInfo.Offset = some (i : Int)) ∧
      gs'.map CPP_GlobalInfo.Offset = (List.range gs.length).map (fun (i : Nat) => (i : Int)) ∧
      (gs'.map CPP_GlobalInfo.Offset).Nodup ∧
      p.Size = (gs.length : Int) := by
  obtain ⟨p, h1, hs, _, _⟩ := fresh_AddInstances tag ty gs h
  have hget : ∀ i : Nat, (registered tag 0 gs)[i]? =
      (gs[i]?).map (fun g => g.SetOffset tag (i : Int)) := by
    intro i
    rw [getElem?_registered]
    simp
  refine ⟨p, registered tag 0 gs, h1, length_registered tag gs 0, hget, ?_, ?_,
    nodup_offsets_registered tag gs 0, hs⟩
  · intro i hi
    rw [hget i, List.getElem?_eq_getElem hi]
    rfl
  · rw [offsets_registered]
    simp

/-- C1 at a concrete input: three descriptors of cohorts 0, 1, 0. -/
theorem C1_offsets_are_registration_ranks_witness :
    (∀ g ∈ [exBaseType 0, exBaseType 1, exBaseType 0], 0 ≤ g.InitCohort) ∧
    ∃ p gs', (CPP_GlobalsInfo.new "Type" "Type").AddInstances
        [exBaseType 0, exBaseType 1, exBaseType 0] = some (p, gs') ∧
      gs'.length = [exBaseType 0, exBaseType 1, exBaseType 0].length ∧
      (∀ i : Nat, gs'[i]? = ([exBaseType 0, exBaseType 1, exBaseType 0][i]?).map
        (fun g => g.SetOffset "Type" (i : Int))) ∧
      (∀ i : Nat, i < [exBaseType 0, exBaseType 1, exBaseType 0].length →
        (gs'[i]?).map CPP_GlobalInfo.Offset = some (i : Int)) ∧
      gs'.map CPP_GlobalInfo.Offset =
        (List.range [exBaseType 0, exBaseType 1, exBaseType 0].length).map
          (fun (i : Nat) => (i : Int)) ∧
      (gs'.map CPP_GlobalInfo.Offset).Nodup ∧
      p.Size = ([exBaseType 0, exBaseType 1, exBaseType 0].length : Int) :=
  ⟨by decide, C1_offsets_are_registration_ranks "Type" "Type"
    [exBaseType 0, exBaseType 1, exBaseType 0] (by decide)⟩

/-- C2, as stated, fails: the vector type over the registered base type `exT1`
of cohort 0 has cohort 0, not 1, and so has the list type over `exT1`. -/
theorem C2_counterexample :
    exTypePool.AddInstance (exBaseType 0) = some (exTypePool1, exT1) ∧
    exT1.InitCohort = 0 ∧
    (VectorTypeInfo 0 exT1).InitCohort = 0 ∧
    (VectorTypeInfo 0 exT1).InitCohort ≠ 1 + exT1.InitCohort ∧
    ¬ (exT1.InitCohort < (VectorTypeInfo 0 exT1).InitCohort) ∧
    (ListTypeInfo 0 [exT1]).InitCohort = 0 := by
  decide

/-- C2, amended: the cohort of a type descriptor that cites component types is
the maximum of the cohorts of those components, without an added 1 (for a
list type, the maximum of them and of the cohort `c0` the descriptor starts
with), hence at least, not strictly above, the cohort of each of them. -/
theorem C2_type_cohort_is_max_of_components (c0 yield0 : Int) (flavor : FunctionFlavor)
    (gi gy : CPP_GlobalInfo) (gis : List CPP_GlobalInfo) :
    (TypeTypeInfo c0 gi).InitCohort = gi.InitCohort ∧
    (VectorTypeInfo c0 gi).InitCohort = gi.InitCohort ∧
    (c0 ≤ (ListTypeInfo c0 gis).InitCohort ∧
      (∀ g ∈ gis, g.InitCohort ≤ (ListTypeInfo c0 gis).InitCohort) ∧
      ((ListTypeInfo c0 gis).InitCohort = c0 ∨
        ∃ g ∈ gis, (ListTypeInfo c0 gis).InitCohort = g.InitCohort)) ∧
    (ListTypeInfo c0 []).InitCohort = c0 ∧
    (ListTypeInfo c0 [gi]).InitCohort = max c0 gi.InitCohort ∧
    (TableTypeInfo c0 yield0 gi (some gy)).InitCohort = max gi.InitCohort gy.InitCohort ∧
    (TableTypeInfo c0 yield0 gi none).InitCohort = gi.InitCohort ∧
    (FuncTypeInfo c0 yield0 flavor gi (some gy)).InitCohort = max gi.InitCohort gy.InitCohort ∧
    (FuncTypeInfo c0 yield0 flavor gi none).InitCohort = gi.InitCohort := by
  have hL : (ListTypeInfo c0 gis).InitCohort =
      gis.foldl (fun m g => max m g.InitCohort) c0 := by
    simp only [ListTypeInfo, CPP_GlobalInfo.InitCohort, CPP_GlobalInfo.pooled]
    exact foldl_max_cohort (fun g => g.init_cohort) gis c0 []
  refine ⟨rfl, rfl, ?_, rfl, rfl, rfl, rfl, rfl, rfl⟩
  rw [hL]
  exact foldl_max_bounds (fun g => g.InitCohort) gis c0

/-- C3: after registering descriptors with non-negative cohorts into a fresh
pool, every registered descriptor occurs exactly once in the bucket indexed
by its `InitCohort()` and in no other bucket, the buckets hold nothing but
registered descriptors, and the bucket sizes add up to `Size()`. -/
theorem C3_buckets_partition_descriptors (tag ty : String) (gs : List CPP_GlobalInfo)
    (h : ∀ g ∈ gs, 0 ≤ g.InitCohort) :
    ∃ p gs', (CPP_GlobalsInfo.new tag ty).AddInstances gs = some (p, gs') ∧
      (∀ g ∈ gs', ∃ b, vecAt p.instances g.InitCohort = some b ∧ b.count g = 1) ∧
      (∀ g ∈ gs', ∀ k : Nat, (k : Int) ≠ g.InitCohort →
        ((p.instances[k]?).getD []).count g = 0) ∧
      (∀ b ∈ p.instances, ∀ g ∈ b, g ∈ gs') ∧
      (((p.instances.map List.length).sum : Nat) : Int) = p.Size := by
  obtain ⟨p, h1, hs, _, hi⟩ := fresh_AddInstances tag ty gs h
  have hnd := nodup_registered tag gs 0
  have hbuck : ∀ k : Nat, (p.instances[k]?).getD [] =
      if k < cohortCount gs then ofCohort k (registered tag 0 gs) else [] := by
    intro k
    rw [hi]
    by_cases hk : k < cohortCount gs
    · simp [hk, List.getElem?_range hk]
    · rw [if_neg hk, List.getElem?_eq_none (by simp; omega)]
      rfl
  refine ⟨p, registered tag 0 gs, h1, ?_, ?_, ?_, ?_⟩
  · intro g hg
    obtain ⟨hc0, hcL⟩ := cohort_bounds_registered tag gs h g hg
    have hk : g.init_cohort.toNat < cohortCount gs := by omega
    refine ⟨ofCohort g.init_cohort.toNat (registered tag 0 gs), ?_, ?_⟩
    · rw [CPP_GlobalInfo.InitCohort, vecAt_of_nonneg _ _ hc0, hi]
      simp [hk, List.getElem?_range hk]
    · rw [count_ofCohort _ hnd g hg, if_pos (by omega)]
  · intro g hg k hk
    rw [hbuck k]
    by_cases hkL : k < cohortCount gs
    · rw [if_pos hkL, count_ofCohort _ hnd g hg, if_neg]
      intro e
      exact hk (by simp only [CPP_GlobalInfo.InitCohort]; omega)
    · rw [if_neg hkL]
      rfl
  · intro b hb g hg
    rw [hi] at hb
    exact mem_ofCohort_range _ _ b hb g hg
  · rw [hi, List.map_map]
    have := sum_length_ofCohort (cohortCount gs) (registered tag 0 gs)
      (cohort_bounds_registered tag gs h)
    simp only [Function.comp_def]
    rw [this, length_registered]
    exact hs.symm

/-- C3 at a concrete input: three descriptors of cohorts 0, 1, 0. -/
theorem C3_buckets_partition_descriptors_witness :
    (∀ g ∈ [exBaseType 0, exBaseType 1, exBaseType 0], 0 ≤ g.InitCohort) ∧
    ∃ p gs', (CPP_GlobalsInfo.new "Type" "Type").AddInstances
        [exBaseType 0, exBaseType 1, exBaseType 0] = some (p, gs') ∧
      (∀ g ∈ gs', ∃ b, vecAt p.instances g.InitCohort = some b ∧ b.count g = 1) ∧
      (∀ g ∈ gs', ∀ k : Nat, (k : Int) ≠ g.InitCohort →
        ((p.instances[k]?).getD []).count g = 0) ∧
      (∀ b ∈ p.instances, ∀ g ∈ b, g ∈ gs') ∧
      (((p.instances.map List.length).sum : Nat) : Int) = p.Size :=
  ⟨by decide, C3_buckets_partition_descriptors "Type" "Type"
    [exBaseType 0, exBaseType 1, exBaseType 0] (by decide)⟩

/-- C4: a fresh pool has `MaxCohort() = -1`; after registering a non-empty list
of descriptors with non-negative cohorts, `MaxCohort()` is the cohort of some
registered descriptor and at least the cohort of each of them, the bucket at
index `MaxCohort()` exists and is not empty, and there is no bucket above
it. -/
theorem C4_max_cohort_is_highest_bucket (tag ty : String) (gs : List CPP_GlobalInfo) :
    (CPP_GlobalsInfo.new tag ty).MaxCohort = -1 ∧
    ((∀ g ∈ gs, 0 ≤ g.InitCohort) → gs ≠ [] →
      ∃ p gs', (CPP_GlobalsInfo.new tag ty).AddInstances gs = some (p, gs') ∧
        (∃ g ∈ gs', g.InitCohort = p.MaxCohort) ∧
        (∀ g ∈ gs', g.InitCohort ≤ p.MaxCohort) ∧
        (∃ b, vecAt p.instances p.MaxCohort = some b ∧ b ≠ []) ∧
        (∀ k : Int, p.MaxCohort < k → vecAt p.instances k = none)) := by
  refine ⟨rfl, ?_⟩
  intro h hne
  obtain ⟨p, h1, _, _, hi⟩ := fresh_AddInstances tag ty gs h
  have hlen : p.instances.length = cohortCount gs := by rw [hi]; simp
  have hmc : p.MaxCohort = (cohortCount gs : Int) - 1 := by
    rw [CPP_GlobalsInfo.MaxCohort, hlen]
  have hR : ∀ g ∈ registered tag 0 gs, 0 ≤ g.init_cohort := fun g hg =>
    (cohort_bounds_registered tag gs h g hg).1
  have hRne : registered tag 0 gs ≠ [] := by
    intro e
    have := length_registered tag gs 0
    rw [e] at this
    exact hne (List.length_eq_zero.mp this.symm)
  obtain ⟨g, hg, hgc⟩ := exists_cohortCount (registered tag 0 gs) hRne hR
  rw [cohortCount_registered] at hgc
  have hpos : 0 < cohortCount gs := by
    have := (cohort_bounds_registered tag gs h g hg).2
    have := hR g hg
    omega
  refine ⟨p, registered tag 0 gs, h1, ⟨g, hg, ?_⟩, ?_, ?_, ?_⟩
  · rw [hmc]; exact hgc
  · intro x hx
    have := (cohort_bounds_registered tag gs h x hx).2
    rw [hmc, CPP_GlobalInfo.InitCohort]
    omega
  · have hk : (cohortCount gs - 1 : Nat) < cohortCount gs := by omega
    have hcast : ((cohortCount gs : Int) - 1) = ((cohortCount gs - 1 : Nat) : Int) := by omega
    refine ⟨ofCohort (cohortCount gs - 1) (registered tag 0 gs), ?_, ?_⟩
    · rw [hmc, hcast, vecAt_natCast, hi]
      simp [List.getElem?_range hk, hk]
    · intro e
      have hmem : g ∈ ofCohort (cohortCount gs - 1) (registered tag 0 gs) := by
        rw [ofCohort, List.mem_filter]
        refine ⟨hg, ?_⟩
        simp only [decide_eq_true_eq]
        omega
      rw [e] at hmem
      simp at hmem
  · intro k hk
    rw [hmc] at hk
    have hk0 : 0 ≤ k := by omega
    rw [vecAt_of_nonneg _ _ hk0, List.getElem?_eq_none]
    rw [hlen]
    omega

/-- C4 at a concrete input: three descriptors of cohorts 0, 1, 0. -/
theorem C4_max_cohort_is_highest_bucket_witness :
    ((∀ g ∈ [exBaseType 0, exBaseType 1, exBaseType 0], 0 ≤ g.InitCohort) ∧
      [exBaseType 0, exBaseType 1, exBaseType 0] ≠ []) ∧
    (CPP_GlobalsInfo.new "Type" "Type").MaxCohort = -1 ∧
    ∃ p gs', (CPP_GlobalsInfo.new "Type" "Type").AddInstances
        [exBaseType 0, exBaseType 1, exBaseType 0] = some (p, gs') ∧
      (∃ g ∈ gs', g.InitCohort = p.MaxCohort) ∧
      (∀ g ∈ gs', g.InitCohort ≤ p.MaxCohort) ∧
      (∃ b, vecAt p.instances p.MaxCohort = some b ∧ b ≠ []) ∧
      (∀ k : Int, p.MaxCohort < k → vecAt p.instances k = none) :=
  ⟨⟨by decide, by decide⟩,
    (C4_max_cohort_is_highest_bucket "Type" "Type"
      [exBaseType 0, exBaseType 1, exBaseType 0]).1,
    (C4_max_cohort_is_highest_bucket "Type" "Type"
      [exBaseType 0, exBaseType 1, exBaseType 0]).2 (by decide) (by decide)⟩

/-- C5, as stated, fails: for the pool `exTypePool3` and the initializer set
`exCallPool` of the same cohort shape over the offset table of `exIm`, the
run over the cohorts 0 and 1 hands each of the offsets 0, 1, 2 to `Generate`
once, and still leaves slot 2 of the storage array not populated, because the
initializer at offset 2 has the empty `Generate` of the base class. -/
theorem C5_counterexample :
    (CPP_GlobalsInfo.new "Type" "Type").AddInstances
        [exBaseType 0, exBaseType 1, exBaseType 0] =
      some (exTypePool3, registered "Type" 0 [exBaseType 0, exBaseType 1, exBaseType 0]) ∧
    exCallPool.inits.map List.length = exTypePool3.instances.map List.length ∧
    (∀ k : Nat, k < exTypePool3.instances.length →
      cohortOffsets exIm exCallPool.offsets_set k =
        some (((exTypePool3.instances[k]?).getD []).map CPP_GlobalInfo.Offset)) ∧
    (exCallPool.InitializeCohorts exIm (exTypePool3.MaxCohort + 1).toNat).map generateOffsets
      = some [0, 2, 1] ∧
    exCallPool.InitializeCohortsArray exIm (exTypePool3.MaxCohort + 1).toNat =
      some [some "f", some "g", none] ∧
    vecAt ([some "f", some "g", none] : List (Option String)) 2 = some none := by
  refine ⟨by decide, by decide, by decide, by decide, by decide, by decide⟩

/-- C5, amended: let a pool be built from a fresh one by `AddInstance` calls and
let a `CPP_CustomInits` be constructed with the same cohort shape, over an
offset table that gives cohort `k` the offsets of bucket `k` in bucket order.
Then running `InitializeCohort` for the cohorts `0 .. MaxCohort()` in
increasing order returns, the offsets it hands to `Generate` are exactly
`0 .. Size() - 1`, each once, and the storage array has `Size()` slots before
and after. What a slot holds afterwards depends on the `Generate` of its
initializer: the slot of a `CPP_CallExprInit` holds the expression that
initializer stores, the slot of an initializer with the empty `Generate` of
the base class holds what the constructor left there. -/
theorem C5_generate_once_slot_filled_by_override (tag ty : String)
    (gs gs' : List CPP_GlobalInfo) (p : CPP_GlobalsInfo)
    (hreg : (CPP_GlobalsInfo.new tag ty).AddInstances gs = some (p, gs'))
    (vec0 : List (Option V)) (os : Int) (inits : List (List (CPP_Init V)))
    (im : InitsManager V)
    (hshape : inits.map List.length = p.instances.map List.length)
    (htable : ∀ k : Nat, k < p.instances.length →
      cohortOffsets im os k = some (((p.instances[k]?).getD []).map CPP_GlobalInfo.Offset)) :
    ∃ calls v,
      (CPP_CustomInits.new vec0 os inits).InitializeCohorts im (p.MaxCohort + 1).toNat
        = some calls ∧
      (generateOffsets calls).Perm ((List.range p.Size.toNat).map (fun (i : Nat) => (i : Int))) ∧
      (generateOffsets calls).Nodup ∧
      (calls.filter (fun x => !x.isPreInit)).map InitCall.init = inits.flatten ∧
      (CPP_CustomInits.new vec0 os inits).inits_vec.length = p.Size.toNat ∧
      (CPP_CustomInits.new vec0 os inits).InitializeCohortsArray im (p.MaxCohort + 1).toNat
        = some v ∧
      v.length = p.Size.toNat ∧
      (∀ e o, InitCall.Generate (CPP_Init.CPP_CallExprInit e) o ∈ calls →
        vecAt v o = some (some e)) ∧
      (∀ o, InitCall.Generate CPP_Init.base o ∈ calls →
        vecAt v o = vecAt (CPP_CustomInits.new vec0 os inits).inits_vec o) := by
  obtain ⟨calls, hrun, hperm, hnd, hlen⟩ :=
    InitializeCohorts_generate_offsets tag ty gs gs' p hreg vec0 os inits im hshape htable
  obtain ⟨hlenT, htab, hsz⟩ := compile_table_facts p vec0 os inits im hshape htable
  have hlenI : inits.length = p.instances.length := by
    have := congrArg List.length hshape
    simpa using this
  have hmc : (p.MaxCohort + 1).toNat = (CPP_CustomInits.new vec0 os inits).inits.length := by
    simp only [CPP_GlobalsInfo.MaxCohort, CPP_CustomInits.new, hlenI]
    omega
  have hrun2 := InitializeCohorts_eq (CPP_CustomInits.new vec0 os inits) im _ hlenT htab hsz
  rw [← hmc, hrun] at hrun2
  have hcalls := Option.some.inj hrun2
  have hpreAll := callsOf_all InitCall.PreInit (fun x => x.isPreInit = true) (fun _ _ => rfl)
    (CPP_CustomInits.new vec0 os inits).inits
    (p.instances.map (fun b => b.map CPP_GlobalInfo.Offset))
  have hgenAll := callsOf_all InitCall.Generate (fun x => x.isPreInit = false)
    (fun _ _ => rfl) (CPP_CustomInits.new vec0 os inits).inits
    (p.instances.map (fun b => b.map CPP_GlobalInfo.Offset))
  have hgo : generateOffsets calls =
      (callsOf InitCall.Generate (CPP_CustomInits.new vec0 os inits).inits
        (p.instances.map (fun b => b.map CPP_GlobalInfo.Offset))).map InitCall.offset := by
    rw [hcalls, generateOffsets_append, generateOffsets_callsOf_PreInit, List.nil_append,
      map_offset_of_generates _ hgenAll]
  have hbounds : ∀ x ∈ callsOf InitCall.Generate (CPP_CustomInits.new vec0 os inits).inits
      (p.instances.map (fun b => b.map CPP_GlobalInfo.Offset)),
      0 ≤ x.offset ∧
        x.offset < ((CPP_CustomInits.new vec0 os inits).inits_vec.length : Int) := by
    intro x hx
    have hm : x.offset ∈ generateOffsets calls := by
      rw [hgo]
      exact List.mem_map_of_mem InitCall.offset hx
    have hm2 := (List.Perm.mem_iff hperm).mp hm
    obtain ⟨i, hi, e⟩ := List.mem_map.mp hm2
    have := List.mem_range.mp hi
    rw [hlen]
    omega
  obtain ⟨v, hv, hl, hce, hb, _⟩ := runCalls_generates _
    (CPP_CustomInits.new vec0 os inits).inits_vec (by rw [← hgo]; exact hnd) hbounds hgenAll
  have hmemGen : ∀ (init : CPP_Init V) (o : Int), InitCall.Generate init o ∈ calls →
      InitCall.Generate init o ∈ callsOf InitCall.Generate
        (CPP_CustomInits.new vec0 os inits).inits
        (p.instances.map (fun b => b.map CPP_GlobalInfo.Offset)) := by
    intro init o hmem
    rw [hcalls] at hmem
    rcases List.mem_append.mp hmem with h1 | h1
    · have := hpreAll _ h1
      simp [InitCall.isPreInit] at this
    · exact h1
  refine ⟨calls, v, hrun, hperm, hnd, ?_, hlen, ?_, by rw [hl, hlen],
    fun e o hmem => hce e o (hmemGen _ o hmem), fun o hmem => hb o (hmemGen _ o hmem)⟩
  · rw [hcalls, List.filter_append]
    have h1 : (callsOf InitCall.PreInit (CPP_CustomInits.new vec0 os inits).inits
        (p.instances.map (fun b => b.map CPP_GlobalInfo.Offset))).filter
        (fun x => !x.isPreInit) = [] := by
      rw [List.filter_eq_nil_iff]
      intro x hx
      simp [hpreAll x hx]
    have h2 : (callsOf InitCall.Generate (CPP_CustomInits.new vec0 os inits).inits
        (p.instances.map (fun b => b.map CPP_GlobalInfo.Offset))).filter
        (fun x => !x.isPreInit) = callsOf InitCall.Generate
          (CPP_CustomInits.new vec0 os inits).inits
          (p.instances.map (fun b => b.map CPP_GlobalInfo.Offset)) := by
      rw [List.filter_eq_self]
      intro x hx
      simp [hgenAll x hx]
    rw [h1, h2, List.nil_append]
    exact map_init_callsOf InitCall.Generate (fun _ _ => rfl) _ _ hlenT hsz
  · unfold CPP_CustomInits.InitializeCohortsArray
    rw [hrun]
    simp only
    rw [hcalls, runCalls_append, runCalls_PreInits _ _ hpreAll]
    exact hv

/-- C5, amended, at a concrete input: the pool `exTypePool3` and the initializers
of `exCallPool` over the offset tables of `exIm`. -/
theorem C5_generate_once_slot_filled_by_override_witness :
    ((CPP_GlobalsInfo.new "Type" "Type").AddInstances
        [exBaseType 0, exBaseType 1, exBaseType 0] =
        some (exTypePool3, registered "Type" 0 [exBaseType 0, exBaseType 1, exBaseType 0]) ∧
      [[CPP_Init.CPP_CallExprInit "f", CPP_Init.base], [CPP_Init.CPP_CallExprInit "g"]].map
          List.length = exTypePool3.instances.map List.length ∧
      (∀ k : Nat, k < exTypePool3.instances.length →
        cohortOffsets exIm 0 k =
          some (((exTypePool3.instances[k]?).getD []).map CPP_GlobalInfo.Offset))) ∧
    ∃ calls v,
      (CPP_CustomInits.new ([] : List (Option String)) 0
        [[CPP_Init.CPP_CallExprInit "f", CPP_Init.base],
         [CPP_Init.CPP_CallExprInit "g"]]).InitializeCohorts exIm
          (exTypePool3.MaxCohort + 1).toNat = some calls ∧
      (generateOffsets calls).Perm
        ((List.range exTypePool3.Size.toNat).map (fun (i : Nat) => (i : Int))) ∧
      (generateOffsets calls).Nodup ∧
      (calls.filter (fun x => !x.isPreInit)).map InitCall.init =
        [[CPP_Init.CPP_CallExprInit "f", CPP_Init.base],
         [CPP_Init.CPP_CallExprInit "g"]].flatten ∧
      (CPP_CustomInits.new ([] : List (Option String)) 0
        [[CPP_Init.CPP_CallExprInit "f", CPP_Init.base],
         [CPP_Init.CPP_CallExprInit "g"]]).inits_vec.length = exTypePool3.Size.toNat ∧
      (CPP_CustomInits.new ([] : List (Option String)) 0
        [[CPP_Init.CPP_CallExprInit "f", CPP_Init.base],
         [CPP_Init.CPP_CallExprInit "g"]]).InitializeCohortsArray exIm
          (exTypePool3.MaxCohort + 1).toNat = some v ∧
      v.length = exTypePool3.Size.toNat ∧
      (∀ e o, InitCall.Generate (CPP_Init.CPP_CallExprInit e) o ∈ calls →
        vecAt v o = some (some e)) ∧
      (∀ o, InitCall.Generate CPP_Init.base o ∈ calls →
        vecAt v o = vecAt (CPP_CustomInits.new ([] : List (Option String)) 0
          [[CPP_Init.CPP_CallExprInit "f", CPP_Init.base],
           [CPP_Init.CPP_CallExprInit "g"]]).inits_vec o) :=
  ⟨⟨by decide, by decide, by decide⟩,
    C5_generate_once_slot_filled_by_override "Type" "Type"
      [exBaseType 0, exBaseType 1, exBaseType 0]
      (registered "Type" 0 [exBaseType 0, exBaseType 1, exBaseType 0]) exTypePool3
      (by decide) [] 0
      [[CPP_Init.CPP_CallExprInit "f", CPP_Init.base], [CPP_Init.CPP_CallExprInit "g"]]
      exIm (by decide) (by decide)⟩

/-- C6: for one pool of run-time initializers whose offset table serves every
cohort, running `InitializeCohort` for the cohorts `0 .. max` in increasing
order makes first the `PreInit` calls, one for each initializer of each
cohort in order with the offset the table gives it, and after them only
`Generate` calls; and `InitializeCohort` with a cohort other than 0 makes no
`PreInit` call. -/
theorem C6_preinits_once_then_generates (c : CPP_CustomInits V I) (im : InitsManager V) :
    ((∀ k : Nat, k < c.inits.length →
        (cohortOffsets im c.offsets_set k).isSome = true ∧
        ((c.inits[k]?).getD []).length ≤
          ((cohortOffsets im c.offsets_set k).getD []).length) →
      ∃ pre gen, c.InitializeCohorts im c.inits.length = some (pre ++ gen) ∧
        pre = callsOf InitCall.PreInit c.inits (tableOf im c.offsets_set c.inits.length) ∧
        pre.map InitCall.init = c.inits.flatten ∧
        (∀ x ∈ pre, x.isPreInit = true) ∧
        (∀ x ∈ gen, x.isPreInit = false)) ∧
    (∀ (cohort : Int) (calls : List (InitCall I)), cohort ≠ 0 →
      c.InitializeCohort im cohort = some calls → ∀ x ∈ calls, x.isPreInit = false) := by
  constructor
  · intro hwf
    obtain ⟨hlen, htab, hsz⟩ := tableOf_facts im c hwf
    refine ⟨_, _, InitializeCohorts_eq c im _ hlen htab hsz, rfl, ?_, ?_, ?_⟩
    · exact map_init_callsOf InitCall.PreInit (fun _ _ => rfl) _ _ hlen hsz
    · exact callsOf_all InitCall.PreInit (fun x => x.isPreInit = true) (fun _ _ => rfl) _ _
    · exact callsOf_all InitCall.Generate (fun x => x.isPreInit = false) (fun _ _ => rfl) _ _
  · intro cohort calls hc h
    exact InitializeCohort_no_PreInit c im cohort hc calls h

/-- C6 at a concrete input: the two-cohort pool `exPoolA` over `exIm`. -/
theorem C6_preinits_once_then_generates_witness :
    (∀ k : Nat, k < exPoolA.inits.length →
      (cohortOffsets exIm exPoolA.offsets_set k).isSome = true ∧
      ((exPoolA.inits[k]?).getD []).length ≤
        ((cohortOffsets exIm exPoolA.offsets_set k).getD []).length) ∧
    (∃ pre gen, exPoolA.InitializeCohorts exIm exPoolA.inits.length = some (pre ++ gen) ∧
      pre = callsOf InitCall.PreInit exPoolA.inits
        (tableOf exIm exPoolA.offsets_set exPoolA.inits.length) ∧
      pre.map InitCall.init = exPoolA.inits.flatten ∧
      (∀ x ∈ pre, x.isPreInit = true) ∧
      (∀ x ∈ gen, x.isPreInit = false)) ∧
    (∀ (cohort : Int) (calls : List (InitCall String)), cohort ≠ 0 →
      exPoolA.InitializeCohort exIm cohort = some calls → ∀ x ∈ calls, x.isPreInit = false) :=
  ⟨by decide, (C6_preinits_once_then_generates exPoolA exIm).1 (by decide),
    (C6_preinits_once_then_generates exPoolA exIm).2⟩

/-- C7, as stated, fails: running `InitializeCohort(im, 0)` on `exPoolA` and
then on `exPoolB` calls `PreInit` on the initializer of the second pool after
the `Generate` calls of cohort 0 of the first pool. -/
theorem C7_counterexample :
    InitializePools [exPoolA, exPoolB] exIm 0 =
      some [InitCall.PreInit "a" 0, InitCall.PreInit "c" 2, InitCall.PreInit "b" 1,
            InitCall.Generate "a" 0, InitCall.Generate "c" 2,
            InitCall.PreInit "d" 0, InitCall.Generate "d" 0] ∧
    ¬ PreInitsFirst [InitCall.PreInit "a" 0, InitCall.PreInit "c" 2, InitCall.PreInit "b" 1,
            InitCall.Generate "a" 0, InitCall.Generate "c" 2,
            InitCall.PreInit "d" 0, InitCall.Generate "d" 0] := by
  refine ⟨by decide, ?_⟩
  intro h
  exact h 4 5 (by decide) (by decide) (by decide)

/-- C7, amended: pre-initialization is per pool. Running `InitializeCohort(im,
0)` on each pool of a list in order makes, pool after pool, all the `PreInit`
calls of that pool followed by the `Generate` calls of its cohort 0; a pass
with a cohort other than 0 makes no `PreInit` call on any pool. -/
theorem C7_preinit_is_per_pool (pools : List (CPP_CustomInits V I)) (im : InitsManager V) :
    ((∀ c ∈ pools, c.inits ≠ [] ∧ ∀ k : Nat, k < c.inits.length →
        (cohortOffsets im c.offsets_set k).isSome = true ∧
        ((c.inits[k]?).getD []).length ≤
          ((cohortOffsets im c.offsets_set k).getD []).length) →
      InitializePools pools im 0 =
        some ((pools.map (fun c =>
          callsOf InitCall.PreInit c.inits (tableOf im c.offsets_set c.inits.length) ++
          List.zipWith InitCall.Generate ((c.inits[0]?).getD [])
            (((tableOf im c.offsets_set c.inits.length)[0]?).getD []))).flatten)) ∧
    (∀ (cohort : Int) (calls : List (InitCall I)), cohort ≠ 0 →
      InitializePools pools im cohort = some calls → ∀ x ∈ calls, x.isPreInit = false) := by
  constructor
  · intro hwf
    unfold InitializePools
    rw [forEach_eq_some _ (fun c =>
      callsOf InitCall.PreInit c.inits (tableOf im c.offsets_set c.inits.length) ++
      List.zipWith InitCall.Generate ((c.inits[0]?).getD [])
        (((tableOf im c.offsets_set c.inits.length)[0]?).getD []))]
    · rfl
    · intro c hc
      obtain ⟨hne, hk⟩ := hwf c hc
      obtain ⟨hlen, htab, hsz⟩ := tableOf_facts im c hk
      have := InitializeCohort_eq c im _ hlen htab hsz 0 (List.length_pos.mpr hne)
      simpa using this
  · intro cohort calls hc h
    unfold InitializePools at h
    cases h1 : forEach (fun c => c.InitializeCohort im cohort) pools with
    | none => simp [h1] at h
    | some traces =>
      simp only [h1, Option.map_some', Option.some.injEq] at h
      subst h
      intro x hx
      obtain ⟨t, ht, hxt⟩ := List.mem_flatten.mp hx
      have hall := forEach_all (fun c : CPP_CustomInits V I => c.InitializeCohort im cohort)
        (fun t => ∀ x ∈ t, x.isPreInit = false)
        (fun c t hct => InitializeCohort_no_PreInit c im cohort hc t hct) pools traces h1
      exact hall t ht x hxt

/-- C7, amended, at a concrete input: the pools `exPoolA` and `exPoolB`. -/
theorem C7_preinit_is_per_pool_witness :
    (∀ c ∈ [exPoolA, exPoolB], c.inits ≠ [] ∧ ∀ k : Nat, k < c.inits.length →
      (cohortOffsets exIm c.offsets_set k).isSome = true ∧
      ((c.inits[k]?).getD []).length ≤
        ((cohortOffsets exIm c.offsets_set k).getD []).length) ∧
    InitializePools [exPoolA, exPoolB] exIm 0 =
      some (([exPoolA, exPoolB].map (fun c =>
        callsOf InitCall.PreInit c.inits (tableOf exIm c.offsets_set c.inits.length) ++
        List.zipWith InitCall.Generate ((c.inits[0]?).getD [])
          (((tableOf exIm c.offsets_set c.inits.length)[0]?).getD []))).flatten) ∧
    (∀ (cohort : Int) (calls : List (InitCall String)), cohort ≠ 0 →
      InitializePools [exPoolA, exPoolB] exIm cohort = some calls →
      ∀ x ∈ calls, x.isPreInit = false) :=
  ⟨by decide, (C7_preinit_is_per_pool [exPoolA, exPoolB] exIm).1 (by decide),
    (C7_preinit_is_per_pool [exPoolA, exPoolB] exIm).2⟩

/-- C8: when the kind tag `tag` is mapped to a `CPP_InitAccessor` over the
array `A` and `i` is an index within `A`, `Consts(tag, i)` returns `A[i]`;
and when `cv` is the pair stored at `const_vals[o]`, `ConstVals(o)` is
`Consts(cv.tag, cv.offset)`. -/
theorem C8_consts_returns_array_slot (im : InitsManager V) (tag : TypeTag)
    (A : List (Option V)) (i : Int) (o : Int) (cv : CPP_ValElem) :
    (im.consts tag = some (CPP_AbstractInitAccessor.CPP_InitAccessor A) →
      0 ≤ i → i < (A.length : Int) →
      ∃ v, A[i.toNat]? = some v ∧ im.Consts tag i = some v) ∧
    (vecAt im.const_vals o = some cv → im.ConstVals o = im.Consts cv.tag cv.offset) := by
  constructor
  · intro htag hi0 hi
    have hlt : i.toNat < A.length := by omega
    refine ⟨A[i.toNat], List.getElem?_eq_getElem hlt, ?_⟩
    simp only [InitsManager.Consts, htag, CPP_AbstractInitAccessor.Get]
    rw [vecAt_of_nonneg _ _ hi0, List.getElem?_eq_getElem hlt]
  · intro ho
    simp only [InitsManager.ConstVals, ho]

/-- C8 at a concrete input: kind tag 7 of `exIm`, index 0, and the
cross-reference stored at `const_vals[1]`. -/
theorem C8_consts_returns_array_slot_witness :
    (exIm.consts 7 = some (CPP_AbstractInitAccessor.CPP_InitAccessor [some "x", none]) ∧
      (0 : Int) ≤ 0 ∧ (0 : Int) < (([some "x", none] : List (Option String)).length : Int) ∧
      vecAt exIm.const_vals 1 = some ⟨7, 1⟩) ∧
    (∃ v, ([some "x", none] : List (Option String))[(0 : Int).toNat]? = some v ∧
      exIm.Consts 7 0 = some v) ∧
    exIm.ConstVals 1 = exIm.Consts 7 1 :=
  ⟨⟨rfl, by decide, by decide, by decide⟩,
    (C8_consts_returns_array_slot exIm 7 [some "x", none] 0 1 ⟨7, 1⟩).1 rfl (by decide)
      (by decide),
    (C8_consts_returns_array_slot exIm 7 [some "x", none] 0 1 ⟨7, 1⟩).2 (by decide)⟩

/-- C9, as stated, fails: on the storage array as the constructor of
`CPP_CustomInits` leaves it, slot 0 is not populated, and `Consts` returns
its content, the null pointer, to the caller. -/
theorem C9_counterexample :
    exIm.consts 8 = some (CPP_AbstractInitAccessor.CPP_InitAccessor exFreshArray) ∧
    vecAt exFreshArray 0 = some none ∧
    exIm.Consts 8 0 = some none ∧
    exIm.Consts 8 0 ≠ none := by
  refine ⟨rfl, by decide, by decide, by decide⟩

/-- C9, amended: `Consts` and `ConstVals` make no check on the slot they read.
When the slot a cross-reference points to is within the array and not yet
populated, they return the null pointer it holds. -/
theorem C9_unpopulated_slot_is_returned (im : InitsManager V) (tag : TypeTag)
    (A : List (Option V)) (i : Int) (o : Int)
    (htag : im.consts tag = some (CPP_AbstractInitAccessor.CPP_InitAccessor A))
    (hslot : vecAt A i = some none) :
    im.Consts tag i = some none ∧
    (vecAt im.const_vals o = some ⟨tag, i⟩ → im.ConstVals o = some none) := by
  have h1 : im.Consts tag i = some none := by
    simp only [InitsManager.Consts, htag, CPP_AbstractInitAccessor.Get, hslot]
  refine ⟨h1, ?_⟩
  intro ho
  simp only [InitsManager.ConstVals, ho, h1]

/-- C9, amended, at a concrete input: slot 1 of kind tag 7 of `exIm`. -/
theorem C9_unpopulated_slot_is_returned_witness :
    (exIm.consts 7 = some (CPP_AbstractInitAccessor.CPP_InitAccessor [some "x", none]) ∧
      vecAt ([some "x", none] : List (Option String)) 1 = some none ∧
      vecAt exIm.const_vals 1 = some ⟨7, 1⟩) ∧
    exIm.Consts 7 1 = some none ∧ exIm.ConstVals 1 = some none :=
  ⟨⟨rfl, by decide, by decide⟩,
    (C9_unpopulated_slot_is_returned exIm 7 [some "x", none] 1 1 rfl (by decide)).1,
    (C9_unpopulated_slot_is_returned exIm 7 [some "x", none] 1 1 rfl (by decide)).2
      (by decide)⟩

/-- C10, as stated, fails: the vector type `exVec` over the registered base
type `exT1` declares cohort 0, which does not exceed the cohort 0 of `exT1`;
`AddInstance` registers it all the same and `GenerateInitializers` emits its
initializer. -/
theorem C10_counterexample :
    exTypePool.AddInstance (exBaseType 0) = some (exTypePool1, exT1) ∧
    exVec = VectorTypeInfo 0 exT1 ∧
    ¬ (exT1.InitCohort < exVec.InitCohort) ∧
    exTypePool1.AddInstance exVec =
      some ({ exTypePool1 with size := 2,
                               instances := [[exT1, exVec.SetOffset "Type" 1]] },
            exVec.SetOffset "Type" 1) ∧
    ({ exTypePool1 with size := 2,
                        instances := [[exT1, exVec.SetOffset "Type" 1]] }
      : CPP_GlobalsInfo).GenerateInitializers "inits" =
      some [EmitCall.NL,
            EmitCall.Emit
              "CPP_Globals<TypeValPtr> inits = CPP_Globals<TypeValPtr>(CPP__Typeconst__, ",
            EmitCall.IndentUp,
            EmitCall.Emit "\x7b",
            EmitCall.Emit "\x7b",
            EmitCall.Emit "CPP_BaseType(TYPE_COUNT),",
            EmitCall.Emit "CPP_VectorType(0),",
            EmitCall.Emit "\x7d,",
            EmitCall.Emit "\x7d",
            EmitCall.IndentDown,
            EmitCall.Emit ");"] := by
  refine ⟨by decide, rfl, by decide, by decide, by decide⟩

/-- C10, amended: no cohort check is made at compile time. `AddInstance`
accepts every descriptor with a non-negative cohort, whatever the cohorts of
the descriptors it depends on, and `GenerateInitializers` then returns and
emits the initializer of every registered descriptor. -/
theorem C10_no_cohort_check_at_compile_time (tag ty name : String) (gs : List CPP_GlobalInfo)
    (h : ∀ g ∈ gs, 0 ≤ g.InitCohort) :
    ∃ p gs' out, (CPP_GlobalsInfo.new tag ty).AddInstances gs = some (p, gs') ∧
      gs'.length = gs.length ∧
      p.GenerateInitializers name = some out ∧
      ∀ g ∈ gs', ∃ s, g.Initializer = some s ∧ EmitCall.Emit (s ++ ",") ∈ out := by
  obtain ⟨p, h1, _, _, hi⟩ := fresh_AddInstances tag ty gs h
  have hinit : ∀ g ∈ registered tag 0 gs, ∃ str, g.Initializer = some str := by
    intro g hg
    obtain ⟨g0, t, e⟩ := mem_registered tag gs 0 g hg
    rw [e]
    exact Initializer_SetOffset g0 tag t
  have hb : ∀ b ∈ p.instances, ∀ g ∈ b, ∃ str, g.Initializer = some str := by
    intro b hb g hg
    rw [hi] at hb
    exact hinit g (mem_ofCohort_range _ _ b hb g hg)
  refine ⟨p, registered tag 0 gs, _, h1, length_registered tag gs 0,
    GenerateInitializers_eq p name hb, ?_⟩
  intro g hg
  obtain ⟨s, hs⟩ := hinit g hg
  refine ⟨s, hs, ?_⟩
  obtain ⟨hc0, hcL⟩ := cohort_bounds_registered tag gs h g hg
  have hk : g.init_cohort.toNat < cohortCount gs := by omega
  have hgb : g ∈ ofCohort g.init_cohort.toNat (registered tag 0 gs) := by
    rw [ofCohort, List.mem_filter]
    refine ⟨hg, ?_⟩
    simp only [decide_eq_true_eq]
    omega
  have hbm : ofCohort g.init_cohort.toNat (registered tag 0 gs) ∈ p.instances := by
    rw [hi]
    exact List.mem_map.mpr ⟨_, List.mem_range.mpr hk, rfl⟩
  apply List.mem_append_left
  apply List.mem_append_right
  apply List.mem_flatten.mpr
  refine ⟨_, List.mem_map.mpr ⟨_, hbm, rfl⟩, ?_⟩
  apply List.mem_append_left
  apply List.mem_append_right
  refine List.mem_map.mpr ⟨g, hgb, ?_⟩
  simp [hs]

/-- C10, amended, at a concrete input: the base type of cohort 0 followed by
the vector type over it, also of cohort 0. -/
theorem C10_no_cohort_check_at_compile_time_witness :
    (∀ g ∈ [exBaseType 0, exVec], 0 ≤ g.InitCohort) ∧
    ∃ p gs' out, (CPP_GlobalsInfo.new "Type" "Type").AddInstances [exBaseType 0, exVec]
        = some (p, gs') ∧
      gs'.length = [exBaseType 0, exVec].length ∧
      p.GenerateInitializers "inits" = some out ∧
      ∀ g ∈ gs', ∃ s, g.Initializer = some s ∧ EmitCall.Emit (s ++ ",") ∈ out :=
  ⟨by decide, C10_no_cohort_check_at_compile_time "Type" "Type" "inits" [exBaseType 0, exVec]
    (by decide)⟩

/-- C11: with the base-class part of the constructors leaving the cohort at
`defaultInitCohort`, every descriptor built without dependencies has cohort
0: string, pattern and description-based constants, an `AttrInfo` whose
attribute has no expression, an `AttrsInfo` over an empty attribute list and
a `ListTypeInfo` over an empty type list. Registering the string constants
`"a"` and `"ab"` into a fresh pool gives them offsets 0 and 1, puts both
into bucket 0, the only bucket, and leaves `MaxCohort() = 0`. -/
theorem C11_no_dependencies_cohort_zero (esc : String → Int → String) (escp : String → String)
    (b orig description attr_tag tag ty : String) (ci : Bool) :
    (StringConstantInfo defaultInitCohort esc b).InitCohort = 0 ∧
    (PatternConstantInfo defaultInitCohort escp orig ci).InitCohort = 0 ∧
    (DescConstantInfo defaultInitCohort description).InitCohort = 0 ∧
    (AttrInfo defaultInitCohort attr_tag none).map CPP_GlobalInfo.InitCohort = some 0 ∧
    (AttrsInfo defaultInitCohort []).InitCohort = 0 ∧
    (ListTypeInfo defaultInitCohort []).InitCohort = 0 ∧
    ∃ p g0 g1, (CPP_GlobalsInfo.new tag ty).AddInstances
        [StringConstantInfo defaultInitCohort esc "a",
         StringConstantInfo defaultInitCohort esc "ab"] = some (p, [g0, g1]) ∧
      g0.Offset = 0 ∧ g1.Offset = 1 ∧
      g0.InitCohort = 0 ∧ g1.InitCohort = 0 ∧
      p.instances = [[g0, g1]] ∧
      p.MaxCohort = 0 := by
  refine ⟨rfl, rfl, rfl, rfl, rfl, rfl, ?_⟩
  exact ⟨_, _, _, rfl, rfl, rfl, rfl, rfl, rfl, rfl⟩

/-- C12: an `AttrsInfo` built, from the default cohort, over a non-empty list of
registered attribute descriptors has cohort 1 + the maximum of their cohorts;
an `AttrInfo` whose attribute has an expression is constructed unless its
`ASSERT` fails and has a cohort of at least 1 + the cohort of the registered
type of the expression. -/
theorem C12_attribute_cohorts (c0 : Int) (tag : String) (e : AttrExpr)
    (gis : List CPP_GlobalInfo) :
    (gis ≠ [] → (∀ g ∈ gis, 0 ≤ g.InitCohort) →
      (∀ g ∈ gis, 1 + g.InitCohort ≤ (AttrsInfo defaultInitCohort gis).InitCohort) ∧
      ∃ g ∈ gis, (AttrsInfo defaultInitCohort gis).InitCohort = 1 + g.InitCohort) ∧
    (¬ (e.is_simple_init = true ∧ e.tag = ExprTag.other) →
      ∃ g, AttrInfo c0 tag (some e) = some g ∧ 1 + e.gi.InitCohort ≤ g.InitCohort) := by
  constructor
  · intro hne hreg
    obtain ⟨h1, h2, h3⟩ := foldl_max_bounds (fun g => g.InitCohort + 1) gis defaultInitCohort
    rw [← AttrsInfo_cohort] at h1 h2 h3
    refine ⟨fun g hg => by have := h2 g hg; omega, ?_⟩
    rcases h3 with h3 | ⟨g, hg, h3⟩
    · obtain ⟨g, hg⟩ := List.exists_mem_of_ne_nil gis hne
      have := h2 g hg
      have := hreg g hg
      have hd : defaultInitCohort = 0 := rfl
      omega
    · exact ⟨g, hg, by rw [h3]; ring⟩
  · intro ha
    obtain ⟨g, hg, hc⟩ := AttrInfo_some c0 tag e ha
    refine ⟨g, hg, ?_⟩
    rw [hc]
    have := le_max_right c0 (e.gi.InitCohort + 1)
    omega

/-- C12 at a concrete input: the attribute list `exAttrs` (cohorts 0 and 2) and
the attribute expression `exAttrExpr`. -/
theorem C12_attribute_cohorts_witness :
    (exAttrs ≠ [] ∧ (∀ g ∈ exAttrs, 0 ≤ g.InitCohort) ∧
      ¬ (exAttrExpr.is_simple_init = true ∧ exAttrExpr.tag = ExprTag.other)) ∧
    ((∀ g ∈ exAttrs, 1 + g.InitCohort ≤ (AttrsInfo defaultInitCohort exAttrs).InitCohort) ∧
      ∃ g ∈ exAttrs, (AttrsInfo defaultInitCohort exAttrs).InitCohort = 1 + g.InitCohort) ∧
    (∃ g, AttrInfo 0 "ATTR_DEFAULT" (some exAttrExpr) = some g ∧
      1 + exAttrExpr.gi.InitCohort ≤ g.InitCohort) :=
  ⟨⟨by decide, by decide, by decide⟩,
    (C12_attribute_cohorts 0 "ATTR_DEFAULT" exAttrExpr exAttrs).1 (by decide) (by decide),
    (C12_attribute_cohorts 0 "ATTR_DEFAULT" exAttrExpr exAttrs).2 (by decide)⟩

/-- C13: every descriptor built by a constructor of `GlobalInfo.cc` has a cohort
greater than or equal to the cohort of each dependency it cites: the type of
the expression for `AttrInfo`, the attributes for `AttrsInfo`, the component
types for the type descriptors. -/
theorem C13_dependency_cohort_le (c0 yield0 : Int) (flavor : FunctionFlavor) (tag : String)
    (e : AttrExpr) (gi gy : CPP_GlobalInfo) (gis : List CPP_GlobalInfo) :
    (∀ g, AttrInfo c0 tag (some e) = some g → e.gi.InitCohort ≤ g.InitCohort) ∧
    (∀ d ∈ gis, d.InitCohort ≤ (AttrsInfo c0 gis).InitCohort) ∧
    gi.InitCohort ≤ (TypeTypeInfo c0 gi).InitCohort ∧
    gi.InitCohort ≤ (VectorTypeInfo c0 gi).InitCohort ∧
    (∀ d ∈ gis, d.InitCohort ≤ (ListTypeInfo c0 gis).InitCohort) ∧
    (gi.InitCohort ≤ (TableTypeInfo c0 yield0 gi (some gy)).InitCohort ∧
      gy.InitCohort ≤ (TableTypeInfo c0 yield0 gi (some gy)).InitCohort) ∧
    gi.InitCohort ≤ (TableTypeInfo c0 yield0 gi none).InitCohort ∧
    (gi.InitCohort ≤ (FuncTypeInfo c0 yield0 flavor gi (some gy)).InitCohort ∧
      gy.InitCohort ≤ (FuncTypeInfo c0 yield0 flavor gi (some gy)).InitCohort) ∧
    gi.InitCohort ≤ (FuncTypeInfo c0 yield0 flavor gi none).InitCohort := by
  have hL : (ListTypeInfo c0 gis).InitCohort =
      gis.foldl (fun m g => max m g.InitCohort) c0 := by
    simp only [ListTypeInfo, CPP_GlobalInfo.InitCohort, CPP_GlobalInfo.pooled]
    exact foldl_max_cohort (fun g => g.init_cohort) gis c0 []
  refine ⟨?_, ?_, le_refl _, le_refl _, ?_, ⟨le_max_left _ _, le_max_right _ _⟩, le_refl _,
    ⟨le_max_left _ _, le_max_right _ _⟩, le_refl _⟩
  · intro g hg
    rw [AttrInfo_cohort_of_some c0 tag e g hg]
    have := le_max_right c0 (e.gi.InitCohort + 1)
    omega
  · intro d hd
    rw [AttrsInfo_cohort]
    have := (foldl_max_bounds (fun g => g.InitCohort + 1) gis c0).2.1 d hd
    simp only at this
    omega
  · intro d hd
    rw [hL]
    exact (foldl_max_bounds (fun g => g.InitCohort) gis c0).2.1 d hd

/-- C13 at a concrete input: the attribute expression `exAttrExpr`, the
attributes `exAttrs` and the registered type `exT1`. -/
theorem C13_dependency_cohort_le_witness :
    (∃ g, AttrInfo 0 "ATTR_DEFAULT" (some exAttrExpr) = some g ∧
      exAttrExpr.gi.InitCohort ≤ g.InitCohort) ∧
    (∀ d ∈ exAttrs, d.InitCohort ≤ (AttrsInfo 0 exAttrs).InitCohort) ∧
    (∀ d ∈ [exT1], d.InitCohort ≤ (ListTypeInfo 0 [exT1]).InitCohort) :=
  ⟨⟨{ CPP_GlobalInfo.pooled 0 (InfoData.AttrInfo "ATTR_DEFAULT"
        ("make_intrusive<RecordCoerceExpr>(make_intrusive<RecordConstructorExpr>("
          ++ "make_intrusive<ListExpr>()), cast_intrusive<RecordType>("
          ++ (exT1.Name ++ "))"))) with init_cohort := 1 }, rfl,
      (C13_dependency_cohort_le 0 0 FunctionFlavor.other "ATTR_DEFAULT" exAttrExpr exT1 exT1
        exAttrs).1 _ rfl⟩,
    (C13_dependency_cohort_le 0 0 FunctionFlavor.other "ATTR_DEFAULT" exAttrExpr exT1 exT1
      exAttrs).2.1,
    (C13_dependency_cohort_le 0 0 FunctionFlavor.other "ATTR_DEFAULT" exAttrExpr exT1 exT1
      [exT1]).2.2.2.2.1⟩

/-- C14: the constructor of `CPP_CustomInits` sets the length of the storage
array to the number of initializers summed over the cohorts, the constructor
of `CPP_AbstractBasicConsts` sets it to the number of initial values, and an
`InitializeCohort` call (of `CPP_CustomInits` over the initializer classes
`CPP_Init`, of `CPP_BasicConsts`, `CPP_AddrConsts` or `CPP_SubNetConsts`)
that returns leaves the array with the length it had. -/
theorem C14_array_length_fixed_at_construction (vec0 : List (Option V)) (os : Int)
    (inits : List (List I)) (vals : List T2)
    (c : CPP_CustomInits V (CPP_Init V)) (b : CPP_AbstractBasicConsts V T2)
    (a : CPP_AbstractBasicConsts V Int) (make : T2 → V) (makeS : String → V)
    (im : InitsManager V) (cohort : Int) :
    (CPP_CustomInits.new vec0 os inits).inits_vec.length = (inits.map List.length).sum ∧
    (CPP_AbstractBasicConsts.new vec0 os vals).inits_vec.length = vals.length ∧
    (∀ v', c.InitializeCohortArray im cohort = some v' → v'.length = c.inits_vec.length) ∧
    (∀ v', CPP_AbstractBasicConsts.InitializeCohort (CPP_BasicConsts.InitElem make) b im cohort
      = some v' → v'.length = b.inits_vec.length) ∧
    (∀ v', CPP_AbstractBasicConsts.InitializeCohort (CPP_AddrConsts.InitElem makeS) a im cohort
      = some v' → v'.length = a.inits_vec.length) ∧
    (∀ v', CPP_AbstractBasicConsts.InitializeCohort (CPP_SubNetConsts.InitElem makeS) a im
      cohort = some v' → v'.length = a.inits_vec.length) := by
  refine ⟨length_new_inits_vec vec0 os inits, ?_, ?_, ?_, ?_, ?_⟩
  · simp only [CPP_AbstractBasicConsts.new, length_vresize]
  · intro v' h
    unfold CPP_CustomInits.InitializeCohortArray at h
    cases hc : c.InitializeCohort im cohort with
    | none => simp [hc] at h
    | some calls =>
      simp only [hc] at h
      exact runCalls_length calls _ _ h
  · intro v' h
    exact BasicConsts_InitializeCohort_length _
      (fun inits im v o i v' h => BasicConsts_InitElem_length make inits im v o i v' h)
      b im cohort v' h
  · intro v' h
    exact BasicConsts_InitializeCohort_length _
      (fun inits im v o i v' h => AddrConsts_InitElem_length makeS inits im v o i v' h)
      a im cohort v' h
  · intro v' h
    exact BasicConsts_InitializeCohort_length _
      (fun inits im v o i v' h => SubNetConsts_InitElem_length makeS inits im v o i v' h)
      a im cohort v' h

/-- C14 at a concrete input: cohort 0 of the call-expression pool `exCallPool`,
of the constants `exConsts` and of the address constants `exAddrs`. -/
theorem C14_array_length_fixed_at_construction_witness :
    (exCallPool.InitializeCohortArray exIm 0 = some [some "f", none, none] ∧
      CPP_AbstractBasicConsts.InitializeCohort
        (CPP_BasicConsts.InitElem (fun n : Nat => toString n)) exConsts exImConsts 0 =
        some [some "20", some "30", some "10"] ∧
      CPP_AbstractBasicConsts.InitializeCohort
        (CPP_AddrConsts.InitElem (fun s : String => s)) exAddrs exImConsts 0 =
        some [some "1.2.3.4"] ∧
      CPP_AbstractBasicConsts.InitializeCohort
        (CPP_SubNetConsts.InitElem (fun s : String => s)) exAddrs exImConsts 0 =
        some [some "1.2.3.4"]) ∧
    ([some "f", none, none] : List (Option String)).length = exCallPool.inits_vec.length ∧
    ([some "20", some "30", some "10"] : List (Option String)).length
      = exConsts.inits_vec.length ∧
    ([some "1.2.3.4"] : List (Option String)).length = exAddrs.inits_vec.length ∧
    ([some "1.2.3.4"] : List (Option String)).length = exAddrs.inits_vec.length :=
  ⟨⟨by decide, by decide, by decide, by decide⟩,
    (C14_array_length_fixed_at_construction ([] : List (Option String)) 0
      ([] : List (List Nat)) ([] : List Nat) exCallPool exConsts exAddrs
      (fun n : Nat => toString n) (fun s : String => s) exIm 0).2.2.1 _ (by decide),
    (C14_array_length_fixed_at_construction ([] : List (Option String)) 0
      ([] : List (List Nat)) ([] : List Nat) exCallPool exConsts exAddrs
      (fun n : Nat => toString n) (fun s : String => s) exImConsts 0).2.2.2.1 _ (by decide),
    (C14_array_length_fixed_at_construction ([] : List (Option String)) 0
      ([] : List (List Nat)) ([] : List Nat) exCallPool exConsts exAddrs
      (fun n : Nat => toString n) (fun s : String => s) exImConsts 0).2.2.2.2.1 _ (by decide),
    (C14_array_length_fixed_at_construction ([] : List (Option String)) 0
      ([] : List (List Nat)) ([] : List Nat) exCallPool exConsts exAddrs
      (fun n : Nat => toString n) (fun s : String => s) exImConsts 0).2.2.2.2.2 _ (by decide)⟩

/-- C15: for a pool built from a fresh one by registering descriptors with
non-negative cohorts, `GenerateInitializers` returns and emits, between its
opening and closing lines, exactly `MaxCohort() + 1` groups; the `k`-th group
is an opening brace, then the `Initializer()` of each registered descriptor
of cohort `k` followed by a comma, in registration order, then the closing
line. The offsets inside a group increase strictly, and the groups together
hold each registered descriptor exactly once. -/
theorem C15_groups_by_cohort_in_registration_order (tag ty name : String)
    (gs : List CPP_GlobalInfo) (h : ∀ g ∈ gs, 0 ≤ g.InitCohort) :
    ∃ (p : CPP_GlobalsInfo) (gs' : List CPP_GlobalInfo) (groups : List (List EmitCall)),
      (CPP_GlobalsInfo.new tag ty).AddInstances gs = some (p, gs') ∧
      p.GenerateInitializers name =
        some ([EmitCall.NL,
               EmitCall.Emit ("CPP_Globals<" ++ p.CPPType ++ "> " ++ name
                 ++ " = CPP_Globals<" ++ p.CPPType ++ ">(" ++ p.base_name ++ ", "),
               EmitCall.IndentUp,
               EmitCall.Emit "\x7b"]
              ++ groups.flatten
              ++ [EmitCall.Emit "\x7d", EmitCall.IndentDown, EmitCall.Emit ");"]) ∧
      (groups.length : Int) = p.MaxCohort + 1 ∧
      (∀ k : Nat, k < groups.length →
        groups[k]? = some ([EmitCall.Emit "\x7b"]
          ++ (ofCohort k gs').map (fun g => EmitCall.Emit ((g.Initializer.getD "") ++ ","))
          ++ [EmitCall.Emit "\x7d,"])) ∧
      (∀ g ∈ gs', ∃ str, g.Initializer = some str) ∧
      (∀ k : Nat, ((ofCohort k gs').map CPP_GlobalInfo.Offset).Pairwise (fun a b => a < b)) ∧
      (((List.range groups.length).map (fun k => ofCohort k gs')).flatten).Perm gs' ∧
      gs'.Nodup := by
  obtain ⟨p, h1, _, _, hi⟩ := fresh_AddInstances tag ty gs h
  have hinit : ∀ g ∈ registered tag 0 gs, ∃ str, g.Initializer = some str := by
    intro g hg
    obtain ⟨g0, t, e⟩ := mem_registered tag gs 0 g hg
    rw [e]
    exact Initializer_SetOffset g0 tag t
  have hb : ∀ b ∈ p.instances, ∀ g ∈ b, ∃ str, g.Initializer = some str := by
    intro b hb g hg
    rw [hi] at hb
    exact hinit g (mem_ofCohort_range _ _ b hb g hg)
  have hlen : p.instances.length = cohortCount gs := by rw [hi]; simp
  refine ⟨p, registered tag 0 gs,
    p.instances.map (fun b =>
      [EmitCall.Emit "\x7b"]
        ++ b.map (fun co => EmitCall.Emit ((co.Initializer.getD "") ++ ","))
        ++ [EmitCall.Emit "\x7d,"]),
    h1, GenerateInitializers_eq p name hb, ?_, ?_, hinit,
    fun k => pairwise_offsets_ofCohort tag gs 0 k, ?_, nodup_registered tag gs 0⟩
  · simp only [List.length_map, CPP_GlobalsInfo.MaxCohort]
    omega
  · intro k hk
    simp only [List.length_map] at hk
    rw [List.getElem?_map, List.getElem?_eq_getElem hk]
    have : p.instances[k] = ofCohort k (registered tag 0 gs) := by
      have h2 : p.instances[k]? = some (ofCohort k (registered tag 0 gs)) := by
        rw [hi, List.getElem?_map, List.getElem?_range (by omega)]
        rfl
      rw [List.getElem?_eq_getElem hk] at h2
      exact Option.some.inj h2
    rw [this]
    rfl
  · simp only [List.length_map, hlen]
    exact perm_buckets (registered tag 0 gs) (cohortCount gs)
      (cohort_bounds_registered tag gs h)

/-- C15 at a concrete input: three descriptors of cohorts 0, 1, 0. -/
theorem C15_groups_by_cohort_in_registration_order_witness :
    (∀ g ∈ [exBaseType 0, exBaseType 1, exBaseType 0], 0 ≤ g.InitCohort) ∧
    ∃ (p : CPP_GlobalsInfo) (gs' : List CPP_GlobalInfo) (groups : List (List EmitCall)),
      (CPP_GlobalsInfo.new "Type" "Type").AddInstances
        [exBaseType 0, exBaseType 1, exBaseType 0] = some (p, gs') ∧
      p.GenerateInitializers "inits" =
        some ([EmitCall.NL,
               EmitCall.Emit ("CPP_Globals<" ++ p.CPPType ++ "> " ++ "inits"
                 ++ " = CPP_Globals<" ++ p.CPPType ++ ">(" ++ p.base_name ++ ", "),
               EmitCall.IndentUp,
               EmitCall.Emit "\x7b"]
              ++ groups.flatten
              ++ [EmitCall.Emit "\x7d", EmitCall.IndentDown, EmitCall.Emit ");"]) ∧
      (groups.length : Int) = p.MaxCohort + 1 ∧
      (∀ k : Nat, k < groups.length →
        groups[k]? = some ([EmitCall.Emit "\x7b"]
          ++ (ofCohort k gs').map (fun g => EmitCall.Emit ((g.Initializer.getD "") ++ ","))
          ++ [EmitCall.Emit "\x7d,"])) ∧
      (∀ g ∈ gs', ∃ str, g.Initializer = some str) ∧
      (∀ k : Nat, ((ofCohort k gs').map CPP_GlobalInfo.Offset).Pairwise (fun a b => a < b)) ∧
      (((List.range groups.length).map (fun k => ofCohort k gs')).flatten).Perm gs' ∧
      gs'.Nodup :=
  ⟨by decide, C15_groups_by_cohort_in_registration_order "Type" "Type" "inits"
    [exBaseType 0, exBaseType 1, exBaseType 0] (by decide)⟩

/-- C16: for a pool of run-time initializers whose offset table serves every
cohort and a cohort `k` within range, `InitializeCohort(im, k)` returns and
makes, after the `PreInit` calls of cohort 0, exactly the calls `Generate` on
the initializers of cohort `k`, one for each and in the order they are
stored, the `i`-th one with offset `Indices(Indices(offsets_set)[k])[i]`. -/
theorem C16_generate_calls_of_cohort (c : CPP_CustomInits V I) (im : InitsManager V)
    (hwf : ∀ k : Nat, k < c.inits.length →
      (cohortOffsets im c.offsets_set k).isSome = true ∧
      ((c.inits[k]?).getD []).length ≤ ((cohortOffsets im c.offsets_set k).getD []).length)
    (k : Nat) (hk : k < c.inits.length) :
    ∃ pre co offs, c.InitializeCohort im (k : Int) =
        some (pre ++ List.zipWith InitCall.Generate co offs) ∧
      (∀ x ∈ pre, x.isPreInit = true) ∧
      (k ≠ 0 → pre = []) ∧
      c.inits[k]? = some co ∧
      cohortOffsets im c.offsets_set k = some offs ∧
      (List.zipWith InitCall.Generate co offs).length = co.length ∧
      (List.zipWith InitCall.Generate co offs).map InitCall.init = co ∧
      (∀ i : Nat, i < co.length → ∃ a o, co[i]? = some a ∧ offs[i]? = some o ∧
        (List.zipWith InitCall.Generate co offs)[i]? = some (InitCall.Generate a o)) := by
  obtain ⟨hlen, htab, hsz⟩ := tableOf_facts im c hwf
  have hrun := InitializeCohort_eq c im _ hlen htab hsz k hk
  obtain ⟨hsome, hle⟩ := hwf k hk
  obtain ⟨offs, hoffs⟩ := Option.isSome_iff_exists.mp hsome
  have htk : ((tableOf im c.offsets_set c.inits.length)[k]?).getD [] = offs := by
    rw [← htab k hk, hoffs]
    rfl
  rw [htk] at hrun
  rw [hoffs] at hle
  simp only [List.getElem?_eq_getElem hk, Option.getD_some] at hrun hle
  refine ⟨_, c.inits[k], offs, hrun, ?_, ?_, List.getElem?_eq_getElem hk, hoffs, ?_, ?_, ?_⟩
  · intro x hx
    by_cases hz : k = 0
    · rw [if_pos hz] at hx
      exact callsOf_all InitCall.PreInit (fun x => x.isPreInit = true) (fun _ _ => rfl) _ _ x hx
    · rw [if_neg hz] at hx
      simp at hx
  · intro hz
    rw [if_neg hz]
  · rw [List.length_zipWith]
    exact Nat.min_eq_left hle
  · exact map_init_zipWith InitCall.Generate (fun _ _ => rfl) _ _ hle
  · intro i hi
    have hi2 : i < offs.length := by omega
    refine ⟨(c.inits[k])[i], offs[i], List.getElem?_eq_getElem hi, List.getElem?_eq_getElem hi2,
      ?_⟩
    simp [List.getElem?_zipWith, List.getElem?_eq_getElem hi, List.getElem?_eq_getElem hi2]

/-- C16 at a concrete input: cohort 1 of the pool `exPoolA` over `exIm`. -/
theorem C16_generate_calls_of_cohort_witness :
    ((∀ k : Nat, k < exPoolA.inits.length →
      (cohortOffsets exIm exPoolA.offsets_set k).isSome = true ∧
      ((exPoolA.inits[k]?).getD []).length ≤
        ((cohortOffsets exIm exPoolA.offsets_set k).getD []).length) ∧
      1 < exPoolA.inits.length) ∧
    ∃ pre co offs, exPoolA.InitializeCohort exIm ((1 : Nat) : Int) =
        some (pre ++ List.zipWith InitCall.Generate co offs) ∧
      (∀ x ∈ pre, x.isPreInit = true) ∧
      (1 ≠ 0 → pre = []) ∧
      exPoolA.inits[1]? = some co ∧
      cohortOffsets exIm exPoolA.offsets_set 1 = some offs ∧
      (List.zipWith InitCall.Generate co offs).length = co.length ∧
      (List.zipWith InitCall.Generate co offs).map InitCall.init = co ∧
      (∀ i : Nat, i < co.length → ∃ a o, co[i]? = some a ∧ offs[i]? = some o ∧
        (List.zipWith InitCall.Generate co offs)[i]? = some (InitCall.Generate a o)) :=
  ⟨⟨by decide, by decide⟩,
    C16_generate_calls_of_cohort exPoolA exIm (by decide) 1 (by decide)⟩

/-- C17: for a pool of primitive constants `CPP_BasicConsts` whose cohort-0
offset list starts with pairwise distinct in-range offsets, one for each
initial value, `InitializeCohort(im, 0)` returns; afterwards the array has
the same length, for every `i` the slot at offset `cohort_offsets[i]` holds
the value made from `inits[i]`, and every slot whose offset is not among
them holds what it held before. For a cohort other than 0 the `ASSERT` of the
method fails. -/
theorem C17_basic_consts_fill_their_slots (make : T2 → V) (c : CPP_AbstractBasicConsts V T2)
    (im : InitsManager V) (offs : List Int) :
    (cohortOffsets im c.offsets_set 0 = some offs →
      c.inits.length ≤ offs.length →
      (offs.take c.inits.length).Nodup →
      (∀ o ∈ offs.take c.inits.length, 0 ≤ o ∧ o < (c.inits_vec.length : Int)) →
      ∃ v, CPP_AbstractBasicConsts.InitializeCohort (CPP_BasicConsts.InitElem make) c im 0
          = some v ∧
        v.length = c.inits_vec.length ∧
        (∀ i : Nat, i < c.inits.length → ∃ o x, offs[i]? = some o ∧ c.inits[i]? = some x ∧
          vecAt v o = some (some (make x))) ∧
        (∀ j : Int, j ∉ offs.take c.inits.length → vecAt v j = vecAt c.inits_vec j)) ∧
    (∀ cohort : Int, cohort ≠ 0 →
      CPP_AbstractBasicConsts.InitializeCohort (CPP_BasicConsts.InitElem make) c im cohort
        = none) := by
  constructor
  · intro htab hlen hnd hin
    obtain ⟨ov, o, hov, ho, hio⟩ := indices_of_table im _ 0 _ htab
    obtain ⟨v, hv, hrest⟩ := basicConsts_loop make c.inits im offs c.inits_vec hlen hnd hin
      c.inits.length (Nat.le_refl _)
    refine ⟨v, ?_, hrest⟩
    unfold CPP_AbstractBasicConsts.InitializeCohort
    rw [if_pos rfl]
    simp only [Nat.cast_zero] at ho
    simp only [hov, ho, hio]
    exact hv
  · intro cohort hc
    unfold CPP_AbstractBasicConsts.InitializeCohort
    rw [if_neg hc]

/-- C17 at a concrete input: the three constants `exConsts` over the offsets
`[2, 0, 1]` of `exImConsts`. -/
theorem C17_basic_consts_fill_their_slots_witness :
    (cohortOffsets exImConsts exConsts.offsets_set 0 = some [2, 0, 1] ∧
      exConsts.inits.length ≤ ([2, 0, 1] : List Int).length ∧
      (([2, 0, 1] : List Int).take exConsts.inits.length).Nodup ∧
      (∀ o ∈ ([2, 0, 1] : List Int).take exConsts.inits.length,
        0 ≤ o ∧ o < (exConsts.inits_vec.length : Int))) ∧
    (∃ v, CPP_AbstractBasicConsts.InitializeCohort
          (CPP_BasicConsts.InitElem (fun n : Nat => toString n)) exConsts exImConsts 0
          = some v ∧
        v.length = exConsts.inits_vec.length ∧
        (∀ i : Nat, i < exConsts.inits.length → ∃ o x, ([2, 0, 1] : List Int)[i]? = some o ∧
          exConsts.inits[i]? = some x ∧
          vecAt v o = some (some ((fun n : Nat => toString n) x))) ∧
        (∀ j : Int, j ∉ ([2, 0, 1] : List Int).take exConsts.inits.length →
          vecAt v j = vecAt exConsts.inits_vec j)) ∧
    CPP_AbstractBasicConsts.InitializeCohort
      (CPP_BasicConsts.InitElem (fun n : Nat => toString n)) exConsts exImConsts 0
      = some [some "20", some "30", some "10"] :=
  ⟨⟨by decide, by decide, by decide, by decide⟩,
    (C17_basic_consts_fill_their_slots (fun n : Nat => toString n) exConsts exImConsts
      [2, 0, 1]).1 (by decide) (by decide) (by decide) (by decide),
    by decide⟩

/-- C18: for a pool whose base name is the one its constructor gives it and a
descriptor `g` with a non-negative cohort, `AddInstance(g)` gives `g` the
offset `Size()` of the pool before the call, and `NextName()` taken before
the call is `g`'s `Name()` after it, namely `"CPP__" + tag + "const__[" + k +
"]"` with `k` that offset; the base name is kept by the call and a fresh
pool has it. A stand-alone descriptor reports its explicit name and has
offset -1. -/
theorem C18_next_name_is_name_of_added (p : CPP_GlobalsInfo) (g : CPP_GlobalInfo)
    (tag ty name type : String) (cohort : Int) (d : InfoData) :
    (p.base_name = "CPP__" ++ p.tag ++ "const__" → 0 ≤ g.InitCohort →
      ∃ p' g', p.AddInstance g = some (p', g') ∧
        g'.Offset = p.Size ∧
        p.NextName = g'.Name ∧
        g'.Name = "CPP__" ++ p.tag ++ "const__[" ++ Fmt g'.Offset ++ "]" ∧
        p'.tag = p.tag ∧ p'.base_name = p.base_name) ∧
    (CPP_GlobalsInfo.new tag ty).base_name =
      "CPP__" ++ (CPP_GlobalsInfo.new tag ty).tag ++ "const__" ∧
    (CPP_GlobalInfo.standAlone name type cohort d).Name = name ∧
    (CPP_GlobalInfo.standAlone name type cohort d).Offset = -1 := by
  refine ⟨?_, rfl, rfl, rfl⟩
  intro hbase hc
  obtain ⟨p', h1, _, ht, _, hb, _, _⟩ := AddInstance_spec p g hc
  refine ⟨p', _, h1, rfl, ?_, ?_, ht, hb⟩
  · simp only [CPP_GlobalsInfo.NextName, CPP_GlobalsInfo.Name, CPP_GlobalsInfo.Size,
      CPP_GlobalInfo.Name, CPP_GlobalInfo.SetOffset, hbase]
  · simp only [CPP_GlobalInfo.Name, CPP_GlobalInfo.SetOffset, CPP_GlobalInfo.Offset]
    have e : ("CPP__" ++ p.tag ++ "const__") ++ "[" = "CPP__" ++ p.tag ++ "const__[" := by
      rw [String.append_assoc ("CPP__" ++ p.tag) "const__" "["]
      rfl
    rw [e]

/-- C18 at a concrete input: the pool `exTypePool1` and the vector type
`exVec`. -/
theorem C18_next_name_is_name_of_added_witness :
    (exTypePool1.base_name = "CPP__" ++ exTypePool1.tag ++ "const__" ∧ 0 ≤ exVec.InitCohort) ∧
    (∃ p' g', exTypePool1.AddInstance exVec = some (p', g') ∧
        g'.Offset = exTypePool1.Size ∧
        exTypePool1.NextName = g'.Name ∧
        g'.Name = "CPP__" ++ exTypePool1.tag ++ "const__[" ++ Fmt g'.Offset ++ "]" ∧
        p'.tag = exTypePool1.tag ∧ p'.base_name = exTypePool1.base_name) ∧
    exTypePool1.NextName = "CPP__Typeconst__[1]" :=
  ⟨⟨by decide, by decide⟩,
    (C18_next_name_is_name_of_added exTypePool1 exVec "" "" "" "" 0
      (InfoData.DescConstantInfo "")).1 (by decide) (by decide),
    by decide⟩

/-- C19: an `AttrsInfo` records exactly the offsets of the registered attribute
descriptors it is built over, one per attribute and in their order, and its
`Initializer()` is `"CPP_Attrs({ "`, then each offset followed by `", "`, then
`"})"`; nothing else of the attributes enters the rendering. -/
theorem C19_attrs_records_offsets (c0 : Int) (gis gis2 : List CPP_GlobalInfo) :
    (AttrsInfo c0 gis).data = InfoData.AttrsInfo (gis.map CPP_GlobalInfo.Offset) ∧
    (AttrsInfo c0 gis).Initializer =
      some ("CPP_Attrs(\x7b "
        ++ String.join ((gis.map CPP_GlobalInfo.Offset).map (fun a => Fmt a ++ ", "))
        ++ "\x7d)") ∧
    (gis.map CPP_GlobalInfo.Offset = gis2.map CPP_GlobalInfo.Offset →
      (AttrsInfo c0 gis).Initializer = (AttrsInfo c0 gis2).Initializer) := by
  have hd : ∀ l : List CPP_GlobalInfo,
      (AttrsInfo c0 l).data = InfoData.AttrsInfo (l.map CPP_GlobalInfo.Offset) := by
    intro l
    simp only [AttrsInfo, CPP_GlobalInfo.pooled]
    rw [foldl_offsets (fun m gi => max m (gi.InitCohort + 1)) l c0 []]
    rfl
  have hI : ∀ l : List CPP_GlobalInfo, (AttrsInfo c0 l).Initializer =
      some ("CPP_Attrs(\x7b "
        ++ String.join ((l.map CPP_GlobalInfo.Offset).map (fun a => Fmt a ++ ", "))
        ++ "\x7d)") := by
    intro l
    simp only [CPP_GlobalInfo.Initializer, hd l, fmtList_eq_join]
  refine ⟨hd gis, hI gis, ?_⟩
  intro h
  rw [hI gis, hI gis2, h]

/-- C19 at a concrete input: the attribute list `exAttrs` and the list
`exAttrs7`, the same attributes with other cohorts. -/
theorem C19_attrs_records_offsets_witness :
    (exAttrs.map CPP_GlobalInfo.Offset = exAttrs7.map CPP_GlobalInfo.Offset) ∧
    (AttrsInfo 0 exAttrs).Initializer = (AttrsInfo 0 exAttrs7).Initializer ∧
    (AttrsInfo 0 exAttrs).Initializer = some "CPP_Attrs(\x7b 0, 1, \x7d)" :=
  ⟨by decide, (C19_attrs_records_offsets 0 exAttrs exAttrs7).2.2 (by decide), by decide⟩

/-- C20: under the compile-side numbering (a pool built from a fresh one by
`AddInstance`, a `CPP_CustomInits` constructed with the same cohort shape, an
offset table giving cohort `k` the offsets of bucket `k`), for every cohort
`k` in `0 .. MaxCohort()` both `DoPreInits` and `InitializeCohort(im, k)`
return, that is, make no index access out of bounds, and every offset they
hand to `PreInit` or `Generate` is non-negative and smaller than the length
of the storage array. -/
theorem C20_accesses_in_bounds (tag ty : String) (gs gs' : List CPP_GlobalInfo)
    (p : CPP_GlobalsInfo)
    (hreg : (CPP_GlobalsInfo.new tag ty).AddInstances gs = some (p, gs'))
    (vec0 : List (Option V)) (os : Int) (inits : List (List I)) (im : InitsManager V)
    (hshape : inits.map List.length = p.instances.map List.length)
    (htable : ∀ k : Nat, k < p.instances.length →
      cohortOffsets im os k = some (((p.instances[k]?).getD []).map CPP_GlobalInfo.Offset))
    (k : Nat) (hk : (k : Int) ≤ p.MaxCohort) :
    ∃ pre calls, (CPP_CustomInits.new vec0 os inits).DoPreInits im = some pre ∧
      (CPP_CustomInits.new vec0 os inits).InitializeCohort im (k : Int) = some calls ∧
      (∀ x ∈ pre, 0 ≤ x.offset ∧
        x.offset < ((CPP_CustomInits.new vec0 os inits).inits_vec.length : Int)) ∧
      (∀ x ∈ calls, 0 ≤ x.offset ∧
        x.offset < ((CPP_CustomInits.new vec0 os inits).inits_vec.length : Int)) := by
  have h := AddInstances_nonneg gs _ _ hreg
  obtain ⟨p0, h0, hs, _, hi⟩ := fresh_AddInstances tag ty gs h
  rw [hreg] at h0
  cases h0
  obtain ⟨hlen, htab, hsz⟩ := compile_table_facts p vec0 os inits im hshape htable
  have hlenI : inits.length = p.instances.length := by
    have := congrArg List.length hshape
    simpa using this
  have hkI : k < (CPP_CustomInits.new vec0 os inits).inits.length := by
    simp only [CPP_CustomInits.new, hlenI]
    simp only [CPP_GlobalsInfo.MaxCohort] at hk
    omega
  have hne : (CPP_CustomInits.new vec0 os inits).inits ≠ [] := by
    intro e; rw [e] at hkI; simp at hkI
  have hvec : ((CPP_CustomInits.new vec0 os inits).inits_vec.length : Int) = gs.length := by
    rw [length_new_inits_vec, hshape, hi, List.map_map]
    have := sum_length_ofCohort (cohortCount gs) (registered tag 0 gs)
      (cohort_bounds_registered tag gs h)
    simp only [Function.comp_def]
    rw [this, length_registered]
  have hflat : ∀ o ∈ (p.instances.map (fun b => b.map CPP_GlobalInfo.Offset)).flatten,
      0 ≤ o ∧ o < ((CPP_CustomInits.new vec0 os inits).inits_vec.length : Int) := by
    intro o ho
    rw [hvec]
    obtain ⟨row, hrow, hor⟩ := List.mem_flatten.mp ho
    obtain ⟨b, hb, rfl⟩ := List.mem_map.mp hrow
    obtain ⟨g, hg, rfl⟩ := List.mem_map.mp hor
    rw [hi] at hb
    exact offset_bounds_registered tag gs g (mem_ofCohort_range _ _ b hb g hg)
  have hpre := DoPreInits_eq (CPP_CustomInits.new vec0 os inits) im _ hne hlen htab hsz
  have hrun := InitializeCohort_eq (CPP_CustomInits.new vec0 os inits) im _ hlen htab hsz k hkI
  have hpreb : ∀ x ∈ callsOf InitCall.PreInit (CPP_CustomInits.new vec0 os inits).inits
      (p.instances.map (fun b => b.map CPP_GlobalInfo.Offset)),
      0 ≤ x.offset ∧ x.offset < ((CPP_CustomInits.new vec0 os inits).inits_vec.length : Int) :=
    fun x hx => hflat _ (callsOf_offset_mem InitCall.PreInit (fun _ _ => rfl) _ _ x hx)
  refine ⟨_, _, hpre, hrun, hpreb, ?_⟩
  intro x hx
  rcases List.mem_append.mp hx with hx | hx
  · by_cases hz : k = 0
    · rw [if_pos hz] at hx
      exact hpreb x hx
    · rw [if_neg hz] at hx
      simp at hx
  · have hmem := zipWith_offset_mem InitCall.Generate (fun _ _ => rfl) _ _ x hx
    apply hflat
    apply List.mem_flatten.mpr
    have hk2 : k < (p.instances.map (fun b => b.map CPP_GlobalInfo.Offset)).length := by
      omega
    rw [List.getElem?_eq_getElem hk2, Option.getD_some] at hmem
    exact ⟨_, List.getElem_mem hk2, hmem⟩

/-- C20 at a concrete input: descriptors of cohorts 0, 1, 0, the matching
initializer set over the offset tables of `exIm`, cohort 1. -/
theorem C20_accesses_in_bounds_witness :
    ((CPP_GlobalsInfo.new "Type" "Type").AddInstances
        [exBaseType 0, exBaseType 1, exBaseType 0] =
        some (exTypePool3, registered "Type" 0 [exBaseType 0, exBaseType 1, exBaseType 0]) ∧
      [["a", "c"], ["b"]].map List.length = exTypePool3.instances.map List.length ∧
      (∀ k : Nat, k < exTypePool3.instances.length →
        cohortOffsets exIm 0 k =
          some (((exTypePool3.instances[k]?).getD []).map CPP_GlobalInfo.Offset)) ∧
      ((1 : Nat) : Int) ≤ exTypePool3.MaxCohort) ∧
    ∃ pre calls, (CPP_CustomInits.new ([] : List (Option String)) 0
          [["a", "c"], ["b"]]).DoPreInits exIm = some pre ∧
      (CPP_CustomInits.new ([] : List (Option String)) 0
          [["a", "c"], ["b"]]).InitializeCohort exIm ((1 : Nat) : Int) = some calls ∧
      (∀ x ∈ pre, 0 ≤ x.offset ∧
        x.offset < ((CPP_CustomInits.new ([] : List (Option String)) 0
          [["a", "c"], ["b"]]).inits_vec.length : Int)) ∧
      (∀ x ∈ calls, 0 ≤ x.offset ∧
        x.offset < ((CPP_CustomInits.new ([] : List (Option String)) 0
          [["a", "c"], ["b"]]).inits_vec.length : Int)) :=
  ⟨⟨by decide, by decide, by decide, by decide⟩,
    C20_accesses_in_bounds "Type" "Type" [exBaseType 0, exBaseType 1, exBaseType 0]
      (registered "Type" 0 [exBaseType 0, exBaseType 1, exBaseType 0]) exTypePool3
      (by decide) [] 0 [["a", "c"], ["b"]] exIm (by decide) (by decide) 1 (by decide)⟩

end Zeek
